import Mathlib

/-!
# The Win32 AIO reactor (`aio-win32.c`)

A shallow embedding of the handler registry (`aio_set_fd_handler`,
`aio_set_event_notifier`), of the socket prober (`aio_prepare`) and of the
dispatch walk (`aio_dispatch_handlers`), followed by the properties proved
about them.

Conventions of the embedding.

* Pointers (`EventNotifier *`, `IOHandler *`, `void *`) are natural numbers,
  `0` being `NULL`.  Sockets and `HANDLE`s are integers.
* `ctx->aio_handlers` is a `List AioHandler`, head first.  A node pointer is a
  position in that list: the lookup loops return the list split around the
  node they stop at.
* An assertion that fails aborts the process: the operations return `none`.
* Calls to functions of other modules (`WSAEventSelect`, `aio_notify`,
  `g_source_add_poll`, ...) are recorded, in order, in `AioContext.effects`.
-/

namespace AioWin32

/-! ## Constants of the system headers -/

/-- Value of `G_IO_IN` in GLib's `GIOCondition`. -/
def G_IO_IN : Nat := 1
/-- Value of `G_IO_OUT` in GLib's `GIOCondition`. -/
def G_IO_OUT : Nat := 4

/-- Winsock `FD_READ`. -/
def FD_READ : Nat := 1
/-- Winsock `FD_WRITE`. -/
def FD_WRITE : Nat := 2
/-- Winsock `FD_OOB`. -/
def FD_OOB : Nat := 4
/-- Winsock `FD_ACCEPT`. -/
def FD_ACCEPT : Nat := 8
/-- Winsock `FD_CONNECT`. -/
def FD_CONNECT : Nat := 16
/-- Winsock `FD_CLOSE`. -/
def FD_CLOSE : Nat := 32

/-- Winsock `POLLIN` (`POLLRDNORM | POLLRDBAND`). -/
def POLLIN : Nat := 0x0300
/-- Winsock `POLLOUT` (`POLLWRNORM`). -/
def POLLOUT : Nat := 0x0010
/-- Winsock `POLLERR`. -/
def POLLERR : Nat := 0x0001
/-- Winsock `POLLHUP`. -/
def POLLHUP : Nat := 0x0002

/-- Winsock `INVALID_SOCKET`, `(SOCKET)(~0)`: all bits set, `-1` as an integer. -/
def INVALID_SOCKET : Int := -1
/-- Win32 `INVALID_HANDLE_VALUE`, `(HANDLE)-1`. -/
def INVALID_HANDLE_VALUE : Int := -1

/-! ## Data model -/

/-- GLib's `GPollFD`. -/
structure GPollFD where
  fd : Int
  events : Nat
  revents : Nat
deriving DecidableEq, Repr

/-- Ghost tag: the function whose `g_new0` allocated a node.  The C struct has
no such field and no operation of the model reads it. -/
inductive Origin where
  | fd_handler
  | event_notifier
deriving DecidableEq, Repr

/-- The C `struct AioHandler` (the field `opaque` is spelled `opaque_`), with the
ghost field `origin`. -/
structure AioHandler where
  e : Nat
  io_read : Nat
  io_write : Nat
  io_notify : Nat
  pfd : GPollFD
  deleted : Int
  opaque_ : Nat
  is_external : Bool
  origin : Origin
deriving DecidableEq, Repr

/-- A call to a function that lives outside `aio-win32.c`. -/
inductive Effect where
  | WSAEventSelect (fd : Int) (event : Int) (mask : Nat)
  | aio_notify
  | g_source_add_poll (fd : Int)
  | g_source_remove_poll (fd : Int)
  | qemu_mutex_unlock_iothread
  | qemu_mutex_lock_iothread
  | WSAPoll (nfds : Nat)
  | WSAEnumNetworkEvents (fd : Int) (event : Int)
deriving DecidableEq, Repr

/-- The part of `AioContext` that `aio-win32.c` uses: the handler list, the
walk depth, the address `&ctx->notifier`, the counter `notify_me`, and the log
of external calls. -/
structure AioContext where
  aio_handlers : List AioHandler
  walking_handlers : Int
  notifier : Nat
  notify_me : Int
  effects : List Effect
deriving DecidableEq, Repr

/-- A zero-filled node, as `g_new0(AioHandler, 1)` returns it. -/
def g_new0 (o : Origin) : AioHandler :=
  { e := 0, io_read := 0, io_write := 0, io_notify := 0,
    pfd := { fd := 0, events := 0, revents := 0 },
    deleted := 0, opaque_ := 0, is_external := false, origin := o }

/-- The loop `QLIST_FOREACH(node, ...) { if (p(node)) break; }`: `none` when it
runs off the end (`node == NULL`), otherwise the nodes before the one it stops
at, that node, and the nodes after it. -/
def find_node (p : AioHandler → Bool) :
    List AioHandler → Option (List AioHandler × AioHandler × List AioHandler)
  | [] => none
  | n :: l =>
    if p n then some ([], n, l)
    else
      match find_node p l with
      | none => none
      | some (pre, m, post) => some (n :: pre, m, post)

/-- The test of the lookup loop of `aio_set_fd_handler`:
`node->pfd.fd == fd && !node->deleted`. -/
def fd_match (fd : Int) (node : AioHandler) : Bool :=
  decide (node.pfd.fd = fd ∧ node.deleted = 0)

/-- The test of the lookup loop of `aio_set_event_notifier`:
`node->e == e && !node->deleted`. -/
def notifier_match (e : Nat) (node : AioHandler) : Bool :=
  decide (node.e = e ∧ node.deleted = 0)

/-- The two assignments of the "just mark the node as deleted" branch:
`node->deleted = 1; node->pfd.revents = 0;`. -/
def tombstone (node : AioHandler) : AioHandler :=
  { node with deleted := 1, pfd := { node.pfd with revents := 0 } }

/-- The node `aio_set_fd_handler` allocates: `g_new0` followed by
`node->pfd.fd = fd`. -/
def new_fd_node (fd : Int) : AioHandler :=
  { g_new0 Origin.fd_handler with pfd := { fd := fd, events := 0, revents := 0 } }

/-- Lines 85-99 of `aio_set_fd_handler`, on the node found or allocated:
`pfd.events` is recomputed from the callbacks the node holds at that point,
then `e`, `opaque`, `io_read`, `io_write` and `is_external` are assigned. -/
def fd_node_update (notifier : Nat) (node : AioHandler) (is_external : Bool)
    (io_read io_write opaque_ : Nat) : AioHandler :=
  let ev0 : Nat := 0
  let ev1 := if node.io_read ≠ 0 then ev0 ||| G_IO_IN else ev0
  let ev2 := if node.io_write ≠ 0 then ev1 ||| G_IO_OUT else ev1
  { node with
    pfd := { node.pfd with events := ev2 },
    e := notifier,
    opaque_ := opaque_,
    io_read := io_read,
    io_write := io_write,
    is_external := is_external }

/-- The event mask `aio_set_fd_handler` passes to `WSAEventSelect`. -/
def select_mask (io_read io_write : Nat) : Nat :=
  (if io_read ≠ 0 then FD_READ else 0) ||| FD_ACCEPT ||| FD_CLOSE ||| FD_CONNECT |||
    (if io_write ≠ 0 then FD_WRITE else 0) ||| FD_OOB

/-- The embedding of `aio_set_fd_handler`.  `get_handle` is
`event_notifier_get_handle`. -/
def aio_set_fd_handler (get_handle : Nat → Int) (ctx : AioContext) (fd : Int)
    (is_external : Bool) (io_read io_write opaque_ : Nat) : Option AioContext :=
  let node := find_node (fd_match fd) ctx.aio_handlers
  if io_read = 0 ∧ io_write = 0 then
    match node with
    | none => some ctx
    | some (pre, n, post) =>
      if n.io_notify ≠ 0 then none
      else
        let eff := ctx.effects ++ [Effect.WSAEventSelect n.pfd.fd 0 0]
        if ctx.walking_handlers ≠ 0 then
          some { ctx with aio_handlers := pre ++ tombstone n :: post, effects := eff }
        else
          some { ctx with aio_handlers := pre ++ post, effects := eff }
  else
    let (pre, n, post) :=
      match node with
      | none => ([], new_fd_node fd, ctx.aio_handlers)
      | some s => s
    let n1 := fd_node_update ctx.notifier n is_external io_read io_write opaque_
    some { ctx with
      aio_handlers := pre ++ n1 :: post,
      effects := ctx.effects ++
        [Effect.WSAEventSelect n1.pfd.fd (get_handle ctx.notifier)
            (select_mask io_read io_write),
         Effect.aio_notify] }

/-- The node `aio_set_event_notifier` allocates and fills in, before
`io_notify` is assigned. -/
def new_notifier_node (get_handle : Nat → Int) (e : Nat) (is_external : Bool) : AioHandler :=
  { g_new0 Origin.event_notifier with
    e := e,
    pfd := { fd := get_handle e, events := G_IO_IN, revents := 0 },
    is_external := is_external }

/-- The embedding of `aio_set_event_notifier`. -/
def aio_set_event_notifier (get_handle : Nat → Int) (ctx : AioContext) (e : Nat)
    (is_external : Bool) (io_notify : Nat) : Option AioContext :=
  let node := find_node (notifier_match e) ctx.aio_handlers
  if io_notify = 0 then
    match node with
    | none => some { ctx with effects := ctx.effects ++ [Effect.aio_notify] }
    | some (pre, n, post) =>
      let eff := ctx.effects ++ [Effect.g_source_remove_poll n.pfd.fd, Effect.aio_notify]
      if ctx.walking_handlers ≠ 0 then
        some { ctx with aio_handlers := pre ++ tombstone n :: post, effects := eff }
      else
        some { ctx with aio_handlers := pre ++ post, effects := eff }
  else
    match node with
    | none =>
      let n := new_notifier_node get_handle e is_external
      some { ctx with
        aio_handlers := { n with io_notify := io_notify } :: ctx.aio_handlers,
        effects := ctx.effects ++ [Effect.g_source_add_poll n.pfd.fd, Effect.aio_notify] }
    | some (pre, n, post) =>
      some { ctx with
        aio_handlers := pre ++ { n with io_notify := io_notify } :: post,
        effects := ctx.effects ++ [Effect.aio_notify] }

/-- One call of the registration interface, as a caller or a callback issues it. -/
inductive RegCall where
  | set_fd_handler (fd : Int) (is_external : Bool) (io_read io_write opaque_ : Nat)
  | set_event_notifier (e : Nat) (is_external : Bool) (io_notify : Nat)
deriving DecidableEq, Repr

/-- Execute one registration call. -/
def RegCall.run (get_handle : Nat → Int) (ctx : AioContext) : RegCall → Option AioContext
  | RegCall.set_fd_handler fd ext r w o => aio_set_fd_handler get_handle ctx fd ext r w o
  | RegCall.set_event_notifier e ext n => aio_set_event_notifier get_handle ctx e ext n

/-- Execute a sequence of registration calls in order; `none` as soon as one of
them aborts. -/
def run_calls (get_handle : Nat → Int) : AioContext → List RegCall → Option AioContext
  | ctx, [] => some ctx
  | ctx, c :: cs =>
    match c.run get_handle ctx with
    | none => none
    | some ctx1 => run_calls get_handle ctx1 cs

/-! ## The prober: `aio_prepare` -/

/-- Winsock's `WSAPOLLFD` as `aio_prepare` fills it in (`revents` is written by
`WSAPoll` only). -/
structure WSAPOLLFD where
  fd : Int
  events : Nat
deriving DecidableEq, Repr

/-- Capacity of the array `WSAPOLLFD fds[128]`. -/
def FDS_CAPACITY : Nat := 128

/-- The body of the first loop of `aio_prepare` for one node: the slot
`fds[i]` it fills in.  For an ignored node the C code leaves `events`
uninitialised; the model puts `0` there. -/
def fds_slot (node : AioHandler) : WSAPOLLFD :=
  if node.deleted ≠ 0 ∨ (node.io_read = 0 ∧ node.io_write = 0) then
    { fd := INVALID_SOCKET, events := 0 }
  else
    { fd := node.pfd.fd,
      events := (if node.io_read ≠ 0 then POLLIN else 0) |||
        (if node.io_write ≠ 0 then POLLOUT else 0) }

/-- Whether the first loop of `aio_prepare` counts a node in `polled_count`. -/
def is_polled (node : AioHandler) : Bool :=
  !(decide (node.deleted ≠ 0 ∨ (node.io_read = 0 ∧ node.io_write = 0)))

/-- The array `fds[0 .. fds_count)` after the first loop of `aio_prepare`: the
loop breaks when `i` reaches the capacity, so only the first 128 nodes get a
slot. -/
def fill_fds (l : List AioHandler) : List WSAPOLLFD :=
  (l.take FDS_CAPACITY).map fds_slot

/-- The value of `polled_count` after the first loop of `aio_prepare`. -/
def polled_count (l : List AioHandler) : Nat :=
  ((l.take FDS_CAPACITY).filter is_polled).length

/-- Whether the node at position `i` was given a real socket in the batch:
`i < fds_count && fds[i].fd != INVALID_SOCKET`. -/
def slot_polled (fds : List WSAPOLLFD) (i : Nat) : Bool :=
  match fds[i]? with
  | none => false
  | some s => decide (s.fd ≠ INVALID_SOCKET)

/-- The value the second loop of `aio_prepare` leaves in `node->pfd.revents`
for the node at position `i`, given the `revents` that `WSAPoll` stored in
`fds[i]`. -/
def probe_revents (fds : List WSAPOLLFD) (revents : Nat → Nat) (i : Nat) : Nat :=
  let r0 : Nat := 0
  let r1 :=
    if slot_polled fds i = true ∧ revents i &&& (POLLIN ||| POLLHUP ||| POLLERR) ≠ 0
    then r0 ||| G_IO_IN else r0
  if slot_polled fds i = true ∧ revents i &&& POLLOUT ≠ 0 then r1 ||| G_IO_OUT else r1

/-- Whether the second loop of `aio_prepare` sets `have_select_revents` at
position `i`. -/
def probe_hit (fds : List WSAPOLLFD) (revents : Nat → Nat) (i : Nat) : Bool :=
  slot_polled fds i &&
    (decide (revents i &&& (POLLIN ||| POLLHUP ||| POLLERR) ≠ 0) ||
      decide (revents i &&& POLLOUT ≠ 0))

/-- The second loop of `aio_prepare`, started at position `i`: the nodes with
their new `revents`, and whether `have_select_revents` was set. -/
def write_back (fds : List WSAPOLLFD) (revents : Nat → Nat) :
    Nat → List AioHandler → List AioHandler × Bool
  | _, [] => ([], false)
  | i, node :: l =>
    let rest := write_back fds revents (i + 1) l
    ({ node with pfd := { node.pfd with revents := probe_revents fds revents i } } :: rest.1,
      probe_hit fds revents i || rest.2)

/-- The embedding of `aio_prepare`.  `WSAPoll fds` gives the return value of
the poll call made on the batch `fds` with timeout 0 and the `revents` it
stored in each slot; `iothread_locked` is `qemu_mutex_iothread_locked()`. -/
def aio_prepare (WSAPoll : List WSAPOLLFD → Int × (Nat → Nat)) (iothread_locked : Bool)
    (ctx : AioContext) : Bool × AioContext :=
  let ctx1 := { ctx with walking_handlers := ctx.walking_handlers + 1 }
  let fds := fill_fds ctx1.aio_handlers
  if polled_count ctx1.aio_handlers = 0 then
    (false, { ctx1 with walking_handlers := ctx1.walking_handlers - 1 })
  else
    let unlock := if iothread_locked then [Effect.qemu_mutex_unlock_iothread] else []
    let relock := if iothread_locked then [Effect.qemu_mutex_lock_iothread] else []
    let ctx2 := { ctx1 with
      effects := ctx1.effects ++ unlock ++ [Effect.WSAPoll fds.length] ++ relock }
    let res := WSAPoll fds
    if res.1 > 0 then
      let wb := write_back fds res.2 0 ctx2.aio_handlers
      (wb.2, { ctx2 with aio_handlers := wb.1, walking_handlers := ctx2.walking_handlers - 1 })
    else
      (false, { ctx2 with walking_handlers := ctx2.walking_handlers - 1 })

/-! ## The wait-set of `aio_poll` -/

/-- The loop "fill fd sets" of `aio_poll`: the handles stored in `events[]`, in
order.  `aio_node_check` is the admission test on `is_external` (it lives in
`block/aio.h`). -/
def fill_events (get_handle : Nat → Int) (aio_node_check : Bool → Bool)
    (l : List AioHandler) : List Int :=
  (l.filter fun node =>
      decide (node.deleted = 0 ∧ node.io_notify ≠ 0) && aio_node_check node.is_external).map
    fun node => get_handle node.e

/-! ## The dispatch walk: `aio_dispatch_handlers` -/

/-- Which of the three callbacks of a node is called. -/
inductive CbKind where
  | notify
  | read
  | write
deriving DecidableEq, Repr

/-- One callback invocation made by the walk.  `node` is the content of
`*node` at the moment of the call (it holds the function pointer called and its
argument: `io_notify(e)`, `io_read(opaque)`, `io_write(opaque)`).  `slot` is a
ghost name for the node: the number of nodes from it to the end of the list,
itself included.  While a walk holds `walking_handlers > 0` nodes are only
inserted at the head and never unlinked, so this number does not change. -/
structure Invocation where
  kind : CbKind
  slot : Nat
  node : AioHandler
deriving DecidableEq, Repr

/-- Everything the walk gets from outside `aio-win32.c`.

* `get_handle` is `event_notifier_get_handle`.
* `callback history inv ctx` is the sequence of registration calls that the
  callback invoked by `inv` makes, given the invocations made earlier in this
  pass and the registry it finds.
* `WSAEnumNetworkEvents history fd` is the `lNetworkEvents` the re-probe of
  socket `fd` reports. -/
structure Env where
  get_handle : Nat → Int
  callback : List Invocation → Invocation → AioContext → List RegCall
  WSAEnumNetworkEvents : List Invocation → Int → Nat

/-- The state of a walk: the context, the local `progress`, and the
invocations made so far (oldest first). -/
structure Walk where
  ctx : AioContext
  progress : Bool
  trace : List Invocation
deriving DecidableEq, Repr

/-- The node that lies `slot` nodes before the end of the list (`slot ≥ 1`),
with the nodes before and after it; `none` when there is no such node. -/
def node_at (l : List AioHandler) (slot : Nat) :
    Option (List AioHandler × AioHandler × List AioHandler) :=
  if slot = 0 ∨ l.length < slot then none
  else
    match l.drop (l.length - slot) with
    | [] => none
    | n :: post => some (l.take (l.length - slot), n, post)

/-- The node after the assignment `node->pfd.revents = 0`. -/
def clear_node (node : AioHandler) : AioHandler :=
  { node with pfd := { node.pfd with revents := 0 } }

/-- The assignment `node->pfd.revents = 0` on the node in slot `slot`. -/
def clear_revents (ctx : AioContext) (slot : Nat) : AioContext :=
  match node_at ctx.aio_handlers slot with
  | none => ctx
  | some (pre, n, post) => { ctx with aio_handlers := pre ++ clear_node n :: post }

/-- Call one callback: record the invocation and run the registration calls
the callback makes. -/
def invoke (env : Env) (w : Walk) (inv : Invocation) : Option Walk :=
  match run_calls env.get_handle w.ctx (env.callback w.trace inv w.ctx) with
  | none => none
  | some ctx1 => some { w with ctx := ctx1, trace := w.trace ++ [inv] }

/-- Lines 269-279: the notify block for the node in slot `slot`; `revents` is
the local copy of `node->pfd.revents` taken at the top of the iteration. -/
def dispatch_notify (env : Env) (event : Int) (slot : Nat) (revents : Nat) (w : Walk) :
    Option Walk :=
  match node_at w.ctx.aio_handlers slot with
  | none => none
  | some (_, node, _) =>
    if node.deleted = 0 ∧ (revents ≠ 0 ∨ env.get_handle node.e = event) ∧
        node.io_notify ≠ 0 then
      let w1 := { w with ctx := clear_revents w.ctx slot }
      match invoke env w1 { kind := CbKind.notify, slot := slot, node := clear_node node } with
      | none => none
      | some w2 =>
        match node_at w2.ctx.aio_handlers slot with
        | none => none
        | some (_, node2, _) =>
          if node2.e ≠ w2.ctx.notifier then some { w2 with progress := true } else some w2
    else some w

/-- Lines 284-287: the `io_read` call. -/
def dispatch_read (env : Env) (slot : Nat) (revents : Nat) (w : Walk) : Option Walk :=
  match node_at w.ctx.aio_handlers slot with
  | none => none
  | some (_, node, _) =>
    if revents &&& G_IO_IN ≠ 0 ∧ node.io_read ≠ 0 then
      match invoke env w { kind := CbKind.read, slot := slot, node := node } with
      | none => none
      | some w1 => some { w1 with progress := true }
    else some w

/-- Lines 288-291: the `io_write` call. -/
def dispatch_write (env : Env) (slot : Nat) (revents : Nat) (w : Walk) : Option Walk :=
  match node_at w.ctx.aio_handlers slot with
  | none => none
  | some (_, node, _) =>
    if revents &&& G_IO_OUT ≠ 0 ∧ node.io_write ≠ 0 then
      match invoke env w { kind := CbKind.write, slot := slot, node := node } with
      | none => none
      | some w1 => some { w1 with progress := true }
    else some w

/-- Lines 293-303: the re-probe of the node's socket. -/
def dispatch_reprobe (env : Env) (event : Int) (slot : Nat) (w : Walk) : Option Walk :=
  match node_at w.ctx.aio_handlers slot with
  | none => none
  | some (_, node, _) =>
    if event = env.get_handle w.ctx.notifier ∨
        (event = INVALID_HANDLE_VALUE ∧ node.e = w.ctx.notifier) then
      let ctx1 := { w.ctx with
        effects := w.ctx.effects ++
          [Effect.WSAEnumNetworkEvents node.pfd.fd (env.get_handle w.ctx.notifier)] }
      if env.WSAEnumNetworkEvents w.trace node.pfd.fd ≠ 0 then
        some { w with ctx := ctx1, progress := true }
      else some { w with ctx := ctx1 }
    else some w

/-- Lines 281-304: the read/write block for the node in slot `slot`. -/
def dispatch_rw (env : Env) (event : Int) (slot : Nat) (revents : Nat) (w : Walk) :
    Option Walk :=
  match node_at w.ctx.aio_handlers slot with
  | none => none
  | some (_, node, _) =>
    if node.deleted = 0 ∧ (node.io_read ≠ 0 ∨ node.io_write ≠ 0) then
      match dispatch_read env slot revents { w with ctx := clear_revents w.ctx slot } with
      | none => none
      | some w1 =>
        match dispatch_write env slot revents w1 with
        | none => none
        | some w2 => dispatch_reprobe env event slot w2
    else some w

/-- Lines 306-314: `walking_handlers--`, then unlink and free the node just
visited when no walk is left and the node is marked deleted. -/
def dispatch_sweep (slot : Nat) (w : Walk) : Option Walk :=
  match node_at w.ctx.aio_handlers slot with
  | none => none
  | some (pre, tmp, post) =>
    let ctx1 := { w.ctx with walking_handlers := w.ctx.walking_handlers - 1 }
    if ctx1.walking_handlers = 0 ∧ tmp.deleted ≠ 0 then
      some { w with ctx := { ctx1 with aio_handlers := pre ++ post } }
    else some { w with ctx := ctx1 }

/-- One iteration of `while (node)` for the node in slot `slot`. -/
def dispatch_node (env : Env) (event : Int) (slot : Nat) (w : Walk) : Option Walk :=
  match node_at w.ctx.aio_handlers slot with
  | none => none
  | some (_, node, _) =>
    let revents := node.pfd.revents
    let w1 := { w with ctx := { w.ctx with walking_handlers := w.ctx.walking_handlers + 1 } }
    match dispatch_notify env event slot revents w1 with
    | none => none
    | some w2 =>
      match dispatch_rw env event slot revents w2 with
      | none => none
      | some w3 => dispatch_sweep slot w3

/-- The loop `while (node)`: `slot` nodes are left to visit, `node` being the
one in slot `slot` (`NULL` when `slot = 0`); `QLIST_NEXT` moves to
`slot - 1`. -/
def dispatch_loop (env : Env) (event : Int) : Nat → Walk → Option Walk
  | 0, w => some w
  | slot + 1, w =>
    match dispatch_node env event (slot + 1) w with
    | none => none
    | some w1 => dispatch_loop env event slot w1

/-- The embedding of `aio_dispatch_handlers`: the walk starts at
`QLIST_FIRST`, with `progress = false`.  The result holds the returned
`progress`, the context after the pass and the invocations made. -/
def aio_dispatch_handlers (env : Env) (ctx : AioContext) (event : Int) : Option Walk :=
  dispatch_loop env event ctx.aio_handlers.length
    { ctx := ctx, progress := false, trace := [] }

/-! ## Observations on a registry -/

/-- Whether a node is live: `!node->deleted`. -/
def is_live (node : AioHandler) : Bool := decide (node.deleted = 0)

/-- The entries that are not marked deleted, in list order. -/
def live_entries (l : List AioHandler) : List AioHandler := l.filter is_live

/-- What a registration leaves in an entry: the key (`pfd.fd` and `e`), then
`io_read`, `io_write`, `io_notify`, `opaque`, `is_external`. -/
def entry_view (node : AioHandler) : Int × Nat × Nat × Nat × Nat × Nat × Bool :=
  (node.pfd.fd, node.e, node.io_read, node.io_write, node.io_notify, node.opaque_,
    node.is_external)

/-- The list of non-deleted entries of a context, in list order. -/
def live_view (ctx : AioContext) : List (Int × Nat × Nat × Nat × Nat × Nat × Bool) :=
  (live_entries ctx.aio_handlers).map entry_view

/-- The context in which every tombstone has been unlinked and no walk is in
progress. -/
def compact (ctx : AioContext) : AioContext :=
  { ctx with aio_handlers := live_entries ctx.aio_handlers, walking_handlers := 0 }

/-- Execute a sequence of registration calls, each issued at the given value
of `walking_handlers`. -/
def run_calls_at (get_handle : Nat → Int) :
    AioContext → List (Int × RegCall) → Option AioContext
  | ctx, [] => some ctx
  | ctx, (w, c) :: cs =>
    match c.run get_handle { ctx with walking_handlers := w } with
    | none => none
    | some ctx1 => run_calls_at get_handle ctx1 cs

/-- The sockets of the live entries that `aio_set_fd_handler` created, in list
order. -/
def fd_keys (l : List AioHandler) : List Int :=
  (l.filter fun n => is_live n && decide (n.origin = Origin.fd_handler)).map fun n => n.pfd.fd

/-- The notifiers `e` of the live entries that `aio_set_event_notifier`
created, in list order. -/
def notifier_keys (l : List AioHandler) : List Nat :=
  (l.filter fun n => is_live n && decide (n.origin = Origin.event_notifier)).map fun n => n.e

/-- A call respects the separation of sockets and notifier handles: the socket
given to `aio_set_fd_handler` is the handle of no notifier. -/
def socket_ok (get_handle : Nat → Int) : RegCall → Prop
  | RegCall.set_fd_handler fd _ _ _ _ => ∀ e, get_handle e ≠ fd
  | RegCall.set_event_notifier _ _ _ => True

/-- Every live entry has at most one of the two watch modes: a notify
callback, or read/write callbacks. -/
def modes_exclusive (l : List AioHandler) : Prop :=
  ∀ n ∈ l, n.deleted = 0 → ¬ (n.io_notify ≠ 0 ∧ (n.io_read ≠ 0 ∨ n.io_write ≠ 0))

/-- Every entry created by `aio_set_event_notifier` has a notifier handle in
`pfd.fd`. -/
def handle_keyed (h : Nat → Int) (l : List AioHandler) : Prop :=
  ∀ n ∈ l, n.origin = Origin.event_notifier → ∃ e, n.pfd.fd = h e

/-- A live, admitted notify entry for the notifier at address `a`, as
`aio_set_event_notifier` registers it: `e = a`, a notify callback, the
notifier's handle in `pfd.fd`, and `is_external` passing `aio_node_check`. -/
def is_wake_entry (get_handle : Nat → Int) (aio_node_check : Bool → Bool) (a : Nat)
    (x : AioHandler) : Prop :=
  x.deleted = 0 ∧ x.e = a ∧ x.io_notify ≠ 0 ∧ x.pfd.fd = get_handle a ∧
    aio_node_check x.is_external = true

/-- A call that leaves the registration of the notifier at address `a` alone:
it is not `aio_set_event_notifier(ctx, a, _, NULL)`, and it does not use the
notifier's handle as a socket. -/
def keeps_wake (get_handle : Nat → Int) (a : Nat) : RegCall → Prop
  | RegCall.set_fd_handler fd _ _ _ _ => fd ≠ get_handle a
  | RegCall.set_event_notifier e _ io_notify => e = a → io_notify ≠ 0

/-! ## Invariants of a walk -/

/-- A property of the walk state is kept by the steps of the iteration for
`slot`: by `node->pfd.revents = 0`, by the invocation of a callback of the
node in that slot, by setting `progress`, and by logging an external call. -/
structure StepClosed (env : Env) (slot : Nat) (P : Walk → Prop) : Prop where
  clear : ∀ w, P w → P { w with ctx := clear_revents w.ctx slot }
  call : ∀ w w1 inv pre post, P w → inv.slot = slot →
    node_at w.ctx.aio_handlers slot = some (pre, inv.node, post) →
    invoke env w inv = some w1 → P w1
  progress : ∀ w, P w → P { w with progress := true }
  effects : ∀ w eff, P w → P { w with ctx := { w.ctx with effects := eff } }

/-- Every node that lies before the node in slot `slot` (the nodes the walk
has already left, and the nodes inserted at the head since) is live. -/
def visited_live (l : List AioHandler) (slot : Nat) : Prop :=
  ∀ n ∈ l.take (l.length - slot), n.deleted = 0

/-- No callback tombstones an entry that lies before the node being visited:
the registration calls a callback makes during a walk keep `visited_live` for
the slot of the node it was invoked on. -/
def spares_visited (env : Env) : Prop :=
  ∀ (trace : List Invocation) (inv : Invocation) (ctx ctx1 : AioContext),
    ctx.walking_handlers ≠ 0 → inv.slot ≤ ctx.aio_handlers.length →
    run_calls env.get_handle ctx (env.callback trace inv ctx) = some ctx1 →
    visited_live ctx.aio_handlers inv.slot → visited_live ctx1.aio_handlers inv.slot

/-- The notify block fires for a node as the iteration finds it. -/
def notify_due (get_handle : Nat → Int) (event : Int) (node : AioHandler) : Prop :=
  node.deleted = 0 ∧ (node.pfd.revents ≠ 0 ∨ get_handle node.e = event) ∧ node.io_notify ≠ 0

instance (get_handle : Nat → Int) (event : Int) (node : AioHandler) :
    Decidable (notify_due get_handle event node) := by
  unfold notify_due; infer_instance

/-- The read/write block is entered for a node. -/
def rw_due (node : AioHandler) : Prop :=
  node.deleted = 0 ∧ (node.io_read ≠ 0 ∨ node.io_write ≠ 0)

instance (node : AioHandler) : Decidable (rw_due node) := by
  unfold rw_due; infer_instance

/-- The invocations one iteration makes on a node when no callback touches the
registry, in order. -/
def quiet_invocations (get_handle : Nat → Int) (event : Int) (slot : Nat)
    (node : AioHandler) : List Invocation :=
  (if notify_due get_handle event node then
      [{ kind := CbKind.notify, slot := slot, node := clear_node node }]
    else []) ++
  (if rw_due node ∧ node.pfd.revents &&& G_IO_IN ≠ 0 ∧ node.io_read ≠ 0 then
      [{ kind := CbKind.read, slot := slot, node := clear_node node }]
    else []) ++
  (if rw_due node ∧ node.pfd.revents &&& G_IO_OUT ≠ 0 ∧ node.io_write ≠ 0 then
      [{ kind := CbKind.write, slot := slot, node := clear_node node }]
    else [])

/-- What one iteration leaves of a node when no callback touches the registry,
`outer` being the value of `walking_handlers` around the pass: nothing if the
node is marked deleted and no outer walk is in progress, else the node, with
`revents` cleared if one of the two blocks was entered. -/
def quiet_node (outer : Int) (get_handle : Nat → Int) (event : Int) (node : AioHandler) :
    List AioHandler :=
  if outer = 0 ∧ node.deleted ≠ 0 then []
  else if notify_due get_handle event node ∨ rw_due node then [clear_node node]
  else [node]

/-- The invocations of a whole pass over `l` when no callback touches the
registry. -/
def quiet_trace (get_handle : Nat → Int) (event : Int) : List AioHandler → List Invocation
  | [] => []
  | node :: l =>
    quiet_invocations get_handle event (l.length + 1) node ++ quiet_trace get_handle event l

/-- The list a whole pass over `l` leaves when no callback touches the
registry, `outer` being the value of `walking_handlers` around the pass. -/
def quiet_list (outer : Int) (get_handle : Nat → Int) (event : Int) :
    List AioHandler → List AioHandler
  | [] => []
  | node :: l => quiet_node outer get_handle event node ++ quiet_list outer get_handle event l

/-- No registration call made by a callback during a walk fails an
assertion. -/
def no_abort (env : Env) : Prop :=
  ∀ (trace : List Invocation) (inv : Invocation) (ctx : AioContext),
    ctx.walking_handlers ≠ 0 →
    ∃ ctx1, run_calls env.get_handle ctx (env.callback trace inv ctx) = some ctx1

/-- The callbacks do not touch the registry. -/
def no_mutation (env : Env) : Prop :=
  ∀ (trace : List Invocation) (inv : Invocation) (ctx : AioContext),
    env.callback trace inv ctx = []

/-! ## The poll call: `aio_poll` -/

/-- What `aio_poll` takes from outside this file.  `MAXIMUM_WAIT_OBJECTS` is the
constant of the Windows headers; `notify_me_bits` is the width of the type of
`ctx->notify_me`, an unsigned integer type declared in `block/aio.h`;
`timeout_ms ctx` is
`qemu_timeout_ns_to_ms(aio_compute_timeout(ctx))`; `WaitForMultipleObjects k
count events timeout` is the value of the `k`-th wait of the call (a `DWORD`);
`aio_bh_poll` and `timerlistgroup_run_timers` give their return value and the
registration calls their callbacks make; `callback k` and
`WSAEnumNetworkEvents k` are the callbacks and the re-probe of the pass made
in iteration `k`. -/
structure PollEnv where
  get_handle : Nat → Int
  MAXIMUM_WAIT_OBJECTS : Nat
  notify_me_bits : Nat
  WSAPoll : List WSAPOLLFD → Int × (Nat → Nat)
  iothread_locked : Bool
  aio_node_check : Bool → Bool
  timeout_ms : AioContext → Int
  WaitForMultipleObjects : Nat → Int → List Int → Int → Nat
  aio_bh_poll : AioContext → Bool × List RegCall
  timerlistgroup_run_timers : AioContext → Bool × List RegCall
  callback : Nat → List Invocation → Invocation → AioContext → List RegCall
  WSAEnumNetworkEvents : Nat → List Invocation → Int → Nat

/-- The call `atomic_add(&v, n)` on an unsigned counter of `bits` bits: the new
value of the counter. -/
def atomic_add (bits : Nat) (v n : Int) : Int :=
  (v + n) % ((2 ^ bits : Nat) : Int)

/-- The call `atomic_sub(&v, n)` on an unsigned counter of `bits` bits: the new
value of the counter. -/
def atomic_sub (bits : Nat) (v n : Int) : Int :=
  (v - n) % ((2 ^ bits : Nat) : Int)

/-- The environment of the dispatch pass made in iteration `k`. -/
def pass_env (pe : PollEnv) (k : Nat) : Env :=
  { get_handle := pe.get_handle,
    callback := pe.callback k,
    WSAEnumNetworkEvents := pe.WSAEnumNetworkEvents k }

/-- The operations of `aio_poll`, as they are logged.  A wait carries `count`,
the wait-set `events[0 .. count-1]`, the timeout and the returned value; a
dispatch carries the signaled handle, `none` for `event = NULL`. -/
inductive PollOp where
  | aio_context_acquire
  | aio_context_release
  | atomic_add
  | atomic_sub
  | aio_prepare (res : Bool)
  | WaitForMultipleObjects (count : Int) (events : List Int) (timeout : Int) (ret : Nat)
  | aio_notify_accept
  | aio_bh_poll
  | aio_dispatch_handlers (event : Option Int)
  | timerlistgroup_run_timers
deriving DecidableEq, Repr

/-- A logged operation with the value of `ctx->notify_me` and the depth of the
context lock held by the call (the lock being recursive) right after it; the
calls `aio_bh_poll`, `aio_dispatch_handlers` and `timerlistgroup_run_timers`
are logged when they are made. -/
structure PollEvent where
  op : PollOp
  notify_me : Int
  lock : Int
deriving DecidableEq, Repr

/-- The locals of `aio_poll` with the context, the lock depth taken by the
call, and the log. -/
structure PollState where
  ctx : AioContext
  events : List Int
  count : Int
  blocking : Bool
  have_select_revents : Bool
  first : Bool
  progress : Bool
  lock : Int
  iter : Nat
  log : List PollEvent
deriving Repr

/-- Append an operation to the log. -/
def PollState.record (s : PollState) (op : PollOp) : PollState :=
  { s with log := s.log ++ [{ op := op, notify_me := s.ctx.notify_me, lock := s.lock }] }

/-- The ways a call of `aio_poll` stops without returning: one of its two
assertions, a store beyond `events[MAXIMUM_WAIT_OBJECTS]`, or an assertion of
a registration function called from a callback. -/
inductive Abort where
  | assert_count
  | assert_first
  | events_overflow
  | callback
deriving DecidableEq, Repr

/-- How one execution of the loop body ends: at the test `while (count > 0)`,
at the `break`, or in an abort. -/
inductive Step where
  | next (s : PollState)
  | exit (s : PollState)
  | abort (a : Abort) (s : PollState)

/-- The result of a call: it returned (the returned `progress` is in the
state), it aborted, or the model's iteration budget ran out. -/
inductive Outcome where
  | returned (s : PollState)
  | aborted (a : Abort) (s : PollState)
  | out_of_fuel (s : PollState)

/-- The state a call ended in. -/
def Outcome.state : Outcome → PollState
  | Outcome.returned s => s
  | Outcome.aborted _ s => s
  | Outcome.out_of_fuel s => s

/-- Whether a logged operation is a wait. -/
def PollOp.is_wait : PollOp → Bool
  | PollOp.WaitForMultipleObjects _ _ _ _ => true
  | _ => false

/-- The number of waits in a log. -/
def wait_count (l : List PollEvent) : Nat :=
  (l.filter fun e => e.op.is_wait).length

/-- The handles a log has taken out of the wait-set and dispatched. -/
def signaled (l : List PollEvent) : List Int :=
  l.filterMap fun e =>
    match e.op with
    | PollOp.aio_dispatch_handlers ev => ev
    | _ => none

/-- The wait-set: `events[0 .. count-1]`. -/
def PollState.wait_set (s : PollState) : List Int :=
  s.events.take s.count.toNat

/-- Lines 378-379. -/
def poll_timeout (pe : PollEnv) (s : PollState) : Int :=
  if s.blocking = true ∧ s.have_select_revents = false then pe.timeout_ms s.ctx else 0

/-- Lines 380-382: `if (timeout) aio_context_release(ctx)`. -/
def poll_release (timeout : Int) (s : PollState) : PollState :=
  if timeout ≠ 0 then
    ({ s with lock := s.lock - 1 }).record PollOp.aio_context_release
  else s

/-- Line 383: the wait. -/
def poll_wait (pe : PollEnv) (timeout : Int) (s : PollState) : Nat × PollState :=
  let ret := pe.WaitForMultipleObjects s.iter s.count s.events timeout
  (ret, ({ s with iter := s.iter + 1 }).record
    (PollOp.WaitForMultipleObjects s.count s.wait_set timeout ret))

/-- Lines 384-387: `if (blocking) { assert(first); atomic_sub(...) }`. -/
def poll_sub (pe : PollEnv) (s : PollState) : Option PollState :=
  if s.blocking = true then
    if s.first = true then
      some (({ s with ctx := { s.ctx with
          notify_me := atomic_sub pe.notify_me_bits s.ctx.notify_me 2 } }).record
        PollOp.atomic_sub)
    else none
  else some s

/-- Lines 388-390: `if (timeout) aio_context_acquire(ctx)`. -/
def poll_acquire (timeout : Int) (s : PollState) : PollState :=
  if timeout ≠ 0 then
    ({ s with lock := s.lock + 1 }).record PollOp.aio_context_acquire
  else s

/-- Lines 392-396: `if (first) { aio_notify_accept; progress |= aio_bh_poll;
first = false }`. -/
def poll_first (pe : PollEnv) (s : PollState) : Option PollState :=
  if s.first = true then
    let s1 := (s.record PollOp.aio_notify_accept).record PollOp.aio_bh_poll
    let b := pe.aio_bh_poll s1.ctx
    match run_calls pe.get_handle s1.ctx b.2 with
    | none => none
    | some ctx1 =>
      some { s1 with ctx := ctx1, progress := s1.progress || b.1, first := false }
  else some s

/-- Lines 405-408: the two assignments and the dispatch pass. -/
def poll_dispatch (pe : PollEnv) (event : Option Int) (s : PollState) : Step :=
  let s1 := ({ s with have_select_revents := false, blocking := false }).record
    (PollOp.aio_dispatch_handlers event)
  match aio_dispatch_handlers (pass_env pe s.iter) s1.ctx (event.getD 0) with
  | none => Step.abort Abort.callback s1
  | some w => Step.next { s1 with ctx := w.ctx, progress := s1.progress || w.progress }

/-- The test `(DWORD) (ret - WAIT_OBJECT_0) < count`, `WAIT_OBJECT_0` being 0
and `count` being converted to `DWORD`. -/
def is_signaled (ret : Nat) (count : Int) : Prop :=
  ret % 4294967296 < (count % 4294967296).toNat

instance (ret : Nat) (count : Int) : Decidable (is_signaled ret count) := by
  unfold is_signaled; infer_instance

/-- Lines 398-404: take the signaled handle out of the wait-set
(`events[ret] = events[--count]`), or leave the loop, or go on with
`event = NULL`. -/
def poll_select (pe : PollEnv) (ret : Nat) (s : PollState) : Step :=
  if is_signaled ret s.count then
    let i := ret % 4294967296
    let event := s.events.getD i 0
    let count1 := s.count - 1
    let s1 := { s with events := s.events.set i (s.events.getD count1.toNat 0),
                       count := count1 }
    poll_dispatch pe (some event) s1
  else if s.have_select_revents = false then Step.exit s
  else poll_dispatch pe none s

/-- One execution of the body of the `do ... while` loop (lines 375-409). -/
def poll_iter (pe : PollEnv) (s : PollState) : Step :=
  let timeout := poll_timeout pe s
  let r := poll_wait pe timeout (poll_release timeout s)
  match poll_sub pe r.2 with
  | none => Step.abort Abort.assert_first r.2
  | some s3 =>
    match poll_first pe (poll_acquire timeout s3) with
    | none =>
      Step.abort Abort.callback
        (((poll_acquire timeout s3).record PollOp.aio_notify_accept).record PollOp.aio_bh_poll)
    | some s5 => poll_select pe r.1 s5

/-- Lines 411-414: the timers, the release of the lock, the return. -/
def poll_finish (pe : PollEnv) (s : PollState) : Outcome :=
  let s1 := s.record PollOp.timerlistgroup_run_timers
  let t := pe.timerlistgroup_run_timers s1.ctx
  match run_calls pe.get_handle s1.ctx t.2 with
  | none => Outcome.aborted Abort.callback s1
  | some ctx1 =>
    Outcome.returned
      (({ s1 with ctx := ctx1, progress := s1.progress || t.1, lock := s1.lock - 1 }).record
        PollOp.aio_context_release)

/-- The `do ... while (count > 0)` loop; `fuel` bounds the number of
executions of the body. -/
def poll_loop (pe : PollEnv) : Nat → PollState → Outcome
  | 0, s => Outcome.out_of_fuel s
  | fuel + 1, s =>
    match poll_iter pe s with
    | Step.abort a s1 => Outcome.aborted a s1
    | Step.exit s1 => poll_finish pe s1
    | Step.next s1 => if s1.count > 0 then poll_loop pe fuel s1 else poll_finish pe s1

/-- Lines 338-350: the lock is taken, `progress = false`, and with `blocking`
the counter is raised by 2.  The lock depth counts from the caller's. -/
def poll_enter (pe : PollEnv) (ctx : AioContext) (blocking : Bool) : PollState :=
  let s0 : PollState :=
    ({ ctx := ctx, events := [], count := 0, blocking := blocking,
       have_select_revents := false, first := false, progress := false,
       lock := 1, iter := 0, log := [] } : PollState).record PollOp.aio_context_acquire
  if blocking = true then
    ({ s0 with ctx := { s0.ctx with
        notify_me := atomic_add pe.notify_me_bits s0.ctx.notify_me 2 } }).record
      PollOp.atomic_add
  else s0

/-- Lines 352-366: `aio_prepare`, then the handles of the live entries with a
notify callback are stored in `events[]` (the walk raises and lowers
`walking_handlers` and calls nothing in between), `first = true`. -/
def poll_fill (pe : PollEnv) (s : PollState) : PollState :=
  let p := aio_prepare pe.WSAPoll pe.iothread_locked s.ctx
  let s1 := ({ s with ctx := p.2, have_select_revents := p.1 }).record (PollOp.aio_prepare p.1)
  let events := fill_events pe.get_handle pe.aio_node_check s1.ctx.aio_handlers
  { s1 with events := events, count := events.length, first := true }

/-- The embedding of `aio_poll`.  The array `events[]` has
`MAXIMUM_WAIT_OBJECTS + 1` slots and the fill loop does not test the index. -/
def aio_poll (pe : PollEnv) (fuel : Nat) (ctx : AioContext) (blocking : Bool) : Outcome :=
  let s := poll_fill pe (poll_enter pe ctx blocking)
  if pe.MAXIMUM_WAIT_OBJECTS + 1 < s.events.length then
    Outcome.aborted Abort.events_overflow s
  else if s.count > 0 then poll_loop pe fuel s
  else Outcome.aborted Abort.assert_count s

/-! ## Facts kept by the loop of `aio_poll` -/

/-- The number of occurrences of an operation in a log. -/
def op_count (p : PollOp) (l : List PollEvent) : Nat :=
  (l.filter fun e => decide (e.op = p)).length

/-- The value `aio_prepare` returns in a call of `aio_poll`. -/
def poll_prep (pe : PollEnv) (ctx : AioContext) (blocking : Bool) : Bool :=
  (aio_prepare pe.WSAPoll pe.iothread_locked (poll_enter pe ctx blocking).ctx).1

/-- The handles the fill loop of a call of `aio_poll` stores in `events[]`. -/
def poll_init (pe : PollEnv) (ctx : AioContext) (blocking : Bool) : List Int :=
  (poll_fill pe (poll_enter pe ctx blocking)).events

/-- `MAXIMUM_WAIT_OBJECTS + 1` is a value of the type `int` of `count`. -/
def cap_ok (pe : PollEnv) : Prop :=
  pe.MAXIMUM_WAIT_OBJECTS + 1 < 2147483648

instance (pe : PollEnv) : Decidable (cap_ok pe) := by
  unfold cap_ok; infer_instance

/-- No registration call made from a bottom half, a timer or a handler
callback fails an assertion. -/
def poll_no_abort (pe : PollEnv) : Prop :=
  (∀ k, no_abort (pass_env pe k)) ∧
  (∀ c, ∃ c1, run_calls pe.get_handle c (pe.aio_bh_poll c).2 = some c1) ∧
  (∀ c, ∃ c1, run_calls pe.get_handle c (pe.timerlistgroup_run_timers c).2 = some c1)

/-- The value of an unsigned counter of `bits` bits between the addition and
the subtraction of a call of `aio_poll` entered with the value `v`. -/
def notify_me_raised (bits : Nat) (v : Int) (blocking : Bool) : Int :=
  if blocking = true then atomic_add bits v 2 else v

/-- The value of an unsigned counter of `bits` bits after the first wait of a
call of `aio_poll` entered with the value `v`. -/
def notify_me_settled (bits : Nat) (v : Int) (blocking : Bool) : Int :=
  if blocking = true then atomic_sub bits (atomic_add bits v 2) 2 else v

/-- What is recorded of the operation `e` made after the operations `a`, in a
call entered with `notify_me = nm0`, a counter of `bits` bits, and
`blocking = blocking0`, in which `aio_prepare` returned `prep` and the fill
loop stored `init`; `capok` stands for `cap_ok`. -/
def op_ok (capok : Prop) (bits : Nat) (nm0 : Int) (blocking0 prep : Bool) (init : List Int)
    (a : List PollEvent) (e : PollEvent) : Prop :=
  (e.notify_me = nm0 ∨ (blocking0 = true ∧
    (e.notify_me = notify_me_raised bits nm0 blocking0 ∨
      e.notify_me = notify_me_settled bits nm0 blocking0))) ∧
  match e.op with
  | PollOp.atomic_add =>
    blocking0 = true ∧ e.notify_me = notify_me_raised bits nm0 blocking0 ∧
      a.map PollEvent.op = [PollOp.aio_context_acquire]
  | PollOp.atomic_sub =>
    blocking0 = true ∧ e.notify_me = notify_me_settled bits nm0 blocking0 ∧
      ∃ a1 w, a = a1 ++ [w] ∧ w.op.is_wait = true ∧ wait_count a1 = 0
  | PollOp.aio_prepare res => res = prep ∧ e.lock = 1
  | PollOp.WaitForMultipleObjects c evs t _ =>
    (0 < wait_count a → t = 0) ∧ (t ≠ 0 → blocking0 = true ∧ prep = false) ∧
      e.lock = (if t = 0 then 1 else 0) ∧ 0 < c ∧
      (wait_count a = 0 → e.notify_me = notify_me_raised bits nm0 blocking0) ∧
      (capok → evs.length = c.toNat ∧ (evs ++ signaled a).Perm init ∧
        wait_count a ≤ init.length)
  | PollOp.aio_dispatch_handlers ev =>
    e.lock = 1 ∧ (ev = none → wait_count a = 1 ∧ prep = true) ∧
      ∃ a1 w a2 c evs t r, a = a1 ++ w :: a2 ∧
        w.op = PollOp.WaitForMultipleObjects c evs t r ∧ wait_count a2 = 0 ∧
        (is_signaled r c → capok → ev = some (evs.getD (r % 4294967296) 0)) ∧
        (¬ is_signaled r c → ev = none)
  | PollOp.aio_notify_accept => e.lock = 1
  | PollOp.aio_bh_poll => e.lock = 1
  | PollOp.timerlistgroup_run_timers => e.lock = 1
  | PollOp.aio_context_acquire => True
  | PollOp.aio_context_release => True

/-- The last wait of the log `l` was made on `count` and the wait-set `evs`
and returned `ret`, and no dispatch has been made since. -/
def last_wait (count : Int) (evs : List Int) (ret : Nat) (l : List PollEvent) : Prop :=
  ∃ a1 w a2 t, l = a1 ++ w :: a2 ∧ w.op = PollOp.WaitForMultipleObjects count evs t ret ∧
    wait_count a2 = 0 ∧ signaled a2 = []

/-- Every operation of a log is recorded as `op_ok` says. -/
def log_ok (capok : Prop) (bits : Nat) (nm0 : Int) (blocking0 prep : Bool) (init : List Int)
    (l : List PollEvent) : Prop :=
  ∀ a e b, l = a ++ e :: b → op_ok capok bits nm0 blocking0 prep init a e

/-- What holds of the state in which a call stops, however it stops. -/
structure PollEnd (capok : Prop) (bits : Nat) (nm0 : Int) (blocking0 prep : Bool) (init : List Int)
    (s : PollState) : Prop where
  log : log_ok capok bits nm0 blocking0 prep init s.log
  adds : op_count PollOp.atomic_add s.log = if blocking0 = true then 1 else 0
  subs : op_count PollOp.atomic_sub s.log ≤ 1
  count_lo : capok → 0 ≤ s.count
  perm : capok → (s.wait_set ++ signaled s.log).Perm init
  waits : capok → wait_count s.log ≤ init.length + 1

/-- What holds of the state with which a call returns. -/
structure PollReturned (capok : Prop) (bits : Nat) (nm0 : Int) (blocking0 prep : Bool) (init : List Int)
    (s : PollState) : Prop where
  ended : PollEnd capok bits nm0 blocking0 prep init s
  notify_me : s.ctx.notify_me = notify_me_settled bits nm0 blocking0
  lock : s.lock = 0
  subs : op_count PollOp.atomic_sub s.log = if blocking0 = true then 1 else 0
  waited : 0 < wait_count s.log

/-- What holds of the state at the top of the loop body and at the test
`while (count > 0)`; `wh0` is the value of `walking_handlers`. -/
structure PollInv (capok : Prop) (bits : Nat) (nm0 wh0 : Int) (blocking0 prep : Bool) (init : List Int)
    (s : PollState) : Prop where
  log : log_ok capok bits nm0 blocking0 prep init s.log
  walking : s.ctx.walking_handlers = wh0
  lock : s.lock = 1
  notify_me :
    s.ctx.notify_me =
      if s.first = true then notify_me_raised bits nm0 blocking0
      else notify_me_settled bits nm0 blocking0
  at_first : s.first = true →
    s.blocking = blocking0 ∧ s.have_select_revents = prep ∧ wait_count s.log = 0
  later : s.first = false →
    s.blocking = false ∧ s.have_select_revents = false ∧ 0 < wait_count s.log
  iter_eq : s.iter = wait_count s.log
  adds : op_count PollOp.atomic_add s.log = if blocking0 = true then 1 else 0
  subs : op_count PollOp.atomic_sub s.log =
    if blocking0 = true ∧ s.first = false then 1 else 0
  count_lo : capok → 0 ≤ s.count
  count_hi : capok → s.count.toNat ≤ s.events.length
  count_dword : capok → s.count < 4294967296
  perm : capok → (s.wait_set ++ signaled s.log).Perm init
  iters : capok →
    wait_count s.log + s.count.toNat ≤ init.length + (if s.first = true then 0 else 1)

/-- What holds of the state after `first = false` of an iteration whose wait
returned `ret`. -/
structure PollMid (capok : Prop) (bits : Nat) (nm0 wh0 : Int) (blocking0 prep : Bool) (init : List Int)
    (ret : Nat) (s : PollState) : Prop where
  log : log_ok capok bits nm0 blocking0 prep init s.log
  walking : s.ctx.walking_handlers = wh0
  lock : s.lock = 1
  notify_me : s.ctx.notify_me = notify_me_settled bits nm0 blocking0
  first : s.first = false
  hsr : s.have_select_revents = true → wait_count s.log = 1 ∧ prep = true
  iter_eq : s.iter = wait_count s.log
  adds : op_count PollOp.atomic_add s.log = if blocking0 = true then 1 else 0
  subs : op_count PollOp.atomic_sub s.log = if blocking0 = true then 1 else 0
  pos : 0 < s.count
  last_wait : last_wait s.count s.wait_set ret s.log
  count_hi : capok → s.count.toNat ≤ s.events.length
  count_dword : capok → s.count < 4294967296
  perm : capok → (s.wait_set ++ signaled s.log).Perm init
  iters : capok → wait_count s.log + s.count.toNat ≤ init.length + 2 ∧
    (s.have_select_revents = true → wait_count s.log + s.count.toNat ≤ init.length + 1)

/-- What holds of the state `s1` after the re-acquisition of the lock in an
iteration entered in state `s` whose wait returned `ret`. -/
structure PollWaited (capok : Prop) (bits : Nat) (nm0 wh0 : Int) (blocking0 prep : Bool)
    (init : List Int) (ret : Nat) (s s1 : PollState) : Prop where
  log : log_ok capok bits nm0 blocking0 prep init s1.log
  walking : s1.ctx.walking_handlers = wh0
  lock : s1.lock = 1
  notify_me : s1.ctx.notify_me = notify_me_settled bits nm0 blocking0
  first : s1.first = s.first
  hsr : s1.have_select_revents = s.have_select_revents
  events : s1.events = s.events
  count : s1.count = s.count
  iter_eq : s1.iter = wait_count s1.log
  waits : wait_count s1.log = wait_count s.log + 1
  adds : op_count PollOp.atomic_add s1.log = if blocking0 = true then 1 else 0
  subs : op_count PollOp.atomic_sub s1.log = if blocking0 = true then 1 else 0
  sig : signaled s1.log = signaled s.log
  last_wait : last_wait s.count s.wait_set ret s1.log

/-- What holds of the state in which the loop is left. -/
structure PollLeft (capok : Prop) (bits : Nat) (nm0 wh0 : Int) (blocking0 prep : Bool) (init : List Int)
    (s : PollState) : Prop where
  log : log_ok capok bits nm0 blocking0 prep init s.log
  walking : s.ctx.walking_handlers = wh0
  lock : s.lock = 1
  notify_me : s.ctx.notify_me = notify_me_settled bits nm0 blocking0
  adds : op_count PollOp.atomic_add s.log = if blocking0 = true then 1 else 0
  subs : op_count PollOp.atomic_sub s.log = if blocking0 = true then 1 else 0
  waited : 0 < wait_count s.log
  count_lo : capok → 0 ≤ s.count
  perm : capok → (s.wait_set ++ signaled s.log).Perm init
  waits : capok → wait_count s.log ≤ init.length + 1

/-- What holds of the way a loop body ends. -/
def step_ok (capok : Prop) (bits : Nat) (nm0 wh0 : Int) (blocking0 prep : Bool) (init : List Int)
    (wc : Nat) : Step → Prop
  | Step.next s =>
    PollInv capok bits nm0 wh0 blocking0 prep init s ∧ s.first = false ∧ wait_count s.log = wc + 1
  | Step.exit s => PollLeft capok bits nm0 wh0 blocking0 prep init s
  | Step.abort a s => a ≠ Abort.assert_first ∧ PollEnd capok bits nm0 blocking0 prep init s

/-- What holds of the way a call ends. -/
def outcome_ok (capok : Prop) (bits : Nat) (nm0 : Int) (blocking0 prep : Bool) (init : List Int) :
    Outcome → Prop
  | Outcome.returned s => PollReturned capok bits nm0 blocking0 prep init s
  | Outcome.aborted a s => a ≠ Abort.assert_first ∧ PollEnd capok bits nm0 blocking0 prep init s
  | Outcome.out_of_fuel s => PollEnd capok bits nm0 blocking0 prep init s

/-! ## Example data -/

/-- An `event_notifier_get_handle` for the examples: notifier `e` has handle
`1000 + e`. -/
def ex_handle (e : Nat) : Int := 1000 + e

/-- An empty context whose own notifier is at address `100`. -/
def ex_ctx : AioContext :=
  { aio_handlers := [], walking_handlers := 0, notifier := 100, notify_me := 0, effects := [] }

/-- A live socket entry for socket `fd` with the given callbacks and `revents`. -/
def ex_node (fd : Int) (io_read io_write revents : Nat) : AioHandler :=
  { g_new0 Origin.fd_handler with
    e := 100, io_read := io_read, io_write := io_write,
    pfd := { fd := fd, events := 0, revents := revents } }

/-- A call sequence for the key-uniqueness example: the context's notifier,
socket 5, notifier 7, then socket 5 removed during a walk and registered
again. -/
def ex_calls_unique : List (Int × RegCall) :=
  [(0, RegCall.set_event_notifier 100 false 33),
   (0, RegCall.set_fd_handler 5 false 11 0 7),
   (0, RegCall.set_event_notifier 7 false 34),
   (1, RegCall.set_fd_handler 5 false 0 0 0),
   (1, RegCall.set_fd_handler 5 false 0 12 8)]

/-- The context `ex_calls_unique` leads to from `ex_ctx`. -/
def ex_ctx_unique : AioContext :=
  { aio_handlers :=
      [ fd_node_update 100 (new_fd_node 5) false 0 12 8,
        { new_notifier_node ex_handle 7 false with io_notify := 34 },
        tombstone (fd_node_update 100 (new_fd_node 5) false 11 0 7),
        { new_notifier_node ex_handle 100 false with io_notify := 33 } ],
    walking_handlers := 1,
    notifier := 100,
    notify_me := 0,
    effects :=
      [ Effect.g_source_add_poll 1100, Effect.aio_notify,
        Effect.WSAEventSelect 5 1100 61, Effect.aio_notify,
        Effect.g_source_add_poll 1007, Effect.aio_notify,
        Effect.WSAEventSelect 5 0 0,
        Effect.WSAEventSelect 5 1100 62, Effect.aio_notify ] }

/-- A context in which only the context's own notifier is registered. -/
def ex_ctx_wake : AioContext :=
  { ex_ctx with
    aio_handlers := [{ new_notifier_node ex_handle 100 false with io_notify := 33 }] }

/-- A call sequence that leaves the context's notifier registered: socket 5 and
notifier 7 come and go, and the notifier's callback is replaced. -/
def ex_calls_wake : List RegCall :=
  [RegCall.set_event_notifier 100 false 35,
   RegCall.set_fd_handler 5 false 11 0 7,
   RegCall.set_event_notifier 7 false 34,
   RegCall.set_fd_handler 5 false 0 0 0,
   RegCall.set_event_notifier 7 false 0]

/-- The context `ex_calls_wake` leads to from `ex_ctx_wake`. -/
def ex_ctx_wake_after : AioContext :=
  { ex_ctx with
    aio_handlers := [{ new_notifier_node ex_handle 100 false with io_notify := 35 }],
    effects :=
      [ Effect.aio_notify,
        Effect.WSAEventSelect 5 1100 61, Effect.aio_notify,
        Effect.g_source_add_poll 1007, Effect.aio_notify,
        Effect.WSAEventSelect 5 0 0,
        Effect.g_source_remove_poll 1007, Effect.aio_notify ] }

/-- Callbacks for the examples: the read callback of socket 2 deregisters
socket 1; nothing else touches the registry. -/
def ex_env_remove_other : Env :=
  { get_handle := ex_handle,
    callback := fun _ inv _ =>
      if inv.kind = CbKind.read ∧ inv.node.pfd.fd = 2 then
        [RegCall.set_fd_handler 1 false 0 0 0]
      else [],
    WSAEnumNetworkEvents := fun _ _ => 0 }

/-- Callbacks for the examples: every read callback deregisters its own
socket, provided the socket's live entry is the node being visited or a later
one. -/
def ex_env_remove_self : Env :=
  { get_handle := ex_handle,
    callback := fun _ inv ctx =>
      match find_node (fd_match inv.node.pfd.fd) ctx.aio_handlers with
      | none => []
      | some (_, _, post) =>
        if inv.kind = CbKind.read ∧ post.length < inv.slot then
          [RegCall.set_fd_handler inv.node.pfd.fd false 0 0 0]
        else [],
    WSAEnumNetworkEvents := fun _ _ => 0 }

/-- Callbacks for the examples: nothing touches the registry. -/
def ex_env_quiet : Env :=
  { get_handle := ex_handle,
    callback := fun _ _ _ => [],
    WSAEnumNetworkEvents := fun _ _ => 0 }

/-- Two live socket entries, sockets 1 and 2, socket 2 read-ready. -/
def ex_ctx_two : AioContext :=
  { ex_ctx with aio_handlers := [ex_node 1 11 0 0, ex_node 2 11 0 G_IO_IN] }

/-- Two live socket entries, sockets 1 and 2, both read-ready. -/
def ex_ctx_two_ready : AioContext :=
  { ex_ctx with aio_handlers := [ex_node 1 11 0 G_IO_IN, ex_node 2 11 0 G_IO_IN] }

/-- One live socket entry with a read and a write callback, read- and
write-ready. -/
def ex_ctx_rw : AioContext :=
  { ex_ctx with aio_handlers := [ex_node 5 11 12 (G_IO_IN ||| G_IO_OUT)] }

/-- Sockets 6 and 5 registered for reading, socket 5 read-ready. -/
def ex_ctx_read : AioContext :=
  { ex_ctx with aio_handlers := [ex_node 6 11 0 0, ex_node 5 11 0 G_IO_IN] }

/-- Socket 5 registered for reading only. -/
def ex_ctx_read_only : AioContext :=
  { ex_ctx with aio_handlers := [ex_node 5 11 0 0] }

/-- Socket 5 registered for writing only. -/
def ex_ctx_write_only : AioContext :=
  { ex_ctx with aio_handlers := [ex_node 5 0 12 0] }

/-- A poll that reports one socket, write-ready, in every slot. -/
def ex_poll_out (_ : List WSAPOLLFD) : Int × (Nat → Nat) := (1, fun _ => POLLOUT)

/-- A poll that reports one socket, read-ready, in every slot. -/
def ex_poll_in (_ : List WSAPOLLFD) : Int × (Nat → Nat) := (1, fun _ => POLLIN)

/-- Sockets 3, 2, 1 in list order (registered 1, 2, 3), all read-ready. -/
def ex_ctx_three_ready : AioContext :=
  { ex_ctx with
    aio_handlers := [ex_node 3 11 0 G_IO_IN, ex_node 2 11 0 G_IO_IN, ex_node 1 11 0 G_IO_IN] }

/-- A registry with 128 notify-only entries (notifiers 200 .. 327) in front of
the single socket entry, socket 5 registered for reading. -/
def ex_ctx_crowded : AioContext :=
  { ex_ctx with
    aio_handlers :=
      ((List.range 128).map fun i =>
        { new_notifier_node ex_handle (200 + i) false with io_notify := 34 }) ++
      [ex_node 5 11 0 0] }

/-- A registry with one notify-only entry in front of socket 5, registered for
reading. -/
def ex_ctx_mixed : AioContext :=
  { ex_ctx with
    aio_handlers :=
      [{ new_notifier_node ex_handle 7 false with io_notify := 34 }, ex_node 5 11 0 0] }

/-- A poll environment: the wait reports object 0, then object 0 again, then a
time-out; the computed timeout is 50 ms; nothing else happens. -/
def ex_poll_env : PollEnv :=
  { get_handle := ex_handle,
    MAXIMUM_WAIT_OBJECTS := 64,
    notify_me_bits := 32,
    WSAPoll := ex_poll_in,
    iothread_locked := false,
    aio_node_check := fun _ => true,
    timeout_ms := fun _ => 50,
    WaitForMultipleObjects := fun k _ _ _ => if k < 2 then 0 else 258,
    aio_bh_poll := fun _ => (false, []),
    timerlistgroup_run_timers := fun _ => (false, []),
    callback := fun _ _ _ _ => [],
    WSAEnumNetworkEvents := fun _ _ _ => 0 }

/-- The context's own notifier and notifier 7, both with a notify callback. -/
def ex_ctx_notifiers : AioContext :=
  { ex_ctx with
    aio_handlers := [{ new_notifier_node ex_handle 7 false with io_notify := 34 },
                     { new_notifier_node ex_handle 100 false with io_notify := 33 }] }

/-- Callbacks for the examples: the read callback of socket 6 deregisters
socket 5; nothing else touches the registry. -/
def ex_env_remove_later : Env :=
  { get_handle := ex_handle,
    callback := fun _ inv _ =>
      if inv.kind = CbKind.read ∧ inv.node.pfd.fd = 6 then
        [RegCall.set_fd_handler 5 false 0 0 0]
      else [],
    WSAEnumNetworkEvents := fun _ _ => 0 }

/-- Sockets 6 and 5 in list order, both registered for reading and
read-ready; the entry of socket 5 has `io_read = 11` and `opaque = 7`. -/
def ex_ctx_later : AioContext :=
  { ex_ctx with
    aio_handlers := [ex_node 6 12 0 G_IO_IN, { ex_node 5 11 0 G_IO_IN with opaque_ := 7 }] }

/-- Callbacks for the examples: the write callback of socket 6 registers
socket 5 again, now with `io_write = 13` next to its `io_read = 11`; nothing
else touches the registry. -/
def ex_env_add_write : Env :=
  { get_handle := ex_handle,
    callback := fun _ inv _ =>
      if inv.kind = CbKind.write ∧ inv.node.pfd.fd = 6 then
        [RegCall.set_fd_handler 5 false 11 13 0]
      else [],
    WSAEnumNetworkEvents := fun _ _ => 0 }

/-- Socket 6 registered for writing only in front of socket 5 registered for
reading only. -/
def ex_ctx_write_read : AioContext :=
  { ex_ctx with aio_handlers := [ex_node 6 0 12 0, ex_node 5 11 0 0] }

/-- Callbacks for the examples: the read callback of socket 6 deregisters
notifier 7; nothing else touches the registry. -/
def ex_env_remove_notifier : Env :=
  { get_handle := ex_handle,
    callback := fun _ inv _ =>
      if inv.kind = CbKind.read ∧ inv.node.pfd.fd = 6 then
        [RegCall.set_event_notifier 7 false 0]
      else [],
    WSAEnumNetworkEvents := fun _ _ => 0 }

/-- Socket 6, read-ready, in front of notifier 7 with a notify callback. -/
def ex_ctx_socket_notifier : AioContext :=
  { ex_ctx with
    aio_handlers := [ex_node 6 12 0 G_IO_IN,
                     { new_notifier_node ex_handle 7 false with io_notify := 34 }] }

/-- The context of `ex_ctx_notifiers` with the counter at the last even value
of 32 bits. -/
def ex_ctx_counter_top : AioContext :=
  { ex_ctx_notifiers with notify_me := 4294967294 }

/-! # Properties -/

/-! ## Field lemmas for the node helpers -/

@[simp] theorem tombstone_deleted (n : AioHandler) : (tombstone n).deleted = 1 := rfl
@[simp] theorem tombstone_revents (n : AioHandler) : (tombstone n).pfd.revents = 0 := rfl
@[simp] theorem tombstone_fd (n : AioHandler) : (tombstone n).pfd.fd = n.pfd.fd := rfl
@[simp] theorem tombstone_e (n : AioHandler) : (tombstone n).e = n.e := rfl
@[simp] theorem tombstone_origin (n : AioHandler) : (tombstone n).origin = n.origin := rfl
@[simp] theorem tombstone_not_live (n : AioHandler) : is_live (tombstone n) = false := rfl

@[simp] theorem new_fd_node_deleted (fd : Int) : (new_fd_node fd).deleted = 0 := rfl
@[simp] theorem new_fd_node_fd (fd : Int) : (new_fd_node fd).pfd.fd = fd := rfl
@[simp] theorem new_fd_node_origin (fd : Int) :
    (new_fd_node fd).origin = Origin.fd_handler := rfl
@[simp] theorem new_fd_node_io_notify (fd : Int) : (new_fd_node fd).io_notify = 0 := rfl

@[simp] theorem fd_node_update_deleted (a : Nat) (n : AioHandler) (x : Bool) (r w o : Nat) :
    (fd_node_update a n x r w o).deleted = n.deleted := rfl
@[simp] theorem fd_node_update_fd (a : Nat) (n : AioHandler) (x : Bool) (r w o : Nat) :
    (fd_node_update a n x r w o).pfd.fd = n.pfd.fd := rfl
@[simp] theorem fd_node_update_revents (a : Nat) (n : AioHandler) (x : Bool) (r w o : Nat) :
    (fd_node_update a n x r w o).pfd.revents = n.pfd.revents := rfl
@[simp] theorem fd_node_update_origin (a : Nat) (n : AioHandler) (x : Bool) (r w o : Nat) :
    (fd_node_update a n x r w o).origin = n.origin := rfl
@[simp] theorem fd_node_update_e (a : Nat) (n : AioHandler) (x : Bool) (r w o : Nat) :
    (fd_node_update a n x r w o).e = a := rfl
@[simp] theorem fd_node_update_io_read (a : Nat) (n : AioHandler) (x : Bool) (r w o : Nat) :
    (fd_node_update a n x r w o).io_read = r := rfl
@[simp] theorem fd_node_update_io_write (a : Nat) (n : AioHandler) (x : Bool) (r w o : Nat) :
    (fd_node_update a n x r w o).io_write = w := rfl
@[simp] theorem fd_node_update_io_notify (a : Nat) (n : AioHandler) (x : Bool) (r w o : Nat) :
    (fd_node_update a n x r w o).io_notify = n.io_notify := rfl
@[simp] theorem fd_node_update_opaque (a : Nat) (n : AioHandler) (x : Bool) (r w o : Nat) :
    (fd_node_update a n x r w o).opaque_ = o := rfl
@[simp] theorem fd_node_update_is_external (a : Nat) (n : AioHandler) (x : Bool)
    (r w o : Nat) : (fd_node_update a n x r w o).is_external = x := rfl
@[simp] theorem fd_node_update_live (a : Nat) (n : AioHandler) (x : Bool) (r w o : Nat) :
    is_live (fd_node_update a n x r w o) = is_live n := rfl

@[simp] theorem new_notifier_node_deleted (h : Nat → Int) (e : Nat) (x : Bool) :
    (new_notifier_node h e x).deleted = 0 := rfl
@[simp] theorem new_notifier_node_fd (h : Nat → Int) (e : Nat) (x : Bool) :
    (new_notifier_node h e x).pfd.fd = h e := rfl
@[simp] theorem new_notifier_node_e (h : Nat → Int) (e : Nat) (x : Bool) :
    (new_notifier_node h e x).e = e := rfl
@[simp] theorem new_notifier_node_origin (h : Nat → Int) (e : Nat) (x : Bool) :
    (new_notifier_node h e x).origin = Origin.event_notifier := rfl
@[simp] theorem new_notifier_node_io_read (h : Nat → Int) (e : Nat) (x : Bool) :
    (new_notifier_node h e x).io_read = 0 := rfl
@[simp] theorem new_notifier_node_io_write (h : Nat → Int) (e : Nat) (x : Bool) :
    (new_notifier_node h e x).io_write = 0 := rfl

theorem is_live_iff (n : AioHandler) : is_live n = true ↔ n.deleted = 0 := by
  simp [is_live]

/-! ## The lookup loop -/

theorem find_node_eq_some {p : AioHandler → Bool} :
    ∀ {l pre : List AioHandler} {n : AioHandler} {post : List AioHandler},
      find_node p l = some (pre, n, post) →
      l = pre ++ n :: post ∧ p n = true ∧ ∀ m ∈ pre, p m = false := by
  intro l
  induction l with
  | nil => intro pre n post h; simp [find_node] at h
  | cons a l ih =>
    intro pre n post h
    by_cases ha : p a = true
    · simp only [find_node, ha, if_true, Option.some.injEq, Prod.mk.injEq] at h
      obtain ⟨rfl, rfl, rfl⟩ := h
      simp [ha]
    · simp only [find_node, ha] at h
      cases hf : find_node p l with
      | none => simp [hf] at h
      | some r =>
        obtain ⟨pre1, m, post1⟩ := r
        simp only [hf, if_false, Option.some.injEq, Prod.mk.injEq] at h
        obtain ⟨rfl, rfl, rfl⟩ := h
        obtain ⟨h1, h2, h3⟩ := ih hf
        refine ⟨by simp [h1], h2, ?_⟩
        intro x hx
        rcases List.mem_cons.1 hx with rfl | hx
        · simpa using ha
        · exact h3 x hx

theorem find_node_eq_none {p : AioHandler → Bool} :
    ∀ {l : List AioHandler}, find_node p l = none → ∀ m ∈ l, p m = false := by
  intro l
  induction l with
  | nil => intro _ m hm; simp at hm
  | cons a l ih =>
    intro h m hm
    by_cases ha : p a = true
    · simp [find_node, ha] at h
    · simp only [find_node, ha] at h
      cases hf : find_node p l with
      | none =>
        rcases List.mem_cons.1 hm with rfl | hm
        · simpa using ha
        · exact ih hf m hm
      | some r => obtain ⟨pre1, m1, post1⟩ := r; simp [hf] at h

theorem find_node_split {p : AioHandler → Bool} :
    ∀ {pre : List AioHandler} {n : AioHandler} {post : List AioHandler},
      (∀ m ∈ pre, p m = false) → p n = true →
      find_node p (pre ++ n :: post) = some (pre, n, post) := by
  intro pre
  induction pre with
  | nil => intro n post _ hn; simp [find_node, hn]
  | cons a pre ih =>
    intro n post hpre hn
    have ha : p a = false := hpre a (List.mem_cons_self _ _)
    have := @ih n post (fun m hm => hpre m (List.mem_cons_of_mem _ hm)) hn
    simp [find_node, ha, this]

theorem find_node_absent {p : AioHandler → Bool} :
    ∀ {l : List AioHandler}, (∀ m ∈ l, p m = false) → find_node p l = none := by
  intro l
  induction l with
  | nil => intro _; rfl
  | cons a l ih =>
    intro h
    have ha : p a = false := h a (List.mem_cons_self _ _)
    simp [find_node, ha, ih (fun m hm => h m (List.mem_cons_of_mem _ hm))]

/-! ## Removal requests of `aio_set_fd_handler` -/

theorem set_fd_handler_remove_absent (h : Nat → Int) (ctx : AioContext) (fd : Int)
    (ext : Bool) (o : Nat)
    (hno : ∀ m ∈ ctx.aio_handlers, ¬ (m.pfd.fd = fd ∧ m.deleted = 0)) :
    aio_set_fd_handler h ctx fd ext 0 0 o = some ctx := by
  have : find_node (fd_match fd) ctx.aio_handlers = none :=
    find_node_absent (fun m hm => by simpa [fd_match] using hno m hm)
  simp [aio_set_fd_handler, this]

theorem set_fd_handler_remove_found (h : Nat → Int) (ctx : AioContext) (fd : Int)
    (ext : Bool) (o : Nat) (pre : List AioHandler) (n : AioHandler) (post : List AioHandler)
    (hl : ctx.aio_handlers = pre ++ n :: post)
    (hpre : ∀ m ∈ pre, ¬ (m.pfd.fd = fd ∧ m.deleted = 0))
    (hfd : n.pfd.fd = fd) (hdel : n.deleted = 0) (hnot : n.io_notify = 0) :
    aio_set_fd_handler h ctx fd ext 0 0 o =
      some { ctx with
        aio_handlers :=
          if ctx.walking_handlers ≠ 0 then pre ++ tombstone n :: post else pre ++ post,
        effects := ctx.effects ++ [Effect.WSAEventSelect n.pfd.fd 0 0] } := by
  have hf : find_node (fd_match fd) ctx.aio_handlers = some (pre, n, post) := by
    rw [hl]
    exact find_node_split (fun m hm => by simpa [fd_match] using hpre m hm)
      (by simp [fd_match, hfd, hdel])
  by_cases hw : ctx.walking_handlers = 0
  · simp [aio_set_fd_handler, hf, hnot, hw]
  · simp [aio_set_fd_handler, hf, hnot, hw]

/-- C4. A removal request `aio_set_fd_handler(ctx, fd, ext, NULL, NULL)`: with
no live entry for `fd` the context is returned unchanged; otherwise, the first
live entry for `fd` having no `io_notify`, the call returns, the entry is
replaced in place by its tombstone (`deleted = 1`, `pfd.revents = 0`) when
`walking_handlers > 0` and is unlinked when `walking_handlers = 0`, all other
entries keeping their content and order. -/
theorem aio_set_fd_handler_removal (h : Nat → Int) (ctx : AioContext) (fd : Int)
    (ext : Bool) (o : Nat) :
    ((∀ m ∈ ctx.aio_handlers, ¬ (m.pfd.fd = fd ∧ m.deleted = 0)) →
      aio_set_fd_handler h ctx fd ext 0 0 o = some ctx) ∧
    (∀ pre n post, ctx.aio_handlers = pre ++ n :: post →
      (∀ m ∈ pre, ¬ (m.pfd.fd = fd ∧ m.deleted = 0)) →
      n.pfd.fd = fd → n.deleted = 0 → n.io_notify = 0 →
      ∃ ctx1, aio_set_fd_handler h ctx fd ext 0 0 o = some ctx1 ∧
        ctx1.walking_handlers = ctx.walking_handlers ∧
        (0 < ctx.walking_handlers →
          ctx1.aio_handlers = pre ++ tombstone n :: post ∧
          (tombstone n).deleted = 1 ∧ (tombstone n).pfd.revents = 0 ∧
          ctx1.aio_handlers.length = ctx.aio_handlers.length) ∧
        (ctx.walking_handlers = 0 →
          ctx1.aio_handlers = pre ++ post ∧
          ctx1.aio_handlers.length + 1 = ctx.aio_handlers.length)) := by
  refine ⟨set_fd_handler_remove_absent h ctx fd ext o, ?_⟩
  intro pre n post hl hpre hfd hdel hnot
  refine ⟨_, set_fd_handler_remove_found h ctx fd ext o pre n post hl hpre hfd hdel hnot,
    rfl, ?_, ?_⟩
  · intro hpos
    have hw : ctx.walking_handlers ≠ 0 := by omega
    rw [if_pos hw]
    refine ⟨rfl, rfl, rfl, ?_⟩
    rw [hl]; simp
  · intro h0
    have hw : ¬ ctx.walking_handlers ≠ 0 := by simp [h0]
    rw [if_neg hw]
    refine ⟨rfl, ?_⟩
    rw [hl]; simp; omega

/-- Witness for `aio_set_fd_handler_removal`: socket 5 is removed during a walk
(the entry becomes a tombstone) and outside a walk (the entry is unlinked);
socket 6 next to it is untouched. -/
theorem aio_set_fd_handler_removal_witness :
    (∃ c, aio_set_fd_handler ex_handle
        { ex_ctx with aio_handlers := [ex_node 6 11 0 1, ex_node 5 11 0 1],
                      walking_handlers := 1 } 5 false 0 0 0 = some c ∧
      c.aio_handlers = [ex_node 6 11 0 1, tombstone (ex_node 5 11 0 1)]) ∧
    (∃ c, aio_set_fd_handler ex_handle
        { ex_ctx with aio_handlers := [ex_node 6 11 0 1, ex_node 5 11 0 1] }
        5 false 0 0 0 = some c ∧
      c.aio_handlers = [ex_node 6 11 0 1]) := by
  constructor
  · obtain ⟨c, hc, -, h1, -⟩ :=
      (aio_set_fd_handler_removal ex_handle
        { ex_ctx with aio_handlers := [ex_node 6 11 0 1, ex_node 5 11 0 1],
                      walking_handlers := 1 } 5 false 0).2
        [ex_node 6 11 0 1] (ex_node 5 11 0 1) [] rfl (by decide) rfl rfl rfl
    exact ⟨c, hc, (h1 (by decide)).1⟩
  · obtain ⟨c, hc, -, -, h0⟩ :=
      (aio_set_fd_handler_removal ex_handle
        { ex_ctx with aio_handlers := [ex_node 6 11 0 1, ex_node 5 11 0 1] } 5 false 0).2
        [ex_node 6 11 0 1] (ex_node 5 11 0 1) [] rfl (by decide) rfl rfl rfl
    exact ⟨c, hc, (h0 rfl).1⟩

/-! ## The interest bits of an upsert -/

/-- C5 (the code at the failing input). Registering `io_read` alone for a
socket that has no entry leaves `pfd.events = 0` in the new entry: the bits are
computed from the callbacks the node held before the call. -/
theorem aio_set_fd_handler_events_stale :
    (aio_set_fd_handler ex_handle ex_ctx 5 false 11 0 7).map
        (fun c => c.aio_handlers.map fun n => (n.pfd.fd, n.io_read, n.io_write, n.pfd.events))
      = some [(5, 11, 0, 0)] ∧
    ((aio_set_fd_handler ex_handle ex_ctx 5 false 11 0 7).bind
        fun c => aio_set_fd_handler ex_handle c 5 false 0 12 7).map
        (fun c => c.aio_handlers.map fun n => (n.pfd.fd, n.io_read, n.io_write, n.pfd.events))
      = some [(5, 0, 12, G_IO_IN)] := by
  constructor <;> decide

/-! ## Tombstoning against unlinking -/

theorem find_node_filter {p q : AioHandler → Bool} (hpq : ∀ n, p n = true → q n = true) :
    ∀ l : List AioHandler,
      find_node p (l.filter q) =
        (find_node p l).map fun r => (r.1.filter q, r.2.1, r.2.2.filter q) := by
  intro l
  induction l with
  | nil => rfl
  | cons a l ih =>
    by_cases ha : p a = true
    · have hq := hpq a ha
      simp [find_node, ha, hq]
    · have ha1 : p a = false := by simpa using ha
      by_cases hq : q a = true
      · rw [List.filter_cons_of_pos hq]
        simp only [find_node, ha1, ih]
        cases find_node p l with
        | none => simp
        | some r => obtain ⟨pre, m, post⟩ := r; simp [hq]
      · rw [List.filter_cons_of_neg hq, ih]
        simp only [find_node, ha1]
        cases find_node p l with
        | none => simp
        | some r => obtain ⟨pre, m, post⟩ := r; simp [hq]

theorem fd_match_live {fd : Int} (n : AioHandler) (h : fd_match fd n = true) :
    is_live n = true := by
  simp [fd_match, is_live] at *; exact h.2

theorem notifier_match_live {e : Nat} (n : AioHandler) (h : notifier_match e n = true) :
    is_live n = true := by
  simp [fd_match, notifier_match, is_live] at *; exact h.2

theorem set_fd_handler_compact (h : Nat → Int) (ctx : AioContext) (fd : Int) (ext : Bool)
    (r w o : Nat) :
    (aio_set_fd_handler h ctx fd ext r w o).map compact =
      aio_set_fd_handler h (compact ctx) fd ext r w o := by
  unfold aio_set_fd_handler
  simp only [compact, live_entries, find_node_filter fd_match_live]
  cases hf : find_node (fd_match fd) ctx.aio_handlers with
  | none =>
    by_cases hrw : r = 0 ∧ w = 0
    · simp [hrw, compact, live_entries]
    · simp [hrw, compact, live_entries, is_live]
  | some s =>
    obtain ⟨pre, n, post⟩ := s
    have hn := (find_node_eq_some hf).2.1
    have hlive : n.deleted = 0 := by simpa [is_live] using fd_match_live n hn
    by_cases hrw : r = 0 ∧ w = 0
    · by_cases hnot : n.io_notify = 0
      · by_cases hw : ctx.walking_handlers = 0
        · simp [hrw, hnot, hw, compact, live_entries]
        · simp [hrw, hnot, hw, compact, live_entries, is_live]
      · simp [hrw, hnot]
    · simp [hrw, compact, live_entries, is_live, hlive]

theorem set_event_notifier_compact (h : Nat → Int) (ctx : AioContext) (e : Nat) (ext : Bool)
    (f : Nat) :
    (aio_set_event_notifier h ctx e ext f).map compact =
      aio_set_event_notifier h (compact ctx) e ext f := by
  unfold aio_set_event_notifier
  simp only [compact, live_entries, find_node_filter notifier_match_live]
  cases hf : find_node (notifier_match e) ctx.aio_handlers with
  | none =>
    by_cases hrw : f = 0
    · simp [hrw, compact, live_entries]
    · simp [hrw, compact, live_entries, is_live]
  | some s =>
    obtain ⟨pre, n, post⟩ := s
    have hn := (find_node_eq_some hf).2.1
    have hlive : n.deleted = 0 := by simpa [is_live] using notifier_match_live n hn
    by_cases hrw : f = 0
    · by_cases hw : ctx.walking_handlers = 0
      · simp [hrw, hw, compact, live_entries]
      · simp [hrw, hw, compact, live_entries, is_live]
    · simp [hrw, compact, live_entries, is_live, hlive]

theorem RegCall_run_compact (h : Nat → Int) (ctx : AioContext) (c : RegCall) :
    (c.run h ctx).map compact = c.run h (compact ctx) := by
  cases c with
  | set_fd_handler fd ext r w o => exact set_fd_handler_compact h ctx fd ext r w o
  | set_event_notifier e ext f => exact set_event_notifier_compact h ctx e ext f

theorem run_calls_compact (h : Nat → Int) (calls : List RegCall) :
    ∀ ctx : AioContext,
      (run_calls h ctx calls).map compact = run_calls h (compact ctx) calls := by
  induction calls with
  | nil => intro ctx; rfl
  | cons c cs ih =>
    intro ctx
    have hc := RegCall_run_compact h ctx c
    simp only [run_calls]
    cases h1 : c.run h ctx with
    | none => rw [h1] at hc; simp at hc; rw [← hc]; rfl
    | some ctx1 =>
      rw [h1] at hc; simp at hc; rw [← hc]
      exact ih ctx1

theorem live_view_compact (ctx : AioContext) : live_view (compact ctx) = live_view ctx := by
  simp [live_view, compact, live_entries]

/-- C3. From any registry state, a sequence of registration calls applied
with `walking_handlers = w` (for `w > 0` a walk is in progress and removals
leave tombstones) and the same sequence applied with `walking_handlers = 0`
(removals unlink) abort at the same call or both return, and then leave the
same list of non-deleted entries, in the same order. -/
theorem no_lost_registrations (h : Nat → Int) (ctx : AioContext) (calls : List RegCall)
    (w : Int) :
    (run_calls h { ctx with walking_handlers := w } calls).map live_view =
      (run_calls h { ctx with walking_handlers := 0 } calls).map live_view := by
  have e1 := run_calls_compact h calls { ctx with walking_handlers := w }
  have e2 := run_calls_compact h calls { ctx with walking_handlers := 0 }
  have e3 : compact { ctx with walking_handlers := w } =
      compact { ctx with walking_handlers := 0 } := rfl
  rw [e3, ← e2] at e1
  have := congrArg (Option.map live_view) e1
  simpa [Option.map_map, Function.comp_def, live_view_compact] using this

/-! ## Watch modes and keys: the failing inputs -/

/-- C6 (the code at the failing input). On the empty registry, registering
socket 5 with a read callback and then the context's own notifier (address
100, handle 1100) puts the notify callback on the socket's entry: one live
entry has both `io_read` and `io_notify`, and removing socket 5 then fails
the assertion `assert(!node->io_notify)`.  The same happens when the notifier
was registered first and its callback is registered again after socket 5. -/
theorem watch_modes_overlap :
    (run_calls ex_handle ex_ctx
        [RegCall.set_fd_handler 5 false 11 0 7,
         RegCall.set_event_notifier 100 false 33]).map
        (fun c => c.aio_handlers.map fun n => (n.pfd.fd, n.deleted, n.io_read, n.io_notify))
      = some [(5, 0, 11, 33)] ∧
    run_calls ex_handle ex_ctx
        [RegCall.set_fd_handler 5 false 11 0 7,
         RegCall.set_event_notifier 100 false 33,
         RegCall.set_fd_handler 5 false 0 0 0] = none ∧
    (run_calls ex_handle ex_ctx
        [RegCall.set_event_notifier 100 false 33,
         RegCall.set_fd_handler 5 false 11 0 7,
         RegCall.set_event_notifier 100 false 35]).map
        (fun c => c.aio_handlers.map fun n => (n.pfd.fd, n.deleted, n.io_read, n.io_notify))
      = some [(5, 0, 11, 35), (1100, 0, 0, 33)] := by
  refine ⟨by decide, by decide, by decide⟩

/-- C7 (counterexample). With the context's notifier (address 100) and a
second notifier (address 7, handle 1007) registered, `aio_set_fd_handler` on
the socket value 1007 finds the second notifier's entry by `pfd.fd` and sets
its `e` to `&ctx->notifier`: two live entries created by
`aio_set_event_notifier` then carry the same `e`. -/
theorem notifier_key_collision :
    ∃ c, run_calls_at ex_handle ex_ctx
        [(0, RegCall.set_event_notifier 100 false 33),
         (0, RegCall.set_event_notifier 7 false 34),
         (0, RegCall.set_fd_handler 1007 false 11 0 0)] = some c ∧
      notifier_keys c.aio_handlers = [100, 100] ∧
      ¬ (notifier_keys c.aio_handlers).Nodup := by
  refine ⟨_, rfl, by decide, by decide⟩

/-! ## The shape of a registration call's result -/

theorem set_fd_handler_shape {h : Nat → Int} {ctx : AioContext} {fd : Int} {ext : Bool}
    {r w o : Nat} {ctx1 : AioContext}
    (hrun : aio_set_fd_handler h ctx fd ext r w o = some ctx1) :
    ctx1.walking_handlers = ctx.walking_handlers ∧ ctx1.notifier = ctx.notifier ∧
    (ctx1.aio_handlers = ctx.aio_handlers ∨
      (∃ pre n post, ctx.aio_handlers = pre ++ n :: post ∧ fd_match fd n = true ∧
        (∀ m ∈ pre, fd_match fd m = false) ∧ (r = 0 ∧ w = 0 ∧ n.io_notify = 0) ∧
        ((ctx.walking_handlers ≠ 0 ∧ ctx1.aio_handlers = pre ++ tombstone n :: post) ∨
          (ctx.walking_handlers = 0 ∧ ctx1.aio_handlers = pre ++ post))) ∨
      ((∀ m ∈ ctx.aio_handlers, fd_match fd m = false) ∧
        ctx1.aio_handlers =
          fd_node_update ctx.notifier (new_fd_node fd) ext r w o :: ctx.aio_handlers) ∨
      (∃ pre n post, ctx.aio_handlers = pre ++ n :: post ∧ fd_match fd n = true ∧
        (∀ m ∈ pre, fd_match fd m = false) ∧ ¬ (r = 0 ∧ w = 0) ∧
        ctx1.aio_handlers = pre ++ fd_node_update ctx.notifier n ext r w o :: post)) := by
  unfold aio_set_fd_handler at hrun
  cases hf : find_node (fd_match fd) ctx.aio_handlers with
  | none =>
    rw [hf] at hrun
    by_cases hrw : r = 0 ∧ w = 0
    · simp [hrw] at hrun
      subst hrun
      exact ⟨rfl, rfl, Or.inl rfl⟩
    · simp [hrw] at hrun
      subst hrun
      exact ⟨rfl, rfl, Or.inr (Or.inr (Or.inl ⟨find_node_eq_none hf, rfl⟩))⟩
  | some s =>
    obtain ⟨pre, n, post⟩ := s
    rw [hf] at hrun
    obtain ⟨hl, hn, hpre⟩ := find_node_eq_some hf
    by_cases hrw : r = 0 ∧ w = 0
    · by_cases hnot : n.io_notify = 0
      · by_cases hw : ctx.walking_handlers = 0
        · simp [hrw, hnot, hw] at hrun
          subst hrun
          exact ⟨hw.symm, rfl, Or.inr (Or.inl ⟨pre, n, post, hl, hn, hpre,
            ⟨hrw.1, hrw.2, hnot⟩, Or.inr ⟨hw, rfl⟩⟩)⟩
        · simp [hrw, hnot, hw] at hrun
          subst hrun
          exact ⟨rfl, rfl, Or.inr (Or.inl ⟨pre, n, post, hl, hn, hpre,
            ⟨hrw.1, hrw.2, hnot⟩, Or.inl ⟨hw, rfl⟩⟩)⟩
      · simp [hrw, hnot] at hrun
    · simp [hrw] at hrun
      subst hrun
      exact ⟨rfl, rfl, Or.inr (Or.inr (Or.inr ⟨pre, n, post, hl, hn, hpre, hrw, rfl⟩))⟩

theorem set_event_notifier_shape {h : Nat → Int} {ctx : AioContext} {e : Nat} {ext : Bool}
    {f : Nat} {ctx1 : AioContext}
    (hrun : aio_set_event_notifier h ctx e ext f = some ctx1) :
    ctx1.walking_handlers = ctx.walking_handlers ∧ ctx1.notifier = ctx.notifier ∧
    (ctx1.aio_handlers = ctx.aio_handlers ∨
      (∃ pre n post, ctx.aio_handlers = pre ++ n :: post ∧ notifier_match e n = true ∧
        (∀ m ∈ pre, notifier_match e m = false) ∧ f = 0 ∧
        ((ctx.walking_handlers ≠ 0 ∧ ctx1.aio_handlers = pre ++ tombstone n :: post) ∨
          (ctx.walking_handlers = 0 ∧ ctx1.aio_handlers = pre ++ post))) ∨
      ((∀ m ∈ ctx.aio_handlers, notifier_match e m = false) ∧
        ctx1.aio_handlers =
          { new_notifier_node h e ext with io_notify := f } :: ctx.aio_handlers) ∨
      (∃ pre n post, ctx.aio_handlers = pre ++ n :: post ∧ notifier_match e n = true ∧
        (∀ m ∈ pre, notifier_match e m = false) ∧ f ≠ 0 ∧
        ctx1.aio_handlers = pre ++ { n with io_notify := f } :: post)) := by
  unfold aio_set_event_notifier at hrun
  cases hf : find_node (notifier_match e) ctx.aio_handlers with
  | none =>
    rw [hf] at hrun
    by_cases hrw : f = 0
    · simp [hrw] at hrun
      subst hrun
      exact ⟨rfl, rfl, Or.inl rfl⟩
    · simp [hrw] at hrun
      subst hrun
      exact ⟨rfl, rfl, Or.inr (Or.inr (Or.inl ⟨find_node_eq_none hf, rfl⟩))⟩
  | some s =>
    obtain ⟨pre, n, post⟩ := s
    rw [hf] at hrun
    obtain ⟨hl, hn, hpre⟩ := find_node_eq_some hf
    by_cases hrw : f = 0
    · by_cases hw : ctx.walking_handlers = 0
      · simp [hrw, hw] at hrun
        subst hrun
        exact ⟨hw.symm, rfl,
          Or.inr (Or.inl ⟨pre, n, post, hl, hn, hpre, hrw, Or.inr ⟨hw, rfl⟩⟩)⟩
      · simp [hrw, hw] at hrun
        subst hrun
        exact ⟨rfl, rfl, Or.inr (Or.inl ⟨pre, n, post, hl, hn, hpre, hrw, Or.inl ⟨hw, rfl⟩⟩)⟩
    · simp [hrw] at hrun
      subst hrun
      exact ⟨rfl, rfl, Or.inr (Or.inr (Or.inr ⟨pre, n, post, hl, hn, hpre, hrw, rfl⟩))⟩

theorem RegCall_run_walking {h : Nat → Int} {ctx ctx1 : AioContext} {c : RegCall}
    (hrun : c.run h ctx = some ctx1) :
    ctx1.walking_handlers = ctx.walking_handlers ∧ ctx1.notifier = ctx.notifier := by
  cases c with
  | set_fd_handler fd ext r w o =>
    have := set_fd_handler_shape (h := h) hrun; exact ⟨this.1, this.2.1⟩
  | set_event_notifier e ext f =>
    have := set_event_notifier_shape (h := h) hrun; exact ⟨this.1, this.2.1⟩

theorem run_calls_walking {h : Nat → Int} :
    ∀ (calls : List RegCall) {ctx ctx1 : AioContext}, run_calls h ctx calls = some ctx1 →
      ctx1.walking_handlers = ctx.walking_handlers ∧ ctx1.notifier = ctx.notifier := by
  intro calls
  induction calls with
  | nil => intro ctx ctx1 hrun; simp [run_calls] at hrun; subst hrun; exact ⟨rfl, rfl⟩
  | cons c cs ih =>
    intro ctx ctx1 hrun
    simp only [run_calls] at hrun
    cases hc : c.run h ctx with
    | none => rw [hc] at hrun; simp at hrun
    | some ctx2 =>
      rw [hc] at hrun
      have h1 := RegCall_run_walking hc
      have h2 := ih hrun
      exact ⟨h2.1.trans h1.1, h2.2.trans h1.2⟩

/-! ## Key uniqueness -/

theorem fd_keys_append (a b : List AioHandler) : fd_keys (a ++ b) = fd_keys a ++ fd_keys b := by
  simp [fd_keys]

theorem notifier_keys_append (a b : List AioHandler) :
    notifier_keys (a ++ b) = notifier_keys a ++ notifier_keys b := by
  simp [notifier_keys]

theorem fd_keys_cons (n : AioHandler) (l : List AioHandler) :
    fd_keys (n :: l) = fd_keys [n] ++ fd_keys l := fd_keys_append [n] l

theorem notifier_keys_cons (n : AioHandler) (l : List AioHandler) :
    notifier_keys (n :: l) = notifier_keys [n] ++ notifier_keys l := notifier_keys_append [n] l

theorem fd_keys_single_eq {n m : AioHandler} (h1 : m.deleted = n.deleted)
    (h2 : m.origin = n.origin) (h3 : m.pfd.fd = n.pfd.fd) : fd_keys [m] = fd_keys [n] := by
  simp [fd_keys, is_live, h1, h2, h3]
  by_cases h : n.deleted = 0 ∧ n.origin = Origin.fd_handler
  · rw [List.filter_cons_of_pos (by simpa [h1, h2] using h),
      List.filter_cons_of_pos (by simpa using h)]
    simp [h3]
  · rw [List.filter_cons_of_neg (by simpa [h1, h2] using h),
      List.filter_cons_of_neg (by simpa using h)]

theorem notifier_keys_single_eq {n m : AioHandler} (h1 : m.deleted = n.deleted)
    (h2 : m.origin = n.origin) (h3 : m.e = n.e) : notifier_keys [m] = notifier_keys [n] := by
  simp [notifier_keys, is_live, h1, h2, h3]
  by_cases h : n.deleted = 0 ∧ n.origin = Origin.event_notifier
  · rw [List.filter_cons_of_pos (by simpa [h1, h2] using h),
      List.filter_cons_of_pos (by simpa using h)]
    simp [h3]
  · rw [List.filter_cons_of_neg (by simpa [h1, h2] using h),
      List.filter_cons_of_neg (by simpa using h)]

theorem fd_keys_tombstone (n : AioHandler) : fd_keys [tombstone n] = [] := by
  simp [fd_keys]

theorem notifier_keys_tombstone (n : AioHandler) : notifier_keys [tombstone n] = [] := by
  simp [notifier_keys]

theorem fd_keys_of_origin {n : AioHandler} (h : n.origin = Origin.event_notifier) :
    fd_keys [n] = [] := by
  simp [fd_keys, h]

theorem notifier_keys_of_origin {n : AioHandler} (h : n.origin = Origin.fd_handler) :
    notifier_keys [n] = [] := by
  simp [notifier_keys, h]

theorem not_mem_fd_keys {fd : Int} {l : List AioHandler}
    (h : ∀ m ∈ l, fd_match fd m = false) : fd ∉ fd_keys l := by
  intro hmem
  simp only [fd_keys, List.mem_map, List.mem_filter] at hmem
  obtain ⟨m, ⟨hm, hsel⟩, hfd⟩ := hmem
  have := h m hm
  simp [fd_match, is_live] at this hsel
  exact this hfd hsel.1

theorem not_mem_notifier_keys {e : Nat} {l : List AioHandler}
    (h : ∀ m ∈ l, notifier_match e m = false) : e ∉ notifier_keys l := by
  intro hmem
  simp only [notifier_keys, List.mem_map, List.mem_filter] at hmem
  obtain ⟨m, ⟨hm, hsel⟩, he⟩ := hmem
  have := h m hm
  simp [notifier_match, is_live] at this hsel
  exact this he hsel.1

theorem nodup_drop_middle {α : Type} {a b c : List α} (h : (a ++ (b ++ c)).Nodup) :
    (a ++ c).Nodup :=
  h.sublist ((List.sublist_append_right b c).append_left a)

/-- The sockets of live `aio_set_fd_handler` entries stay distinct across one call. -/
theorem fd_keys_step {h : Nat → Int} {ctx ctx1 : AioContext} {c : RegCall}
    (hrun : c.run h ctx = some ctx1) (hnd : (fd_keys ctx.aio_handlers).Nodup) :
    (fd_keys ctx1.aio_handlers).Nodup := by
  cases c with
  | set_fd_handler fd ext r w o =>
    obtain ⟨-, -, hs⟩ := set_fd_handler_shape (h := h) hrun
    rcases hs with hs | ⟨pre, n, post, hl, -, -, -, hs⟩ | ⟨hno, hs⟩ | ⟨pre, n, post, hl, -, -, -, hs⟩
    · rw [hs]; exact hnd
    · rw [hl, fd_keys_append, fd_keys_cons] at hnd
      rcases hs with ⟨-, hs⟩ | ⟨-, hs⟩
      · rw [hs, fd_keys_append, fd_keys_cons, fd_keys_tombstone]
        exact nodup_drop_middle hnd
      · rw [hs, fd_keys_append]
        exact nodup_drop_middle hnd
    · rw [hs, fd_keys_cons]
      have : fd_keys [fd_node_update ctx.notifier (new_fd_node fd) ext r w o] = [fd] := by
        simp [fd_keys, is_live]
      rw [this]
      exact List.nodup_cons.2 ⟨not_mem_fd_keys hno, hnd⟩
    · rw [hl, fd_keys_append, fd_keys_cons] at hnd
      rw [hs, fd_keys_append, fd_keys_cons,
        fd_keys_single_eq (n := n) (by simp) (by simp) (by simp)]
      exact hnd
  | set_event_notifier e ext f =>
    obtain ⟨-, -, hs⟩ := set_event_notifier_shape (h := h) hrun
    rcases hs with hs | ⟨pre, n, post, hl, -, -, -, hs⟩ | ⟨-, hs⟩ | ⟨pre, n, post, hl, -, -, -, hs⟩
    · rw [hs]; exact hnd
    · rw [hl, fd_keys_append, fd_keys_cons] at hnd
      rcases hs with ⟨-, hs⟩ | ⟨-, hs⟩
      · rw [hs, fd_keys_append, fd_keys_cons, fd_keys_tombstone]
        exact nodup_drop_middle hnd
      · rw [hs, fd_keys_append]
        exact nodup_drop_middle hnd
    · rw [hs, fd_keys_cons, fd_keys_of_origin (by simp)]
      exact hnd
    · rw [hl, fd_keys_append, fd_keys_cons] at hnd
      rw [hs, fd_keys_append, fd_keys_cons,
        fd_keys_single_eq (n := n) (m := { n with io_notify := f }) rfl rfl rfl]
      exact hnd

theorem handle_keyed_append {h : Nat → Int} {a b : List AioHandler} :
    handle_keyed h (a ++ b) ↔ handle_keyed h a ∧ handle_keyed h b := by
  simp only [handle_keyed, List.mem_append]
  constructor
  · intro hab
    exact ⟨fun n hn => hab n (Or.inl hn), fun n hn => hab n (Or.inr hn)⟩
  · rintro ⟨ha, hb⟩ n (hn | hn)
    · exact ha n hn
    · exact hb n hn

theorem handle_keyed_cons {h : Nat → Int} {n : AioHandler} {l : List AioHandler} :
    handle_keyed h (n :: l) ↔
      (n.origin = Origin.event_notifier → ∃ e, n.pfd.fd = h e) ∧ handle_keyed h l := by
  simp [handle_keyed]

/-- With sockets kept apart from notifier handles, the notifiers of live
`aio_set_event_notifier` entries stay distinct across one call. -/
theorem notifier_keys_step {h : Nat → Int} {ctx ctx1 : AioContext} {c : RegCall}
    (hok : socket_ok h c) (hrun : c.run h ctx = some ctx1)
    (hk : handle_keyed h ctx.aio_handlers) (hnd : (notifier_keys ctx.aio_handlers).Nodup) :
    handle_keyed h ctx1.aio_handlers ∧ (notifier_keys ctx1.aio_handlers).Nodup := by
  cases c with
  | set_fd_handler fd ext r w o =>
    have hfd : ∀ n : AioHandler, fd_match fd n = true →
        (n.origin = Origin.event_notifier → ∃ e, n.pfd.fd = h e) →
        n.origin = Origin.fd_handler := by
      intro n hn hh
      cases ho : n.origin with
      | fd_handler => rfl
      | event_notifier =>
        obtain ⟨e, he⟩ := hh ho
        simp [fd_match] at hn
        exact absurd (he.symm.trans hn.1) (hok e)
    obtain ⟨-, -, hs⟩ := set_fd_handler_shape (h := h) hrun
    rcases hs with hs | ⟨pre, n, post, hl, -, -, -, hs⟩ | ⟨hno, hs⟩ | ⟨pre, n, post, hl, hn, -, -, hs⟩
    · rw [hs]; exact ⟨hk, hnd⟩
    · rw [hl, notifier_keys_append, notifier_keys_cons] at hnd
      rw [hl, handle_keyed_append, handle_keyed_cons] at hk
      rcases hs with ⟨-, hs⟩ | ⟨-, hs⟩
      · rw [hs, notifier_keys_append, notifier_keys_cons, notifier_keys_tombstone,
          handle_keyed_append, handle_keyed_cons]
        exact ⟨⟨hk.1, by simpa using hk.2.1, hk.2.2⟩, nodup_drop_middle hnd⟩
      · rw [hs, notifier_keys_append, handle_keyed_append]
        exact ⟨⟨hk.1, hk.2.2⟩, nodup_drop_middle hnd⟩
    · rw [hs, notifier_keys_cons, notifier_keys_of_origin (by simp), handle_keyed_cons]
      exact ⟨⟨by simp, hk⟩, hnd⟩
    · rw [hl, notifier_keys_append, notifier_keys_cons] at hnd
      rw [hl, handle_keyed_append, handle_keyed_cons] at hk
      have ho := hfd n hn hk.2.1
      rw [notifier_keys_of_origin ho] at hnd
      rw [hs, notifier_keys_append, notifier_keys_cons,
        notifier_keys_of_origin (by simpa using ho), handle_keyed_append, handle_keyed_cons]
      exact ⟨⟨hk.1, by simp [ho], hk.2.2⟩, hnd⟩
  | set_event_notifier e ext f =>
    obtain ⟨-, -, hs⟩ := set_event_notifier_shape (h := h) hrun
    rcases hs with hs | ⟨pre, n, post, hl, -, -, -, hs⟩ | ⟨hno, hs⟩ | ⟨pre, n, post, hl, -, -, -, hs⟩
    · rw [hs]; exact ⟨hk, hnd⟩
    · rw [hl, notifier_keys_append, notifier_keys_cons] at hnd
      rw [hl, handle_keyed_append, handle_keyed_cons] at hk
      rcases hs with ⟨-, hs⟩ | ⟨-, hs⟩
      · rw [hs, notifier_keys_append, notifier_keys_cons, notifier_keys_tombstone,
          handle_keyed_append, handle_keyed_cons]
        exact ⟨⟨hk.1, by simpa using hk.2.1, hk.2.2⟩, nodup_drop_middle hnd⟩
      · rw [hs, notifier_keys_append, handle_keyed_append]
        exact ⟨⟨hk.1, hk.2.2⟩, nodup_drop_middle hnd⟩
    · rw [hs, notifier_keys_cons, handle_keyed_cons]
      have : notifier_keys [{ new_notifier_node h e ext with io_notify := f }] = [e] := by
        simp [notifier_keys, is_live]
      rw [this]
      exact ⟨⟨fun _ => ⟨e, rfl⟩, hk⟩, List.nodup_cons.2 ⟨not_mem_notifier_keys hno, hnd⟩⟩
    · rw [hl, notifier_keys_append, notifier_keys_cons] at hnd
      rw [hl, handle_keyed_append, handle_keyed_cons] at hk
      rw [hs, notifier_keys_append, notifier_keys_cons,
        notifier_keys_single_eq (n := n) (m := { n with io_notify := f }) rfl rfl rfl,
        handle_keyed_append, handle_keyed_cons]
      exact ⟨⟨hk.1, hk.2.1, hk.2.2⟩, hnd⟩

theorem fd_keys_run_calls_at {h : Nat → Int} :
    ∀ (calls : List (Int × RegCall)) {ctx ctx1 : AioContext},
      run_calls_at h ctx calls = some ctx1 → (fd_keys ctx.aio_handlers).Nodup →
      (fd_keys ctx1.aio_handlers).Nodup := by
  intro calls
  induction calls with
  | nil => intro ctx ctx1 hrun hnd; simp [run_calls_at] at hrun; subst hrun; exact hnd
  | cons wc cs ih =>
    intro ctx ctx1 hrun hnd
    obtain ⟨w, c⟩ := wc
    simp only [run_calls_at] at hrun
    cases hc : c.run h { ctx with walking_handlers := w } with
    | none => rw [hc] at hrun; simp at hrun
    | some ctx2 =>
      rw [hc] at hrun
      exact ih hrun (fd_keys_step hc hnd)

theorem notifier_keys_run_calls_at {h : Nat → Int} :
    ∀ (calls : List (Int × RegCall)) {ctx ctx1 : AioContext},
      (∀ wc ∈ calls, socket_ok h wc.2) →
      run_calls_at h ctx calls = some ctx1 →
      handle_keyed h ctx.aio_handlers → (notifier_keys ctx.aio_handlers).Nodup →
      handle_keyed h ctx1.aio_handlers ∧ (notifier_keys ctx1.aio_handlers).Nodup := by
  intro calls
  induction calls with
  | nil => intro ctx ctx1 _ hrun hk hnd; simp [run_calls_at] at hrun; subst hrun; exact ⟨hk, hnd⟩
  | cons wc cs ih =>
    intro ctx ctx1 hok hrun hk hnd
    obtain ⟨w, c⟩ := wc
    simp only [run_calls_at] at hrun
    cases hc : c.run h { ctx with walking_handlers := w } with
    | none => rw [hc] at hrun; simp at hrun
    | some ctx2 =>
      rw [hc] at hrun
      have hstep := notifier_keys_step (hok (w, c) (List.mem_cons_self _ _)) hc hk hnd
      exact ih (fun x hx => hok x (List.mem_cons_of_mem _ hx)) hrun hstep.1 hstep.2

/-- C7 (amended). In every registry state reached from an empty registry by a
sequence of `aio_set_fd_handler` / `aio_set_event_notifier` calls, issued at
any values of `walking_handlers`, no two live entries created by
`aio_set_fd_handler` have the same `pfd.fd`; and when every socket passed to
`aio_set_fd_handler` differs from every notifier handle, no two live entries
created by `aio_set_event_notifier` have the same `e`. -/
theorem live_keys_unique (h : Nat → Int) (ctx0 ctx : AioContext)
    (calls : List (Int × RegCall)) (hempty : ctx0.aio_handlers = [])
    (hrun : run_calls_at h ctx0 calls = some ctx) :
    (fd_keys ctx.aio_handlers).Nodup ∧
    ((∀ wc ∈ calls, socket_ok h wc.2) → (notifier_keys ctx.aio_handlers).Nodup) := by
  refine ⟨fd_keys_run_calls_at calls hrun (by simp [hempty, fd_keys]), ?_⟩
  intro hok
  exact (notifier_keys_run_calls_at calls hok hrun (by simp [hempty, handle_keyed])
    (by simp [hempty, notifier_keys])).2

/-- Witness for `live_keys_unique`: socket 5 and notifier 7 registered, socket
5 removed during a walk and registered again. -/
theorem live_keys_unique_witness :
    ∃ ctx, run_calls_at ex_handle ex_ctx ex_calls_unique = some ctx ∧
      fd_keys ctx.aio_handlers = [5] ∧ notifier_keys ctx.aio_handlers = [7, 100] ∧
      (fd_keys ctx.aio_handlers).Nodup ∧ (notifier_keys ctx.aio_handlers).Nodup := by
  have hrun : run_calls_at ex_handle ex_ctx ex_calls_unique = some ex_ctx_unique := by decide
  have hok : ∀ wc ∈ ex_calls_unique, socket_ok ex_handle wc.2 := by
    intro wc hwc
    simp only [ex_calls_unique, List.mem_cons, List.mem_singleton, List.not_mem_nil,
      or_false] at hwc
    rcases hwc with rfl | rfl | rfl | rfl | rfl <;>
      first
        | trivial
        | (intro e; simp only [ex_handle]; omega)
  have hthm := live_keys_unique ex_handle ex_ctx ex_ctx_unique ex_calls_unique rfl hrun
  exact ⟨ex_ctx_unique, hrun, by decide, by decide, hthm.1, hthm.2 hok⟩

/-! ## The reactor's own wake entry -/

/-- C8 (the code at the failing input). With the context's own notifier
registered as a live, admitted notify entry, the call
`aio_set_event_notifier(ctx, &ctx->notifier, false, NULL)` returns and leaves
the registry, and so the wait-set, empty; the next call of `aio_poll`,
blocking or not, then stops at `assert(count > 0)`, the assertion the source
comments with "ctx->notifier is always registered". -/
theorem wake_entry_unregistered :
    is_wake_entry ex_handle (fun _ => true) ex_ctx_wake.notifier
      { new_notifier_node ex_handle 100 false with io_notify := 33 } ∧
    ex_handle ex_ctx_wake.notifier ∈
      fill_events ex_handle (fun _ => true) ex_ctx_wake.aio_handlers ∧
    ∃ c, run_calls ex_handle ex_ctx_wake [RegCall.set_event_notifier 100 false 0] = some c ∧
      c.aio_handlers = [] ∧
      (fill_events ex_handle (fun _ => true) c.aio_handlers).length = 0 ∧
      ∀ fuel blocking, ∃ s,
        aio_poll ex_poll_env fuel c blocking = Outcome.aborted Abort.assert_count s := by
  refine ⟨by simp [is_wake_entry, ex_ctx_wake, ex_ctx, ex_handle], by decide, _, rfl, by decide,
    by decide, ?_⟩
  intro fuel blocking
  cases blocking <;> exact ⟨_, rfl⟩

theorem wake_entry_in_events {h : Nat → Int} {check : Bool → Bool} {a : Nat}
    {l : List AioHandler} (hx : ∃ x ∈ l, is_wake_entry h check a x) :
    h a ∈ fill_events h check l := by
  obtain ⟨x, hx, hlive, he, hn, -, hadm⟩ := hx
  simp only [fill_events, List.mem_map, List.mem_filter]
  exact ⟨x, ⟨hx, by simp [hlive, hn, hadm]⟩, by rw [he]⟩

theorem wake_entry_step {h : Nat → Int} (check : Bool → Bool) {ctx ctx1 : AioContext}
    {c : RegCall} (hc : keeps_wake h ctx.notifier c) (hrun : c.run h ctx = some ctx1)
    (hx : ∃ x ∈ ctx.aio_handlers, is_wake_entry h check ctx.notifier x) :
    ∃ x ∈ ctx1.aio_handlers, is_wake_entry h check ctx.notifier x := by
  obtain ⟨x, hx, hP⟩ := hx
  cases c with
  | set_fd_handler fd ext r w o =>
    have hne : ∀ n : AioHandler, fd_match fd n = true → x ≠ n := by
      rintro n hn rfl
      simp [fd_match] at hn
      exact hc (hn.1.symm.trans hP.2.2.2.1)
    obtain ⟨-, -, hs⟩ := set_fd_handler_shape (h := h) hrun
    rcases hs with hs | ⟨pre, n, post, hl, hn, -, -, hs⟩ | ⟨-, hs⟩ |
      ⟨pre, n, post, hl, hn, -, -, hs⟩
    · exact ⟨x, hs ▸ hx, hP⟩
    · rw [hl] at hx
      have hx1 : x ∈ pre ∨ x ∈ post := by
        rcases List.mem_append.1 hx with hx | hx
        · exact Or.inl hx
        · rcases List.mem_cons.1 hx with hx | hx
          · exact absurd hx (hne n hn)
          · exact Or.inr hx
      rcases hs with ⟨-, hs⟩ | ⟨-, hs⟩ <;>
        exact ⟨x, by rw [hs]; rcases hx1 with h1 | h1 <;> simp [h1], hP⟩
    · exact ⟨x, by rw [hs]; exact List.mem_cons_of_mem _ hx, hP⟩
    · rw [hl] at hx
      have hx1 : x ∈ pre ∨ x ∈ post := by
        rcases List.mem_append.1 hx with hx | hx
        · exact Or.inl hx
        · rcases List.mem_cons.1 hx with hx | hx
          · exact absurd hx (hne n hn)
          · exact Or.inr hx
      exact ⟨x, by rw [hs]; rcases hx1 with h1 | h1 <;> simp [h1], hP⟩
  | set_event_notifier e ext f =>
    obtain ⟨-, -, hs⟩ := set_event_notifier_shape (h := h) hrun
    rcases hs with hs | ⟨pre, n, post, hl, hn, -, hf0, hs⟩ | ⟨-, hs⟩ |
      ⟨pre, n, post, hl, hn, -, hf0, hs⟩
    · exact ⟨x, hs ▸ hx, hP⟩
    · have hne : x ≠ n := by
        rintro rfl
        simp [notifier_match] at hn
        exact hc (hP.2.1.symm.trans hn.1).symm hf0
      rw [hl] at hx
      have hx1 : x ∈ pre ∨ x ∈ post := by
        rcases List.mem_append.1 hx with hx | hx
        · exact Or.inl hx
        · rcases List.mem_cons.1 hx with hx | hx
          · exact absurd hx hne
          · exact Or.inr hx
      rcases hs with ⟨-, hs⟩ | ⟨-, hs⟩ <;>
        exact ⟨x, by rw [hs]; rcases hx1 with h1 | h1 <;> simp [h1], hP⟩
    · exact ⟨x, by rw [hs]; exact List.mem_cons_of_mem _ hx, hP⟩
    · rw [hl] at hx
      rcases List.mem_append.1 hx with hx | hx
      · exact ⟨x, by rw [hs]; simp [hx], hP⟩
      · rcases List.mem_cons.1 hx with hx | hx
        · subst hx
          refine ⟨{ x with io_notify := f }, by rw [hs]; simp, ?_⟩
          exact ⟨hP.1, hP.2.1, hf0, hP.2.2.2.1, hP.2.2.2.2⟩
        · exact ⟨x, by rw [hs]; simp [hx], hP⟩

/-- The wake entry stays as long as no call asks for its removal: if the
context's own notifier is registered as a live, admitted notify entry, then
after every sequence of registration calls that
returns, none of which is `aio_set_event_notifier(ctx, &ctx->notifier, _,
NULL)` or uses the notifier's handle as a socket, a live, admitted notify
entry for `&ctx->notifier` is still in the list, the wait-set built by
`aio_poll` contains its handle, and `count > 0`. -/
theorem wake_entry_kept (h : Nat → Int) (check : Bool → Bool) (calls : List RegCall)
    (ctx ctx1 : AioContext)
    (hx : ∃ x ∈ ctx.aio_handlers, is_wake_entry h check ctx.notifier x)
    (hcalls : ∀ c ∈ calls, keeps_wake h ctx.notifier c)
    (hrun : run_calls h ctx calls = some ctx1) :
    (∃ x ∈ ctx1.aio_handlers, is_wake_entry h check ctx1.notifier x) ∧
    h ctx1.notifier ∈ fill_events h check ctx1.aio_handlers ∧
    0 < (fill_events h check ctx1.aio_handlers).length := by
  have key : ∀ (calls : List RegCall) (ctx ctx1 : AioContext),
      (∃ x ∈ ctx.aio_handlers, is_wake_entry h check ctx.notifier x) →
      (∀ c ∈ calls, keeps_wake h ctx.notifier c) →
      run_calls h ctx calls = some ctx1 →
      ∃ x ∈ ctx1.aio_handlers, is_wake_entry h check ctx1.notifier x := by
    intro calls
    induction calls with
    | nil => intro ctx ctx1 hx _ hrun; simp [run_calls] at hrun; subst hrun; exact hx
    | cons c cs ih =>
      intro ctx ctx1 hx hcalls hrun
      simp only [run_calls] at hrun
      cases hc : c.run h ctx with
      | none => rw [hc] at hrun; simp at hrun
      | some ctx2 =>
        rw [hc] at hrun
        have hn := (RegCall_run_walking hc).2
        have h2 := wake_entry_step check (hcalls c (List.mem_cons_self _ _)) hc hx
        rw [← hn] at h2
        exact ih ctx2 ctx1 h2
          (fun c1 hc1 => by rw [hn]; exact hcalls c1 (List.mem_cons_of_mem _ hc1)) hrun
  have hfin := key calls ctx ctx1 hx hcalls hrun
  have hmem := wake_entry_in_events hfin
  exact ⟨hfin, hmem, List.length_pos_of_mem hmem⟩

/-- Witness for `wake_entry_kept`: with the context's notifier registered, a
socket and a second notifier are registered and removed again, and the
notifier's callback is replaced. -/
theorem wake_entry_kept_witness :
    ∃ c, run_calls ex_handle ex_ctx_wake ex_calls_wake = some c ∧
      ex_handle c.notifier ∈ fill_events ex_handle (fun _ => true) c.aio_handlers ∧
      0 < (fill_events ex_handle (fun _ => true) c.aio_handlers).length := by
  have hrun : run_calls ex_handle ex_ctx_wake ex_calls_wake
      = some (ex_ctx_wake_after) := by decide
  have hx : ∃ x ∈ ex_ctx_wake.aio_handlers,
      is_wake_entry ex_handle (fun _ => true) ex_ctx_wake.notifier x :=
    ⟨_, List.mem_singleton.2 rfl, by simp [is_wake_entry, ex_ctx_wake, ex_ctx, ex_handle]⟩
  have hcalls : ∀ c ∈ ex_calls_wake, keeps_wake ex_handle ex_ctx_wake.notifier c := by
    intro c hc
    simp only [ex_calls_wake, List.mem_cons, List.mem_singleton, List.not_mem_nil,
      or_false] at hc
    rcases hc with rfl | rfl | rfl | rfl | rfl <;>
      simp [keeps_wake, ex_handle, ex_ctx_wake, ex_ctx]
  have hthm := wake_entry_kept ex_handle (fun _ => true) ex_calls_wake ex_ctx_wake
    ex_ctx_wake_after hx hcalls hrun
  exact ⟨ex_ctx_wake_after, hrun, hthm.2.1, hthm.2.2⟩

/-! ## Node positions during a walk -/

theorem node_at_eq_some {l : List AioHandler} {slot : Nat} {pre : List AioHandler}
    {n : AioHandler} {post : List AioHandler} (h : node_at l slot = some (pre, n, post)) :
    l = pre ++ n :: post ∧ post.length + 1 = slot ∧ pre = l.take (l.length - slot) := by
  unfold node_at at h
  by_cases hs : slot = 0 ∨ l.length < slot
  · simp [hs] at h
  · rw [if_neg hs] at h
    have hs1 : 0 < slot ∧ slot ≤ l.length := by
      constructor
      · exact Nat.pos_of_ne_zero (fun h0 => hs (Or.inl h0))
      · exact Nat.le_of_not_lt (fun h1 => hs (Or.inr h1))
    cases hd : l.drop (l.length - slot) with
    | nil => rw [hd] at h; simp at h
    | cons a tl =>
      rw [hd] at h
      simp only [Option.some.injEq, Prod.mk.injEq] at h
      obtain ⟨rfl, rfl, rfl⟩ := h
      have hsplit := List.take_append_drop (l.length - slot) l
      rw [hd] at hsplit
      refine ⟨hsplit.symm, ?_, rfl⟩
      have hlen := congrArg List.length hd
      simp only [List.length_drop, List.length_cons] at hlen
      omega

theorem node_at_split (pre : List AioHandler) (n : AioHandler) (post : List AioHandler) :
    node_at (pre ++ n :: post) (post.length + 1) = some (pre, n, post) := by
  unfold node_at
  have hlen : (pre ++ n :: post).length - (post.length + 1) = pre.length := by
    simp only [List.length_append, List.length_cons]; omega
  have hs : ¬ (post.length + 1 = 0 ∨ (pre ++ n :: post).length < post.length + 1) := by
    simp only [List.length_append, List.length_cons]; omega
  rw [if_neg hs, hlen]
  simp

theorem node_at_isSome {l : List AioHandler} {slot : Nat} (h1 : 0 < slot)
    (h2 : slot ≤ l.length) : ∃ pre n post, node_at l slot = some (pre, n, post) := by
  have hsplit := List.take_append_drop (l.length - slot) l
  cases hd : l.drop (l.length - slot) with
  | nil =>
    have hlen := congrArg List.length hd
    simp only [List.length_drop, List.length_nil] at hlen
    omega
  | cons a tl =>
    rw [hd] at hsplit
    have hlen := congrArg List.length hd
    simp only [List.length_drop, List.length_cons] at hlen
    have htl : tl.length + 1 = slot := by omega
    refine ⟨l.take (l.length - slot), a, tl, ?_⟩
    have := node_at_split (l.take (l.length - slot)) a tl
    rw [hsplit, htl] at this
    exact this

theorem clear_revents_split (ctx : AioContext) (pre : List AioHandler) (n : AioHandler)
    (post : List AioHandler) (h : ctx.aio_handlers = pre ++ n :: post) :
    clear_revents ctx (post.length + 1) =
      { ctx with aio_handlers := pre ++ clear_node n :: post } := by
  unfold clear_revents
  rw [h, node_at_split]

/-! ## Properties kept by every step of one iteration -/

theorem dispatch_notify_closed {env : Env} {slot : Nat} {P : Walk → Prop}
    (hP : StepClosed env slot P) {event : Int} {revents : Nat} {w w1 : Walk} (h0 : P w)
    (hrun : dispatch_notify env event slot revents w = some w1) : P w1 := by
  unfold dispatch_notify at hrun
  cases hn : node_at w.ctx.aio_handlers slot with
  | none => rw [hn] at hrun; simp at hrun
  | some s =>
    obtain ⟨pre, node, post⟩ := s
    rw [hn] at hrun
    simp only at hrun
    split at hrun
    · obtain ⟨hl, hslot, -⟩ := node_at_eq_some hn
      have hc := clear_revents_split w.ctx pre node post hl
      rw [hslot] at hc
      have hP1 := hP.clear w h0
      cases hi : invoke env { w with ctx := clear_revents w.ctx slot }
          { kind := CbKind.notify, slot := slot, node := clear_node node } with
      | none => rw [hi] at hrun; simp at hrun
      | some w2 =>
        rw [hi] at hrun
        have hP2 : P w2 := by
          refine hP.call _ w2 _ pre post hP1 rfl ?_ hi
          simp only [hc]
          rw [← hslot]
          exact node_at_split pre _ post
        simp only at hrun
        cases hn2 : node_at w2.ctx.aio_handlers slot with
        | none => rw [hn2] at hrun; simp at hrun
        | some s2 =>
          obtain ⟨pre2, node2, post2⟩ := s2
          rw [hn2] at hrun
          simp only at hrun
          split at hrun
          · simp only [Option.some.injEq] at hrun
            subst hrun
            exact hP.progress w2 hP2
          · simp only [Option.some.injEq] at hrun
            subst hrun
            exact hP2
    · simp only [Option.some.injEq] at hrun
      subst hrun
      exact h0

theorem dispatch_read_closed {env : Env} {slot : Nat} {P : Walk → Prop}
    (hP : StepClosed env slot P) {revents : Nat} {w w1 : Walk} (h0 : P w)
    (hrun : dispatch_read env slot revents w = some w1) : P w1 := by
  unfold dispatch_read at hrun
  cases hn : node_at w.ctx.aio_handlers slot with
  | none => rw [hn] at hrun; simp at hrun
  | some s =>
    obtain ⟨pre, node, post⟩ := s
    rw [hn] at hrun
    simp only at hrun
    split at hrun
    · cases hi : invoke env w { kind := CbKind.read, slot := slot, node := node } with
      | none => rw [hi] at hrun; simp at hrun
      | some w2 =>
        rw [hi] at hrun
        simp only [Option.some.injEq] at hrun
        subst hrun
        exact hP.progress w2 (hP.call w w2 _ pre post h0 rfl hn hi)
    · simp only [Option.some.injEq] at hrun
      subst hrun
      exact h0

theorem dispatch_write_closed {env : Env} {slot : Nat} {P : Walk → Prop}
    (hP : StepClosed env slot P) {revents : Nat} {w w1 : Walk} (h0 : P w)
    (hrun : dispatch_write env slot revents w = some w1) : P w1 := by
  unfold dispatch_write at hrun
  cases hn : node_at w.ctx.aio_handlers slot with
  | none => rw [hn] at hrun; simp at hrun
  | some s =>
    obtain ⟨pre, node, post⟩ := s
    rw [hn] at hrun
    simp only at hrun
    split at hrun
    · cases hi : invoke env w { kind := CbKind.write, slot := slot, node := node } with
      | none => rw [hi] at hrun; simp at hrun
      | some w2 =>
        rw [hi] at hrun
        simp only [Option.some.injEq] at hrun
        subst hrun
        exact hP.progress w2 (hP.call w w2 _ pre post h0 rfl hn hi)
    · simp only [Option.some.injEq] at hrun
      subst hrun
      exact h0

theorem dispatch_reprobe_closed {env : Env} {slot : Nat} {P : Walk → Prop}
    (hP : StepClosed env slot P) {event : Int} {w w1 : Walk} (h0 : P w)
    (hrun : dispatch_reprobe env event slot w = some w1) : P w1 := by
  unfold dispatch_reprobe at hrun
  cases hn : node_at w.ctx.aio_handlers slot with
  | none => rw [hn] at hrun; simp at hrun
  | some s =>
    obtain ⟨pre, node, post⟩ := s
    rw [hn] at hrun
    simp only at hrun
    split at hrun
    · split at hrun
      · simp only [Option.some.injEq] at hrun
        subst hrun
        exact hP.progress _ (hP.effects w _ h0)
      · simp only [Option.some.injEq] at hrun
        subst hrun
        exact hP.effects w _ h0
    · simp only [Option.some.injEq] at hrun
      subst hrun
      exact h0

theorem dispatch_rw_closed {env : Env} {slot : Nat} {P : Walk → Prop}
    (hP : StepClosed env slot P) {event : Int} {revents : Nat} {w w1 : Walk} (h0 : P w)
    (hrun : dispatch_rw env event slot revents w = some w1) : P w1 := by
  unfold dispatch_rw at hrun
  cases hn : node_at w.ctx.aio_handlers slot with
  | none => rw [hn] at hrun; simp at hrun
  | some s =>
    obtain ⟨pre, node, post⟩ := s
    rw [hn] at hrun
    simp only at hrun
    split at hrun
    · cases h1 : dispatch_read env slot revents { w with ctx := clear_revents w.ctx slot } with
      | none => rw [h1] at hrun; simp at hrun
      | some w2 =>
        rw [h1] at hrun
        simp only at hrun
        cases h2 : dispatch_write env slot revents w2 with
        | none => rw [h2] at hrun; simp at hrun
        | some w3 =>
          rw [h2] at hrun
          simp only at hrun
          exact dispatch_reprobe_closed hP
            (dispatch_write_closed hP (dispatch_read_closed hP (hP.clear w h0) h1) h2) hrun
    · simp only [Option.some.injEq] at hrun
      subst hrun
      exact h0

/-! ## Tombstones and the sweep -/

/-- C2 (the code at the failing input). One entry for socket 5 has `io_read`
and `io_write` and is read- and write-ready; its `io_read` callback
deregisters socket 5.  The walk calls `io_read` on the live entry and then
`io_write` on the same entry, whose `deleted` flag is 1 at that moment. -/
theorem io_write_called_on_tombstone :
    (aio_dispatch_handlers ex_env_remove_self ex_ctx_rw INVALID_HANDLE_VALUE).map
        (fun r => r.trace.map fun i => (i.kind, i.node.pfd.fd, i.node.io_write, i.node.deleted))
      = some [(CbKind.read, 5, 12, 0), (CbKind.write, 5, 12, 1)] := by
  decide

/-- C1 (counterexample). Sockets 1 and 2 are registered, no entry is marked
deleted and no walk is in progress; socket 2 is read-ready and its read
callback deregisters socket 1, which the walk has already left.  The pass
returns with `walking_handlers = 0` and the entry of socket 1 is still in the
list, marked deleted. -/
theorem tombstone_left_behind :
    ex_ctx_two.walking_handlers = 0 ∧ (∀ n ∈ ex_ctx_two.aio_handlers, n.deleted = 0) ∧
    ∃ r, aio_dispatch_handlers ex_env_remove_other ex_ctx_two INVALID_HANDLE_VALUE = some r ∧
      r.ctx.walking_handlers = 0 ∧
      r.ctx.aio_handlers = [tombstone (ex_node 1 11 0 0), ex_node 2 11 0 0] ∧
      ∃ n ∈ r.ctx.aio_handlers, n.deleted ≠ 0 := by
  refine ⟨rfl, by decide, _, rfl, rfl, by decide, ?_⟩
  exact ⟨tombstone (ex_node 1 11 0 0), by decide, by decide⟩

theorem RegCall_run_length {h : Nat → Int} {ctx ctx1 : AioContext} {c : RegCall}
    (hw : ctx.walking_handlers ≠ 0) (hrun : c.run h ctx = some ctx1) :
    ctx.aio_handlers.length ≤ ctx1.aio_handlers.length := by
  cases c with
  | set_fd_handler fd ext r w o =>
    obtain ⟨-, -, hs⟩ := set_fd_handler_shape hrun
    rcases hs with hs | ⟨pre, n, post, hl, -, -, -, hs⟩ | ⟨-, hs⟩ | ⟨pre, n, post, hl, -, -, -, hs⟩
    · rw [hs]
    · rcases hs with ⟨-, hs⟩ | ⟨h0, -⟩
      · rw [hs, hl]; simp
      · exact absurd h0 hw
    · rw [hs]; simp
    · rw [hs, hl]; simp
  | set_event_notifier e ext f =>
    obtain ⟨-, -, hs⟩ := set_event_notifier_shape hrun
    rcases hs with hs | ⟨pre, n, post, hl, -, -, -, hs⟩ | ⟨-, hs⟩ | ⟨pre, n, post, hl, -, -, -, hs⟩
    · rw [hs]
    · rcases hs with ⟨-, hs⟩ | ⟨h0, -⟩
      · rw [hs, hl]; simp
      · exact absurd h0 hw
    · rw [hs]; simp
    · rw [hs, hl]; simp

theorem run_calls_length {h : Nat → Int} :
    ∀ (calls : List RegCall) {ctx ctx1 : AioContext}, ctx.walking_handlers ≠ 0 →
      run_calls h ctx calls = some ctx1 →
      ctx.aio_handlers.length ≤ ctx1.aio_handlers.length := by
  intro calls
  induction calls with
  | nil => intro ctx ctx1 _ hrun; simp [run_calls] at hrun; subst hrun; exact Nat.le_refl _
  | cons c cs ih =>
    intro ctx ctx1 hw hrun
    simp only [run_calls] at hrun
    cases hc : c.run h ctx with
    | none => rw [hc] at hrun; simp at hrun
    | some ctx2 =>
      rw [hc] at hrun
      have h1 := RegCall_run_length hw hc
      have hw2 : ctx2.walking_handlers ≠ 0 := by rw [(RegCall_run_walking hc).1]; exact hw
      exact Nat.le_trans h1 (ih hw2 hrun)

theorem invoke_eq_some {env : Env} {w w1 : Walk} {inv : Invocation}
    (h : invoke env w inv = some w1) :
    run_calls env.get_handle w.ctx (env.callback w.trace inv w.ctx) = some w1.ctx ∧
      w1.trace = w.trace ++ [inv] ∧ w1.progress = w.progress := by
  unfold invoke at h
  cases hr : run_calls env.get_handle w.ctx (env.callback w.trace inv w.ctx) with
  | none => rw [hr] at h; simp at h
  | some c =>
    rw [hr] at h
    simp only [Option.some.injEq] at h
    subst h
    exact ⟨rfl, rfl, rfl⟩

/-- The invariant of one iteration for the sweep: one walk in progress, the
slot exists, and every node before it is live. -/
theorem sweep_inv_closed {env : Env} (henv : spares_visited env) (slot : Nat) :
    StepClosed env slot fun w =>
      w.ctx.walking_handlers = 1 ∧ slot ≤ w.ctx.aio_handlers.length ∧
        visited_live w.ctx.aio_handlers slot := by
  refine ⟨?_, ?_, ?_, ?_⟩
  · rintro w ⟨h1, h2, h3⟩
    unfold clear_revents
    cases hn : node_at w.ctx.aio_handlers slot with
    | none => exact ⟨h1, h2, h3⟩
    | some s =>
      obtain ⟨pre, n, post⟩ := s
      obtain ⟨hl, hslot, hpre⟩ := node_at_eq_some hn
      have hlen : (pre ++ clear_node n :: post).length
          = w.ctx.aio_handlers.length := by rw [hl]; simp
      refine ⟨h1, by simp only [hlen]; exact h2, ?_⟩
      simp only [visited_live, hlen] at h3 ⊢
      have hk : w.ctx.aio_handlers.length - slot = pre.length := by
        rw [hl]; simp only [List.length_append, List.length_cons]; omega
      rw [hk] at h3 ⊢
      rw [hl] at h3
      simpa using h3
  · rintro w w1 inv pre post ⟨h1, h2, h3⟩ hslot - hi
    obtain ⟨hr, -, -⟩ := invoke_eq_some hi
    have hw : w.ctx.walking_handlers ≠ 0 := by rw [h1]; decide
    refine ⟨by rw [(run_calls_walking _ hr).1]; exact h1,
      Nat.le_trans h2 (run_calls_length _ hw hr), ?_⟩
    have := henv w.trace inv w.ctx w1.ctx hw (by rw [hslot]; exact h2) hr
    rw [hslot] at this
    exact this h3
  · rintro w h; exact h
  · rintro w eff h; exact h

theorem dispatch_sweep_inv {slot : Nat} {w w1 : Walk}
    (h0 : w.ctx.walking_handlers = 1 ∧ slot + 1 ≤ w.ctx.aio_handlers.length ∧
      visited_live w.ctx.aio_handlers (slot + 1))
    (hrun : dispatch_sweep (slot + 1) w = some w1) :
    w1.ctx.walking_handlers = 0 ∧ slot ≤ w1.ctx.aio_handlers.length ∧
      visited_live w1.ctx.aio_handlers slot := by
  obtain ⟨h1, h2, h3⟩ := h0
  unfold dispatch_sweep at hrun
  cases hn : node_at w.ctx.aio_handlers (slot + 1) with
  | none => rw [hn] at hrun; simp at hrun
  | some s =>
    obtain ⟨pre, tmp, post⟩ := s
    rw [hn] at hrun
    obtain ⟨hl, hslot, -⟩ := node_at_eq_some hn
    have hpost : post.length = slot := by omega
    have hk : w.ctx.aio_handlers.length - (slot + 1) = pre.length := by
      rw [hl]; simp only [List.length_append, List.length_cons]; omega
    have hpre : ∀ n ∈ pre, n.deleted = 0 := by
      simp only [visited_live, hk] at h3
      rw [hl] at h3
      simpa using h3
    simp only [h1] at hrun
    by_cases hd : tmp.deleted = 0
    · simp [hd] at hrun
      subst hrun
      refine ⟨by simp, by simp only; omega, ?_⟩
      simp only [visited_live]
      have hk1 : w.ctx.aio_handlers.length - slot = pre.length + 1 := by
        rw [hl]; simp only [List.length_append, List.length_cons]; omega
      rw [hk1, hl]
      intro n hn
      have : List.take (pre.length + 1) (pre ++ tmp :: post) = pre ++ [tmp] := by
        rw [List.take_append_eq_append_take]
        simp
      rw [this] at hn
      rcases List.mem_append.1 hn with hn | hn
      · exact hpre n hn
      · rw [List.mem_singleton.1 hn]; exact hd
    · simp [hd] at hrun
      subst hrun
      refine ⟨by simp, by simp only [List.length_append]; omega, ?_⟩
      simp only [visited_live]
      have hk1 : (pre ++ post).length - slot = pre.length := by
        simp only [List.length_append]; omega
      rw [hk1]
      simpa using hpre

theorem dispatch_node_inv {env : Env} (henv : spares_visited env) {event : Int} {slot : Nat}
    {w w1 : Walk}
    (h0 : w.ctx.walking_handlers = 0 ∧ slot + 1 ≤ w.ctx.aio_handlers.length ∧
      visited_live w.ctx.aio_handlers (slot + 1))
    (hrun : dispatch_node env event (slot + 1) w = some w1) :
    w1.ctx.walking_handlers = 0 ∧ slot ≤ w1.ctx.aio_handlers.length ∧
      visited_live w1.ctx.aio_handlers slot := by
  unfold dispatch_node at hrun
  cases hn : node_at w.ctx.aio_handlers (slot + 1) with
  | none => rw [hn] at hrun; simp at hrun
  | some s =>
    obtain ⟨pre, node, post⟩ := s
    rw [hn] at hrun
    simp only at hrun
    cases hn1 : dispatch_notify env event (slot + 1) node.pfd.revents
        { w with ctx := { w.ctx with walking_handlers := w.ctx.walking_handlers + 1 } } with
    | none => rw [hn1] at hrun; simp at hrun
    | some w2 =>
      rw [hn1] at hrun
      simp only at hrun
      cases hn2 : dispatch_rw env event (slot + 1) node.pfd.revents w2 with
      | none => rw [hn2] at hrun; simp at hrun
      | some w3 =>
        rw [hn2] at hrun
        simp only at hrun
        have hc := sweep_inv_closed henv (slot + 1)
        have hP1 := dispatch_notify_closed hc (w :=
          { w with ctx := { w.ctx with walking_handlers := w.ctx.walking_handlers + 1 } })
          ⟨by simp [h0.1], h0.2.1, h0.2.2⟩ hn1
        have hP2 := dispatch_rw_closed hc hP1 hn2
        exact dispatch_sweep_inv hP2 hrun

theorem dispatch_loop_inv {env : Env} (henv : spares_visited env) {event : Int} :
    ∀ (slot : Nat) {w r : Walk},
      w.ctx.walking_handlers = 0 ∧ slot ≤ w.ctx.aio_handlers.length ∧
        visited_live w.ctx.aio_handlers slot →
      dispatch_loop env event slot w = some r →
      r.ctx.walking_handlers = 0 ∧ visited_live r.ctx.aio_handlers 0 := by
  intro slot
  induction slot with
  | zero =>
    intro w r h0 hrun
    simp only [dispatch_loop, Option.some.injEq] at hrun
    subst hrun
    exact ⟨h0.1, h0.2.2⟩
  | succ slot ih =>
    intro w r h0 hrun
    simp only [dispatch_loop] at hrun
    cases hn : dispatch_node env event (slot + 1) w with
    | none => rw [hn] at hrun; simp at hrun
    | some w1 =>
      rw [hn] at hrun
      exact ih (dispatch_node_inv henv h0 hn) hrun

theorem ex_env_remove_self_spares : spares_visited ex_env_remove_self := by
  intro trace inv ctx ctx1 hw hslot hrun hv
  simp only [ex_env_remove_self] at hrun
  cases hf : find_node (fd_match inv.node.pfd.fd) ctx.aio_handlers with
  | none =>
    rw [hf] at hrun
    simp only [run_calls, Option.some.injEq] at hrun
    subst hrun
    exact hv
  | some s =>
    obtain ⟨pre, n, post⟩ := s
    rw [hf] at hrun
    simp only at hrun
    by_cases hg : inv.kind = CbKind.read ∧ post.length < inv.slot
    · rw [if_pos hg] at hrun
      simp only [run_calls, RegCall.run] at hrun
      cases hr : aio_set_fd_handler ex_handle ctx inv.node.pfd.fd false 0 0 0 with
      | none => rw [hr] at hrun; simp at hrun
      | some c =>
        rw [hr] at hrun
        simp only [Option.some.injEq] at hrun
        subst hrun
        unfold aio_set_fd_handler at hr
        rw [hf] at hr
        by_cases hnot : n.io_notify = 0
        · simp [hnot, hw] at hr
          subst hr
          obtain ⟨hl, -, -⟩ := find_node_eq_some hf
          simp only [visited_live] at hv ⊢
          have hlen : (pre ++ tombstone n :: post).length = ctx.aio_handlers.length := by
            rw [hl]; simp
          rw [hlen]
          have hk : ctx.aio_handlers.length - inv.slot ≤ pre.length := by
            have := congrArg List.length hl
            simp only [List.length_append, List.length_cons] at this
            omega
          generalize ctx.aio_handlers.length - inv.slot = k at hv hk ⊢
          rw [hl, List.take_append_of_le_length hk] at hv
          rw [List.take_append_of_le_length hk]
          exact hv
        · simp [hnot] at hr
    · rw [if_neg hg] at hrun
      simp only [run_calls, Option.some.injEq] at hrun
      subst hrun
      exact hv

/-! ## A pass whose callbacks leave the registry alone -/

@[simp] theorem clear_node_deleted (n : AioHandler) : (clear_node n).deleted = n.deleted := rfl
@[simp] theorem clear_node_io_read (n : AioHandler) : (clear_node n).io_read = n.io_read := rfl
@[simp] theorem clear_node_io_write (n : AioHandler) : (clear_node n).io_write = n.io_write := rfl
@[simp] theorem clear_node_io_notify (n : AioHandler) :
    (clear_node n).io_notify = n.io_notify := rfl
@[simp] theorem clear_node_e (n : AioHandler) : (clear_node n).e = n.e := rfl
@[simp] theorem clear_node_fd (n : AioHandler) : (clear_node n).pfd.fd = n.pfd.fd := rfl
@[simp] theorem clear_node_opaque (n : AioHandler) : (clear_node n).opaque_ = n.opaque_ := rfl
@[simp] theorem clear_node_revents (n : AioHandler) : (clear_node n).pfd.revents = 0 := rfl
@[simp] theorem clear_node_idem (n : AioHandler) : clear_node (clear_node n) = clear_node n := rfl

theorem invoke_quiet {env : Env} (henv : no_mutation env) (w : Walk) (inv : Invocation) :
    invoke env w inv = some { w with trace := w.trace ++ [inv] } := by
  simp [invoke, henv w.trace inv w.ctx, run_calls]

theorem dispatch_notify_quiet {env : Env} (henv : no_mutation env) (event : Int) (rev : Nat)
    (w : Walk) (pre : List AioHandler) (node : AioHandler) (post : List AioHandler)
    (hl : w.ctx.aio_handlers = pre ++ node :: post) :
    dispatch_notify env event (post.length + 1) rev w =
      some (if node.deleted = 0 ∧ (rev ≠ 0 ∨ env.get_handle node.e = event) ∧
                node.io_notify ≠ 0 then
              { ctx := { w.ctx with aio_handlers := pre ++ clear_node node :: post },
                progress := if node.e ≠ w.ctx.notifier then true else w.progress,
                trace := w.trace ++
                  [{ kind := CbKind.notify, slot := post.length + 1, node := clear_node node }] }
            else w) := by
  unfold dispatch_notify
  rw [hl, node_at_split]
  simp only
  split
  · rw [invoke_quiet henv, clear_revents_split _ pre node post hl]
    simp only [node_at_split]
    by_cases he : node.e = w.ctx.notifier
    · simp [he]
    · simp [he]
  · rfl

theorem dispatch_read_quiet {env : Env} (henv : no_mutation env) (rev : Nat)
    (w : Walk) (pre : List AioHandler) (node : AioHandler) (post : List AioHandler)
    (hl : w.ctx.aio_handlers = pre ++ node :: post) :
    dispatch_read env (post.length + 1) rev w =
      some (if rev &&& G_IO_IN ≠ 0 ∧ node.io_read ≠ 0 then
              { w with
                progress := true,
                trace := w.trace ++
                  [{ kind := CbKind.read, slot := post.length + 1, node := node }] }
            else w) := by
  unfold dispatch_read
  rw [hl, node_at_split]
  simp only
  split
  · rw [invoke_quiet henv]
  · rfl

theorem dispatch_write_quiet {env : Env} (henv : no_mutation env) (rev : Nat)
    (w : Walk) (pre : List AioHandler) (node : AioHandler) (post : List AioHandler)
    (hl : w.ctx.aio_handlers = pre ++ node :: post) :
    dispatch_write env (post.length + 1) rev w =
      some (if rev &&& G_IO_OUT ≠ 0 ∧ node.io_write ≠ 0 then
              { w with
                progress := true,
                trace := w.trace ++
                  [{ kind := CbKind.write, slot := post.length + 1, node := node }] }
            else w) := by
  unfold dispatch_write
  rw [hl, node_at_split]
  simp only
  split
  · rw [invoke_quiet henv]
  · rfl

theorem dispatch_reprobe_some (env : Env) (event : Int) (w : Walk) (pre : List AioHandler)
    (node : AioHandler) (post : List AioHandler)
    (hl : w.ctx.aio_handlers = pre ++ node :: post) :
    ∃ w1, dispatch_reprobe env event (post.length + 1) w = some w1 ∧
      w1.ctx.aio_handlers = w.ctx.aio_handlers ∧
      w1.ctx.walking_handlers = w.ctx.walking_handlers ∧
      w1.ctx.notifier = w.ctx.notifier ∧ w1.trace = w.trace ∧
      (w.progress = true → w1.progress = true) := by
  unfold dispatch_reprobe
  rw [hl, node_at_split]
  simp only
  split
  · split
    · exact ⟨_, rfl, hl, rfl, rfl, rfl, fun _ => rfl⟩
    · exact ⟨_, rfl, hl, rfl, rfl, rfl, fun h => h⟩
  · exact ⟨_, rfl, hl, rfl, rfl, rfl, fun h => h⟩

theorem dispatch_rw_quiet {env : Env} (henv : no_mutation env) (event : Int) (rev : Nat)
    (w : Walk) (pre : List AioHandler) (node : AioHandler) (post : List AioHandler)
    (hl : w.ctx.aio_handlers = pre ++ node :: post) :
    ∃ w1, dispatch_rw env event (post.length + 1) rev w = some w1 ∧
      w1.ctx.aio_handlers = pre ++ (if rw_due node then clear_node node else node) :: post ∧
      w1.ctx.walking_handlers = w.ctx.walking_handlers ∧
      w1.ctx.notifier = w.ctx.notifier ∧
      w1.trace = w.trace ++
        (if rw_due node ∧ rev &&& G_IO_IN ≠ 0 ∧ node.io_read ≠ 0 then
          [{ kind := CbKind.read, slot := post.length + 1, node := clear_node node }]
        else []) ++
        (if rw_due node ∧ rev &&& G_IO_OUT ≠ 0 ∧ node.io_write ≠ 0 then
          [{ kind := CbKind.write, slot := post.length + 1, node := clear_node node }]
        else []) ∧
      (w.progress = true → w1.progress = true) ∧
      (rw_due node ∧ (rev &&& G_IO_IN ≠ 0 ∧ node.io_read ≠ 0 ∨
          rev &&& G_IO_OUT ≠ 0 ∧ node.io_write ≠ 0) → w1.progress = true) := by
  unfold dispatch_rw
  rw [hl, node_at_split]
  simp only
  by_cases hdue : rw_due node
  · have hdue1 : node.deleted = 0 ∧ (node.io_read ≠ 0 ∨ node.io_write ≠ 0) := hdue
    rw [if_pos hdue1]
    have hc := clear_revents_split w.ctx pre node post hl
    have hl1 : ({ w with ctx := clear_revents w.ctx (post.length + 1) } : Walk).ctx.aio_handlers
        = pre ++ clear_node node :: post := by rw [hc]
    rw [dispatch_read_quiet henv rev _ pre (clear_node node) post hl1]
    simp only
    by_cases hr : rev &&& G_IO_IN ≠ 0 ∧ node.io_read ≠ 0
    · have hr1 : rev &&& G_IO_IN ≠ 0 ∧ (clear_node node).io_read ≠ 0 := hr
      rw [if_pos hr1]
      rw [dispatch_write_quiet henv rev _ pre (clear_node node) post (by simpa using hl1)]
      simp only
      by_cases hwr : rev &&& G_IO_OUT ≠ 0 ∧ node.io_write ≠ 0
      · have hwr1 : rev &&& G_IO_OUT ≠ 0 ∧ (clear_node node).io_write ≠ 0 := hwr
        rw [if_pos hwr1]
        obtain ⟨w1, h1, h2, h3, h4, h5, h6⟩ := dispatch_reprobe_some env event
          ({ ctx := clear_revents w.ctx (post.length + 1), progress := true,
             trace := (w.trace ++
               [{ kind := CbKind.read, slot := post.length + 1, node := clear_node node }]) ++
               [{ kind := CbKind.write, slot := post.length + 1, node := clear_node node }] } : Walk)
          pre (clear_node node) post (by simpa using hl1)
        refine ⟨w1, h1, ?_, ?_, ?_, ?_, fun _ => h6 rfl, fun _ => h6 rfl⟩
        · rw [h2]; simp [hc, hdue]
        · rw [h3, hc]
        · rw [h4, hc]
        · rw [h5]; simp [hdue, hr, hwr]
      · have hwr1 : ¬ (rev &&& G_IO_OUT ≠ 0 ∧ (clear_node node).io_write ≠ 0) := hwr
        rw [if_neg hwr1]
        obtain ⟨w1, h1, h2, h3, h4, h5, h6⟩ := dispatch_reprobe_some env event
          ({ ctx := clear_revents w.ctx (post.length + 1), progress := true,
             trace := w.trace ++
               [{ kind := CbKind.read, slot := post.length + 1, node := clear_node node }] } : Walk)
          pre (clear_node node) post (by simpa using hl1)
        refine ⟨w1, h1, ?_, ?_, ?_, ?_, fun _ => h6 rfl, fun _ => h6 rfl⟩
        · rw [h2]; simp [hc, hdue]
        · rw [h3, hc]
        · rw [h4, hc]
        · rw [h5]; simp [hdue, hr, hwr]
    · have hr1 : ¬ (rev &&& G_IO_IN ≠ 0 ∧ (clear_node node).io_read ≠ 0) := hr
      rw [if_neg hr1]
      rw [dispatch_write_quiet henv rev _ pre (clear_node node) post (by simpa using hl1)]
      simp only
      by_cases hwr : rev &&& G_IO_OUT ≠ 0 ∧ node.io_write ≠ 0
      · have hwr1 : rev &&& G_IO_OUT ≠ 0 ∧ (clear_node node).io_write ≠ 0 := hwr
        rw [if_pos hwr1]
        obtain ⟨w1, h1, h2, h3, h4, h5, h6⟩ := dispatch_reprobe_some env event
          ({ ctx := clear_revents w.ctx (post.length + 1), progress := true,
             trace := w.trace ++
               [{ kind := CbKind.write, slot := post.length + 1, node := clear_node node }] } : Walk)
          pre (clear_node node) post (by simpa using hl1)
        refine ⟨w1, h1, ?_, ?_, ?_, ?_, fun _ => h6 rfl, fun _ => h6 rfl⟩
        · rw [h2]; simp [hc, hdue]
        · rw [h3, hc]
        · rw [h4, hc]
        · rw [h5]; simp [hdue, hr, hwr]
      · have hwr1 : ¬ (rev &&& G_IO_OUT ≠ 0 ∧ (clear_node node).io_write ≠ 0) := hwr
        rw [if_neg hwr1]
        obtain ⟨w1, h1, h2, h3, h4, h5, h6⟩ := dispatch_reprobe_some env event
          ({ w with ctx := clear_revents w.ctx (post.length + 1) } : Walk)
          pre (clear_node node) post (by simpa using hl1)
        refine ⟨w1, h1, ?_, ?_, ?_, ?_, fun hp => h6 hp, ?_⟩
        · rw [h2]; simp [hc, hdue]
        · rw [h3, hc]
        · rw [h4, hc]
        · rw [h5]; simp [hdue, hr, hwr]
        · rintro ⟨-, h | h⟩
          · exact absurd h hr
          · exact absurd h hwr
  · have hdue1 : ¬ (node.deleted = 0 ∧ (node.io_read ≠ 0 ∨ node.io_write ≠ 0)) := hdue
    rw [if_neg hdue1]
    refine ⟨w, rfl, by simp [hl, hdue], rfl, rfl, by simp [hdue], fun h => h, ?_⟩
    rintro ⟨h, -⟩
    exact absurd h hdue

theorem rw_due_clear_node (n : AioHandler) : rw_due (clear_node n) ↔ rw_due n := Iff.rfl

theorem dispatch_sweep_split (w : Walk) (pre : List AioHandler) (node : AioHandler)
    (post : List AioHandler) (c : Int) (hl : w.ctx.aio_handlers = pre ++ node :: post)
    (hw : w.ctx.walking_handlers = c + 1) :
    ∃ w1, dispatch_sweep (post.length + 1) w = some w1 ∧
      w1.ctx.aio_handlers =
        pre ++ (if c = 0 ∧ node.deleted ≠ 0 then [] else [node]) ++ post ∧
      w1.ctx.walking_handlers = c ∧ w1.ctx.notifier = w.ctx.notifier ∧
      w1.trace = w.trace ∧ w1.progress = w.progress := by
  unfold dispatch_sweep
  rw [hl, node_at_split]
  simp only [hw, add_sub_cancel_right]
  by_cases hd : c = 0 ∧ node.deleted ≠ 0
  · rw [if_pos hd, if_pos hd]
    exact ⟨_, rfl, by simp, rfl, rfl, rfl, rfl⟩
  · rw [if_neg hd, if_neg hd]
    exact ⟨_, rfl, by simp [hl], rfl, rfl, rfl, rfl⟩

theorem dispatch_node_quiet {env : Env} (henv : no_mutation env) (event : Int) (w : Walk)
    (pre : List AioHandler) (node : AioHandler) (post : List AioHandler)
    (hl : w.ctx.aio_handlers = pre ++ node :: post) :
    ∃ w1, dispatch_node env event (post.length + 1) w = some w1 ∧
      w1.ctx.aio_handlers =
        pre ++ quiet_node w.ctx.walking_handlers env.get_handle event node ++ post ∧
      w1.ctx.walking_handlers = w.ctx.walking_handlers ∧ w1.ctx.notifier = w.ctx.notifier ∧
      w1.trace = w.trace ++ quiet_invocations env.get_handle event (post.length + 1) node ∧
      (w.progress = true → w1.progress = true) ∧
      (rw_due node ∧ (node.pfd.revents &&& G_IO_IN ≠ 0 ∧ node.io_read ≠ 0 ∨
          node.pfd.revents &&& G_IO_OUT ≠ 0 ∧ node.io_write ≠ 0) → w1.progress = true) ∧
      (notify_due env.get_handle event node ∧ node.e ≠ w.ctx.notifier →
        w1.progress = true) := by
  unfold dispatch_node
  rw [hl, node_at_split]
  simp only
  have hl1 : ({ w with ctx := { w.ctx with walking_handlers := w.ctx.walking_handlers + 1 } }
      : Walk).ctx.aio_handlers = pre ++ node :: post := hl
  rw [dispatch_notify_quiet henv event node.pfd.revents _ pre node post hl1]
  simp only
  by_cases hn : notify_due env.get_handle event node
  · have hn1 : node.deleted = 0 ∧ (node.pfd.revents ≠ 0 ∨ env.get_handle node.e = event) ∧
        node.io_notify ≠ 0 := hn
    rw [if_pos hn1]
    obtain ⟨w3, h1, h2, h3, h4, h5, h6, h7⟩ := dispatch_rw_quiet henv event node.pfd.revents
      ({ ctx := { w.ctx with walking_handlers := w.ctx.walking_handlers + 1,
                             aio_handlers := pre ++ clear_node node :: post },
         progress := if node.e ≠ w.ctx.notifier then true else w.progress,
         trace := w.trace ++
           [{ kind := CbKind.notify, slot := post.length + 1, node := clear_node node }] } : Walk)
      pre (clear_node node) post rfl
    rw [h1]
    simp only
    have h2a : w3.ctx.aio_handlers = pre ++ clear_node node :: post := by
      rw [h2]; split <;> rfl
    obtain ⟨w4, g1, g2, g3, g4, g5, g6⟩ := dispatch_sweep_split w3 pre (clear_node node) post
      w.ctx.walking_handlers h2a (by rw [h3])
    refine ⟨w4, g1, ?_, g3, by rw [g4, h4], ?_, ?_, ?_, ?_⟩
    · rw [g2]; simp [quiet_node, hn, hn.1]
    · rw [g5, h5]
      simp [quiet_invocations, hn, rw_due_clear_node]
    · intro hp
      rw [g6]
      apply h6
      simp [hp]
    · intro hrw
      rw [g6]
      exact h7 hrw
    · rintro ⟨-, he⟩
      rw [g6]
      apply h6
      simp [he]
  · have hn1 : ¬ (node.deleted = 0 ∧ (node.pfd.revents ≠ 0 ∨ env.get_handle node.e = event) ∧
        node.io_notify ≠ 0) := hn
    rw [if_neg hn1]
    obtain ⟨w3, h1, h2, h3, h4, h5, h6, h7⟩ := dispatch_rw_quiet henv event node.pfd.revents
      ({ w with ctx := { w.ctx with walking_handlers := w.ctx.walking_handlers + 1 } } : Walk)
      pre node post hl
    rw [h1]
    simp only
    obtain ⟨w4, g1, g2, g3, g4, g5, g6⟩ := dispatch_sweep_split w3 pre
      (if rw_due node then clear_node node else node) post w.ctx.walking_handlers h2
      (by rw [h3])
    refine ⟨w4, g1, ?_, g3, by rw [g4, h4], ?_, ?_, ?_, ?_⟩
    · rw [g2]
      by_cases hd : node.deleted = 0
      · by_cases hrw : rw_due node
        · simp [quiet_node, hn, hd, hrw]
        · simp [quiet_node, hn, hd, hrw]
      · have hrw : ¬ rw_due node := fun h => hd h.1
        by_cases hc : w.ctx.walking_handlers = 0
        · simp [quiet_node, hd, hrw, hc]
        · simp [quiet_node, hd, hrw, hc, hn]
    · rw [g5, h5]
      simp [quiet_invocations, hn, List.append_assoc]
    · intro hp
      rw [g6]
      exact h6 hp
    · intro hrw
      rw [g6]
      exact h7 hrw
    · rintro ⟨h, -⟩
      exact absurd h hn

theorem dispatch_loop_quiet {env : Env} (henv : no_mutation env) (event : Int) :
    ∀ (post : List AioHandler) (w : Walk) (pre : List AioHandler),
      w.ctx.aio_handlers = pre ++ post →
      ∃ r, dispatch_loop env event post.length w = some r ∧
        r.ctx.aio_handlers =
          pre ++ quiet_list w.ctx.walking_handlers env.get_handle event post ∧
        r.ctx.walking_handlers = w.ctx.walking_handlers ∧
        r.ctx.notifier = w.ctx.notifier ∧
        r.trace = w.trace ++ quiet_trace env.get_handle event post ∧
        (w.progress = true → r.progress = true) ∧
        ((∃ n ∈ post, rw_due n ∧ (n.pfd.revents &&& G_IO_IN ≠ 0 ∧ n.io_read ≠ 0 ∨
            n.pfd.revents &&& G_IO_OUT ≠ 0 ∧ n.io_write ≠ 0)) → r.progress = true) ∧
        ((∃ n ∈ post, notify_due env.get_handle event n ∧ n.e ≠ w.ctx.notifier) →
          r.progress = true) := by
  intro post
  induction post with
  | nil =>
    intro w pre hl
    refine ⟨w, rfl, by simpa [quiet_list] using hl, rfl, rfl, by simp [quiet_trace],
      fun h => h, ?_, ?_⟩
    · rintro ⟨n, hn, -⟩; simp at hn
    · rintro ⟨n, hn, -⟩; simp at hn
  | cons node post ih =>
    intro w pre hl
    obtain ⟨w1, h1, h2, h3, h4, h5, h6, h7, h8⟩ :=
      dispatch_node_quiet henv event w pre node post hl
    obtain ⟨r, g1, g2, g3, g4, g5, g6, g7, g8⟩ :=
      ih w1 (pre ++ quiet_node w.ctx.walking_handlers env.get_handle event node) h2
    refine ⟨r, ?_, ?_, by rw [g3, h3], by rw [g4, h4], ?_, fun hp => g6 (h6 hp), ?_, ?_⟩
    · simp only [List.length_cons, dispatch_loop, h1]
      exact g1
    · rw [g2, h3]; simp [quiet_list]
    · rw [g5, h5]; simp [quiet_trace]
    · rintro ⟨n, hn, hc⟩
      rcases List.mem_cons.1 hn with rfl | hn
      · exact g6 (h7 hc)
      · exact g7 ⟨n, hn, hc⟩
    · rintro ⟨n, hn, hc⟩
      rcases List.mem_cons.1 hn with rfl | hn
      · exact g6 (h8 hc)
      · exact g8 ⟨n, hn, by rw [h4]; exact hc⟩

/-- A pass whose callbacks leave the registry alone returns; it makes the
invocations `quiet_trace` lists, leaves the list `quiet_list`, and reports
progress as soon as a read or write callback ran or the notify callback of a
notifier other than the context's own ran. -/
theorem aio_dispatch_handlers_quiet {env : Env} (henv : no_mutation env) (ctx : AioContext)
    (event : Int) :
    ∃ r, aio_dispatch_handlers env ctx event = some r ∧
      r.ctx.aio_handlers =
        quiet_list ctx.walking_handlers env.get_handle event ctx.aio_handlers ∧
      r.ctx.walking_handlers = ctx.walking_handlers ∧ r.ctx.notifier = ctx.notifier ∧
      r.trace = quiet_trace env.get_handle event ctx.aio_handlers ∧
      ((∃ n ∈ ctx.aio_handlers, rw_due n ∧ (n.pfd.revents &&& G_IO_IN ≠ 0 ∧ n.io_read ≠ 0 ∨
          n.pfd.revents &&& G_IO_OUT ≠ 0 ∧ n.io_write ≠ 0)) → r.progress = true) ∧
      ((∃ n ∈ ctx.aio_handlers, notify_due env.get_handle event n ∧ n.e ≠ ctx.notifier) →
        r.progress = true) := by
  obtain ⟨r, g1, g2, g3, g4, g5, -, g7, g8⟩ := dispatch_loop_quiet henv event ctx.aio_handlers
    { ctx := ctx, progress := false, trace := [] } [] rfl
  exact ⟨r, g1, by simpa using g2, g3, g4, by simpa using g5, g7, g8⟩

theorem quiet_invocations_slot {h : Nat → Int} {event : Int} {slot : Nat} {node : AioHandler}
    {i : Invocation} (hi : i ∈ quiet_invocations h event slot node) :
    i.slot = slot ∧ i.node = clear_node node ∧ node.deleted = 0 := by
  unfold quiet_invocations at hi
  simp only [List.mem_append] at hi
  rcases hi with (hi | hi) | hi
  · split at hi
    · rename_i hc
      rw [List.mem_singleton.1 hi]; exact ⟨rfl, rfl, hc.1⟩
    · simp at hi
  · split at hi
    · rename_i hc
      rw [List.mem_singleton.1 hi]; exact ⟨rfl, rfl, hc.1.1⟩
    · simp at hi
  · split at hi
    · rename_i hc
      rw [List.mem_singleton.1 hi]; exact ⟨rfl, rfl, hc.1.1⟩
    · simp at hi

theorem quiet_trace_mem {h : Nat → Int} {event : Int} :
    ∀ {l : List AioHandler} {i : Invocation}, i ∈ quiet_trace h event l →
      1 ≤ i.slot ∧ i.slot ≤ l.length ∧ ∃ m ∈ l, m.deleted = 0 ∧ i.node = clear_node m := by
  intro l
  induction l with
  | nil => intro i hi; simp [quiet_trace] at hi
  | cons a l ih =>
    intro i hi
    simp only [quiet_trace, List.mem_append] at hi
    rcases hi with hi | hi
    · obtain ⟨h1, h2, h3⟩ := quiet_invocations_slot hi
      exact ⟨by omega, by simp [h1], a, List.mem_cons_self _ _, h3, h2⟩
    · obtain ⟨h1, h2, m, hm, h3, h4⟩ := ih hi
      exact ⟨h1, by simp; omega, m, List.mem_cons_of_mem _ hm, h3, h4⟩

theorem quiet_trace_append (h : Nat → Int) (event : Int) (b : List AioHandler) :
    ∀ a : List AioHandler, ∃ x : List Invocation,
      quiet_trace h event (a ++ b) = x ++ quiet_trace h event b ∧
        ∀ i ∈ x, b.length < i.slot := by
  intro a
  induction a with
  | nil => exact ⟨[], by simp, by simp⟩
  | cons n a ih =>
    obtain ⟨x, hx, hslot⟩ := ih
    refine ⟨quiet_invocations h event ((a ++ b).length + 1) n ++ x, ?_, ?_⟩
    · simp [quiet_trace, hx]
    · intro i hi
      rcases List.mem_append.1 hi with hi | hi
      · rw [(quiet_invocations_slot hi).1]; simp; omega
      · exact hslot i hi

theorem quiet_list_append {c : Int} {h : Nat → Int} {event : Int} (a b : List AioHandler) :
    quiet_list c h event (a ++ b) = quiet_list c h event a ++ quiet_list c h event b := by
  induction a with
  | nil => rfl
  | cons n a ih => simp [quiet_list, ih]

theorem quiet_node_mem {c : Int} {h : Nat → Int} {event : Int} {a x : AioHandler}
    (hx : x ∈ quiet_node c h event a) :
    (x = a ∨ x = clear_node a) ∧ (c = 0 → a.deleted = 0) := by
  unfold quiet_node at hx
  by_cases hd : c = 0 ∧ a.deleted ≠ 0
  · simp [hd] at hx
  · rw [if_neg hd] at hx
    have hd1 : c = 0 → a.deleted = 0 := fun hc => by
      by_contra hne
      exact hd ⟨hc, hne⟩
    split at hx
    · exact ⟨Or.inr (List.mem_singleton.1 hx), hd1⟩
    · exact ⟨Or.inl (List.mem_singleton.1 hx), hd1⟩

theorem quiet_list_mem {c : Int} {h : Nat → Int} {event : Int} :
    ∀ {l : List AioHandler} {x : AioHandler}, x ∈ quiet_list c h event l →
      ∃ m ∈ l, (x = m ∨ x = clear_node m) ∧ (c = 0 → m.deleted = 0) := by
  intro l
  induction l with
  | nil => intro x hx; simp [quiet_list] at hx
  | cons a l ih =>
    intro x hx
    simp only [quiet_list, List.mem_append] at hx
    rcases hx with hx | hx
    · exact ⟨a, List.mem_cons_self _ _, quiet_node_mem hx⟩
    · obtain ⟨m, hm, h1⟩ := ih hx
      exact ⟨m, List.mem_cons_of_mem _ hm, h1⟩

/-! ## Sockets that have no entry are never dispatched -/

theorem RegCall_run_fd_suffix {h : Nat → Int} {ctx ctx1 : AioContext} {c : RegCall}
    (hw : ctx.walking_handlers ≠ 0) (hrun : c.run h ctx = some ctx1) :
    (ctx.aio_handlers.map fun n => n.pfd.fd) <:+ (ctx1.aio_handlers.map fun n => n.pfd.fd) := by
  cases c with
  | set_fd_handler fd ext r w o =>
    obtain ⟨-, -, hs⟩ := set_fd_handler_shape hrun
    rcases hs with hs | ⟨pre, n, post, hl, -, -, -, hs⟩ | ⟨-, hs⟩ | ⟨pre, n, post, hl, -, -, -, hs⟩
    · exact hs ▸ List.suffix_refl _
    · rcases hs with ⟨-, hs⟩ | ⟨h0, -⟩
      · rw [hs, hl]; simp
      · exact absurd h0 hw
    · rw [hs]; simp only [List.map_cons]; exact List.suffix_cons _ _
    · rw [hs, hl]; simp
  | set_event_notifier e ext f =>
    obtain ⟨-, -, hs⟩ := set_event_notifier_shape hrun
    rcases hs with hs | ⟨pre, n, post, hl, -, -, -, hs⟩ | ⟨-, hs⟩ | ⟨pre, n, post, hl, -, -, -, hs⟩
    · exact hs ▸ List.suffix_refl _
    · rcases hs with ⟨-, hs⟩ | ⟨h0, -⟩
      · rw [hs, hl]; simp
      · exact absurd h0 hw
    · rw [hs]; simp only [List.map_cons]; exact List.suffix_cons _ _
    · rw [hs, hl]; simp

theorem run_calls_fd_suffix {h : Nat → Int} :
    ∀ (calls : List RegCall) {ctx ctx1 : AioContext}, ctx.walking_handlers ≠ 0 →
      run_calls h ctx calls = some ctx1 →
      (ctx.aio_handlers.map fun n => n.pfd.fd) <:+
        (ctx1.aio_handlers.map fun n => n.pfd.fd) := by
  intro calls
  induction calls with
  | nil => intro ctx ctx1 _ hrun; simp [run_calls] at hrun; subst hrun; exact List.suffix_refl _
  | cons c cs ih =>
    intro ctx ctx1 hw hrun
    simp only [run_calls] at hrun
    cases hc : c.run h ctx with
    | none => rw [hc] at hrun; simp at hrun
    | some ctx2 =>
      rw [hc] at hrun
      have h1 := RegCall_run_fd_suffix hw hc
      have hw2 : ctx2.walking_handlers ≠ 0 := by rw [(RegCall_run_walking hc).1]; exact hw
      exact h1.trans (ih hw2 hrun)

theorem drop_of_suffix {α : Type} {a b : List α} (hs : a <:+ b) (slot : Nat)
    (hslot : slot ≤ a.length) : b.drop (b.length - slot) = a.drop (a.length - slot) := by
  obtain ⟨t, rfl⟩ := hs
  have : (t ++ a).length - slot = t.length + (a.length - slot) := by
    simp only [List.length_append]; omega
  rw [this, List.drop_append]

/-- The invariant of one iteration for an absent socket `K`: a walk is in
progress, the slot exists, no node from the slot on is for `K`, and no
invocation so far was made on an entry for `K`. -/
theorem absent_fd_closed (env : Env) (K : Int) (c : Int) (hc : c ≠ 0) (slot : Nat) :
    StepClosed env slot fun w =>
      w.ctx.walking_handlers = c ∧ slot ≤ w.ctx.aio_handlers.length ∧
        (∀ x ∈ (w.ctx.aio_handlers.map fun n => n.pfd.fd).drop
            (w.ctx.aio_handlers.length - slot), x ≠ K) ∧
        ∀ i ∈ w.trace, i.node.pfd.fd ≠ K := by
  refine ⟨?_, ?_, ?_, ?_⟩
  · rintro w ⟨h1, h2, h3, h4⟩
    unfold clear_revents
    cases hn : node_at w.ctx.aio_handlers slot with
    | none => exact ⟨h1, h2, h3, h4⟩
    | some s =>
      obtain ⟨pre, n, post⟩ := s
      obtain ⟨hl, -, -⟩ := node_at_eq_some hn
      have hlen : (pre ++ clear_node n :: post).length = w.ctx.aio_handlers.length := by
        rw [hl]; simp
      have hmap : ((pre ++ clear_node n :: post).map fun n => n.pfd.fd)
          = w.ctx.aio_handlers.map fun n => n.pfd.fd := by rw [hl]; simp
      refine ⟨h1, by simp only [hlen]; exact h2, ?_, h4⟩
      simp only [hlen, hmap]
      exact h3
  · rintro w w1 inv pre post ⟨h1, h2, h3, h4⟩ - hnode hi
    obtain ⟨hr, ht, -⟩ := invoke_eq_some hi
    have hw : w.ctx.walking_handlers ≠ 0 := by rw [h1]; exact hc
    have hsuf := run_calls_fd_suffix _ hw hr
    have hdrop := drop_of_suffix hsuf slot (by simpa using h2)
    simp only [List.length_map] at hdrop
    refine ⟨by rw [(run_calls_walking _ hr).1]; exact h1,
      Nat.le_trans h2 (run_calls_length _ hw hr), ?_, ?_⟩
    · rw [hdrop]; exact h3
    · intro i hi
      rw [ht] at hi
      rcases List.mem_append.1 hi with hi | hi
      · exact h4 i hi
      · rw [List.mem_singleton.1 hi]
        obtain ⟨hl, hslot, -⟩ := node_at_eq_some hnode
        apply h3
        have hk : w.ctx.aio_handlers.length - slot = pre.length := by
          have := congrArg List.length hl
          simp only [List.length_append, List.length_cons] at this
          omega
        rw [hk, hl]
        simp
  · rintro w h; exact h
  · rintro w eff h; exact h

theorem absent_fd_sweep {K : Int} {c : Int} {slot : Nat} {w w1 : Walk}
    (h0 : w.ctx.walking_handlers = c + 1 ∧ slot + 1 ≤ w.ctx.aio_handlers.length ∧
      (∀ x ∈ (w.ctx.aio_handlers.map fun n => n.pfd.fd).drop
          (w.ctx.aio_handlers.length - (slot + 1)), x ≠ K) ∧
      ∀ i ∈ w.trace, i.node.pfd.fd ≠ K)
    (hrun : dispatch_sweep (slot + 1) w = some w1) :
    w1.ctx.walking_handlers = c ∧ slot ≤ w1.ctx.aio_handlers.length ∧
      (∀ x ∈ (w1.ctx.aio_handlers.map fun n => n.pfd.fd).drop
          (w1.ctx.aio_handlers.length - slot), x ≠ K) ∧
      ∀ i ∈ w1.trace, i.node.pfd.fd ≠ K := by
  obtain ⟨h1, h2, h3, h4⟩ := h0
  cases hn : node_at w.ctx.aio_handlers (slot + 1) with
  | none => unfold dispatch_sweep at hrun; rw [hn] at hrun; simp at hrun
  | some s =>
    obtain ⟨pre, tmp, post⟩ := s
    obtain ⟨hl, hslot, -⟩ := node_at_eq_some hn
    have hpost : post.length = slot := by omega
    obtain ⟨w2, g1, g2, g3, -, g5, -⟩ := dispatch_sweep_split w pre tmp post c hl h1
    rw [hslot] at g1
    rw [g1] at hrun
    simp only [Option.some.injEq] at hrun
    subst hrun
    have hk : w.ctx.aio_handlers.length - (slot + 1) = pre.length := by
      have := congrArg List.length hl
      simp only [List.length_append, List.length_cons] at this
      omega
    rw [hk, hl] at h3
    have hpostK : ∀ x ∈ post.map (fun n => n.pfd.fd), x ≠ K := by
      intro x hx
      apply h3
      simp only [List.map_append, List.map_cons]
      rw [show pre.length = (pre.map fun n => n.pfd.fd).length by simp, List.drop_left]
      exact List.mem_cons_of_mem _ hx
    refine ⟨g3, ?_, ?_, by rw [g5]; exact h4⟩
    · rw [g2]; simp only [List.length_append]; omega
    · rw [g2]
      intro x hx
      apply hpostK
      have hk2 : (pre ++ (if c = 0 ∧ tmp.deleted ≠ 0 then [] else [tmp]) ++ post).length - slot
          = (pre ++ (if c = 0 ∧ tmp.deleted ≠ 0 then [] else [tmp])).length := by
        simp only [List.length_append]; omega
      rw [hk2, List.map_append,
        show (pre ++ (if c = 0 ∧ tmp.deleted ≠ 0 then [] else [tmp])).length
          = ((pre ++ (if c = 0 ∧ tmp.deleted ≠ 0 then [] else [tmp])).map
              fun n => n.pfd.fd).length by simp,
        List.drop_left] at hx
      exact hx

theorem absent_fd_loop {env : Env} {K : Int} {c : Int} (hc : c + 1 ≠ 0) {event : Int} :
    ∀ (slot : Nat) {w r : Walk},
      (w.ctx.walking_handlers = c ∧ slot ≤ w.ctx.aio_handlers.length ∧
        (∀ x ∈ (w.ctx.aio_handlers.map fun n => n.pfd.fd).drop
            (w.ctx.aio_handlers.length - slot), x ≠ K) ∧
        ∀ i ∈ w.trace, i.node.pfd.fd ≠ K) →
      dispatch_loop env event slot w = some r → ∀ i ∈ r.trace, i.node.pfd.fd ≠ K := by
  intro slot
  induction slot with
  | zero =>
    intro w r h0 hrun
    simp only [dispatch_loop, Option.some.injEq] at hrun
    subst hrun
    exact h0.2.2.2
  | succ slot ih =>
    intro w r h0 hrun
    simp only [dispatch_loop] at hrun
    cases hn : dispatch_node env event (slot + 1) w with
    | none => rw [hn] at hrun; simp at hrun
    | some w1 =>
      rw [hn] at hrun
      refine ih ?_ hrun
      unfold dispatch_node at hn
      cases hna : node_at w.ctx.aio_handlers (slot + 1) with
      | none => rw [hna] at hn; simp at hn
      | some s =>
        obtain ⟨pre, node, post⟩ := s
        rw [hna] at hn
        simp only at hn
        cases hn1 : dispatch_notify env event (slot + 1) node.pfd.revents
            { w with ctx := { w.ctx with walking_handlers := w.ctx.walking_handlers + 1 } } with
        | none => rw [hn1] at hn; simp at hn
        | some w2 =>
          rw [hn1] at hn
          simp only at hn
          cases hn2 : dispatch_rw env event (slot + 1) node.pfd.revents w2 with
          | none => rw [hn2] at hn; simp at hn
          | some w3 =>
            rw [hn2] at hn
            simp only at hn
            have hcl := absent_fd_closed env K (c + 1) hc (slot + 1)
            have hP1 := dispatch_notify_closed hcl (w :=
              { w with ctx := { w.ctx with walking_handlers := w.ctx.walking_handlers + 1 } })
              ⟨by simp [h0.1], h0.2.1, h0.2.2.1, h0.2.2.2⟩ hn1
            have hP2 := dispatch_rw_closed hcl hP1 hn2
            exact absent_fd_sweep hP2 hn

/-- For every behaviour of the callbacks: a pass over a registry in which no
entry, live or not, is for socket `K` invokes no callback on an entry for
`K`. -/
theorem no_invocation_for_absent_fd (env : Env) (ctx : AioContext) (event : Int) (K : Int)
    (r : Walk) (hc : ctx.walking_handlers + 1 ≠ 0)
    (habs : ∀ m ∈ ctx.aio_handlers, m.pfd.fd ≠ K)
    (hrun : aio_dispatch_handlers env ctx event = some r) :
    ∀ i ∈ r.trace, i.node.pfd.fd ≠ K := by
  unfold aio_dispatch_handlers at hrun
  refine absent_fd_loop hc ctx.aio_handlers.length
    (w := { ctx := ctx, progress := false, trace := [] }) ⟨rfl, Nat.le_refl _, ?_, ?_⟩ hrun
  · intro x hx
    simp only [Nat.sub_self, List.drop_zero, List.mem_map] at hx
    obtain ⟨m, hm, rfl⟩ := hx
    exact habs m hm
  · intro i hi; simp at hi

/-! ## The walk returns unless a callback aborts -/

theorem len_inv_closed (env : Env) (c : Int) (hc : c ≠ 0) (slot : Nat) :
    StepClosed env slot fun w =>
      w.ctx.walking_handlers = c ∧ slot ≤ w.ctx.aio_handlers.length := by
  refine ⟨?_, ?_, ?_, ?_⟩
  · rintro w ⟨h1, h2⟩
    unfold clear_revents
    cases hn : node_at w.ctx.aio_handlers slot with
    | none => exact ⟨h1, h2⟩
    | some s =>
      obtain ⟨pre, n, post⟩ := s
      obtain ⟨hl, -, -⟩ := node_at_eq_some hn
      refine ⟨h1, ?_⟩
      have hlen : (pre ++ clear_node n :: post).length = w.ctx.aio_handlers.length := by
        rw [hl]; simp
      simp only [hlen]
      exact h2
  · rintro w w1 inv pre post ⟨h1, h2⟩ - - hi
    obtain ⟨hr, -, -⟩ := invoke_eq_some hi
    have hw : w.ctx.walking_handlers ≠ 0 := by rw [h1]; exact hc
    exact ⟨by rw [(run_calls_walking _ hr).1]; exact h1,
      Nat.le_trans h2 (run_calls_length _ hw hr)⟩
  · rintro w h; exact h
  · rintro w eff h; exact h

theorem invoke_returns {env : Env} (henv : no_abort env) (w : Walk) (inv : Invocation)
    (hw : w.ctx.walking_handlers ≠ 0) : ∃ w1, invoke env w inv = some w1 := by
  obtain ⟨c1, h1⟩ := henv w.trace inv w.ctx hw
  refine ⟨{ w with ctx := c1, trace := w.trace ++ [inv] }, ?_⟩
  simp [invoke, h1]

theorem clear_revents_walking (ctx : AioContext) (slot : Nat) :
    (clear_revents ctx slot).walking_handlers = ctx.walking_handlers := by
  unfold clear_revents
  cases node_at ctx.aio_handlers slot with
  | none => rfl
  | some s => rfl

theorem dispatch_notify_returns {env : Env} (henv : no_abort env) (event : Int) (c : Int)
    (hc : c ≠ 0) (slot : Nat) (hslot : 0 < slot) (revents : Nat) (w : Walk)
    (h0 : w.ctx.walking_handlers = c ∧ slot ≤ w.ctx.aio_handlers.length) :
    ∃ w1, dispatch_notify env event slot revents w = some w1 := by
  obtain ⟨pre, node, post, hn⟩ := node_at_isSome hslot h0.2
  unfold dispatch_notify
  rw [hn]
  simp only
  split
  · have hcl := len_inv_closed env c hc slot
    have hP1 := hcl.clear w h0
    obtain ⟨w2, hi⟩ := invoke_returns henv { w with ctx := clear_revents w.ctx slot }
      { kind := CbKind.notify, slot := slot, node := clear_node node }
      (by rw [clear_revents_walking, h0.1]; exact hc)
    rw [hi]
    simp only
    have hP2 : w2.ctx.walking_handlers = c ∧ slot ≤ w2.ctx.aio_handlers.length := by
      obtain ⟨hl, hs, -⟩ := node_at_eq_some hn
      refine hcl.call _ w2 _ pre post hP1 rfl ?_ hi
      simp only
      rw [← hs, clear_revents_split w.ctx pre node post hl]
      exact node_at_split pre _ post
    obtain ⟨pre2, node2, post2, hn2⟩ := node_at_isSome hslot hP2.2
    rw [hn2]
    simp only
    split
    · exact ⟨_, rfl⟩
    · exact ⟨_, rfl⟩
  · exact ⟨_, rfl⟩

theorem dispatch_read_returns {env : Env} (henv : no_abort env) (c : Int)
    (hc : c ≠ 0) (slot : Nat) (hslot : 0 < slot) (revents : Nat) (w : Walk)
    (h0 : w.ctx.walking_handlers = c ∧ slot ≤ w.ctx.aio_handlers.length) :
    ∃ w1, dispatch_read env slot revents w = some w1 := by
  obtain ⟨pre, node, post, hn⟩ := node_at_isSome hslot h0.2
  unfold dispatch_read
  rw [hn]
  simp only
  split
  · obtain ⟨w2, hi⟩ := invoke_returns henv w
      { kind := CbKind.read, slot := slot, node := node } (by rw [h0.1]; exact hc)
    rw [hi]
    exact ⟨_, rfl⟩
  · exact ⟨_, rfl⟩

theorem dispatch_write_returns {env : Env} (henv : no_abort env) (c : Int)
    (hc : c ≠ 0) (slot : Nat) (hslot : 0 < slot) (revents : Nat) (w : Walk)
    (h0 : w.ctx.walking_handlers = c ∧ slot ≤ w.ctx.aio_handlers.length) :
    ∃ w1, dispatch_write env slot revents w = some w1 := by
  obtain ⟨pre, node, post, hn⟩ := node_at_isSome hslot h0.2
  unfold dispatch_write
  rw [hn]
  simp only
  split
  · obtain ⟨w2, hi⟩ := invoke_returns henv w
      { kind := CbKind.write, slot := slot, node := node } (by rw [h0.1]; exact hc)
    rw [hi]
    exact ⟨_, rfl⟩
  · exact ⟨_, rfl⟩

theorem dispatch_reprobe_returns (env : Env) (event : Int) (slot : Nat) (hslot : 0 < slot)
    (w : Walk) (h0 : slot ≤ w.ctx.aio_handlers.length) :
    ∃ w1, dispatch_reprobe env event slot w = some w1 := by
  obtain ⟨pre, node, post, hn⟩ := node_at_isSome hslot h0
  obtain ⟨hl, hs, -⟩ := node_at_eq_some hn
  obtain ⟨w1, h1, -⟩ := dispatch_reprobe_some env event w pre node post hl
  rw [hs] at h1
  exact ⟨w1, h1⟩

theorem dispatch_rw_returns {env : Env} (henv : no_abort env) (event : Int) (c : Int)
    (hc : c ≠ 0) (slot : Nat) (hslot : 0 < slot) (revents : Nat) (w : Walk)
    (h0 : w.ctx.walking_handlers = c ∧ slot ≤ w.ctx.aio_handlers.length) :
    ∃ w1, dispatch_rw env event slot revents w = some w1 := by
  obtain ⟨pre, node, post, hn⟩ := node_at_isSome hslot h0.2
  unfold dispatch_rw
  rw [hn]
  simp only
  split
  · have hcl := len_inv_closed env c hc slot
    have hP1 := hcl.clear w h0
    obtain ⟨w1, h1⟩ := dispatch_read_returns henv c hc slot hslot revents _ hP1
    rw [h1]
    simp only
    have hP2 := dispatch_read_closed hcl hP1 h1
    obtain ⟨w2, h2⟩ := dispatch_write_returns henv c hc slot hslot revents w1 hP2
    rw [h2]
    simp only
    have hP3 := dispatch_write_closed hcl hP2 h2
    exact dispatch_reprobe_returns env event slot hslot w2 hP3.2
  · exact ⟨_, rfl⟩

theorem dispatch_node_returns {env : Env} (henv : no_abort env) (event : Int) (c : Int)
    (hc : c + 1 ≠ 0) (slot : Nat) (w : Walk)
    (h0 : w.ctx.walking_handlers = c ∧ slot + 1 ≤ w.ctx.aio_handlers.length) :
    ∃ w1, dispatch_node env event (slot + 1) w = some w1 ∧
      w1.ctx.walking_handlers = c ∧ slot ≤ w1.ctx.aio_handlers.length := by
  obtain ⟨pre, node, post, hn⟩ := node_at_isSome (Nat.succ_pos slot) h0.2
  unfold dispatch_node
  rw [hn]
  simp only
  have hcl := len_inv_closed env (c + 1) hc (slot + 1)
  have hP0 : ({ w with ctx := { w.ctx with walking_handlers := w.ctx.walking_handlers + 1 } }
      : Walk).ctx.walking_handlers = c + 1 ∧
      slot + 1 ≤ ({ w with ctx := { w.ctx with
        walking_handlers := w.ctx.walking_handlers + 1 } } : Walk).ctx.aio_handlers.length :=
    ⟨by simp [h0.1], h0.2⟩
  obtain ⟨w2, h2⟩ := dispatch_notify_returns henv event (c + 1) hc (slot + 1)
    (Nat.succ_pos slot) node.pfd.revents _ hP0
  rw [h2]
  simp only
  have hP2 := dispatch_notify_closed hcl hP0 h2
  obtain ⟨w3, h3⟩ := dispatch_rw_returns henv event (c + 1) hc (slot + 1)
    (Nat.succ_pos slot) node.pfd.revents w2 hP2
  rw [h3]
  simp only
  have hP3 := dispatch_rw_closed hcl hP2 h3
  obtain ⟨pre3, tmp, post3, hn3⟩ := node_at_isSome (Nat.succ_pos slot) hP3.2
  obtain ⟨hl3, hs3, -⟩ := node_at_eq_some hn3
  obtain ⟨w4, g1, g2, g3, -⟩ := dispatch_sweep_split w3 pre3 tmp post3 c hl3 hP3.1
  rw [hs3] at g1
  refine ⟨w4, g1, g3, ?_⟩
  rw [g2]
  simp only [List.length_append]
  omega

theorem dispatch_loop_returns {env : Env} (henv : no_abort env) (event : Int) (c : Int)
    (hc : c + 1 ≠ 0) :
    ∀ (slot : Nat) (w : Walk),
      w.ctx.walking_handlers = c ∧ slot ≤ w.ctx.aio_handlers.length →
      ∃ r, dispatch_loop env event slot w = some r := by
  intro slot
  induction slot with
  | zero => intro w _; exact ⟨w, rfl⟩
  | succ slot ih =>
    intro w h0
    obtain ⟨w1, h1, h2, h3⟩ := dispatch_node_returns henv event c hc slot w h0
    obtain ⟨r, hr⟩ := ih w1 ⟨h2, h3⟩
    exact ⟨r, by simp only [dispatch_loop, h1]; exact hr⟩

/-- The pass returns whenever no registration call made by a callback fails
an assertion (and `walking_handlers` is not `-1` on entry): a position of the
walk is never lost. -/
theorem aio_dispatch_handlers_returns {env : Env} (henv : no_abort env) (ctx : AioContext)
    (event : Int) (hc : ctx.walking_handlers + 1 ≠ 0) :
    ∃ r, aio_dispatch_handlers env ctx event = some r :=
  dispatch_loop_returns henv event ctx.walking_handlers hc ctx.aio_handlers.length
    { ctx := ctx, progress := false, trace := [] } ⟨rfl, Nat.le_refl _⟩

/-- C1 (amended). For every registry with `walking_handlers = 0` and every
behaviour of the callbacks in which no callback tombstones an entry lying
before the node being visited (an entry the walk has already left, or one
inserted at the head during the pass): `aio_dispatch_handlers` returns unless
a registration call of a callback fails an assertion, and when it returns,
`walking_handlers` is back at 0 and no entry left in the list has its
`deleted` flag set. -/
theorem tombstones_swept (env : Env) (ctx : AioContext) (event : Int)
    (hw : ctx.walking_handlers = 0) (henv : spares_visited env) :
    (no_abort env → ∃ r, aio_dispatch_handlers env ctx event = some r) ∧
    ∀ r, aio_dispatch_handlers env ctx event = some r →
      r.ctx.walking_handlers = 0 ∧ ∀ n ∈ r.ctx.aio_handlers, n.deleted = 0 := by
  refine ⟨fun hna => aio_dispatch_handlers_returns hna ctx event (by rw [hw]; decide), ?_⟩
  intro r hrun
  unfold aio_dispatch_handlers at hrun
  have h := dispatch_loop_inv henv ctx.aio_handlers.length
    (w := { ctx := ctx, progress := false, trace := [] })
    ⟨hw, Nat.le_refl _, by simp [visited_live]⟩ hrun
  refine ⟨h.1, ?_⟩
  have h2 := h.2
  simp only [visited_live, Nat.sub_zero, List.take_length] at h2
  exact h2

/-- Witness for `tombstones_swept`: sockets 1 and 2 are read-ready and each
read callback deregisters its own socket; both entries are tombstoned during
the pass and both are gone when it returns. -/
theorem tombstones_swept_witness :
    ∃ r, aio_dispatch_handlers ex_env_remove_self ex_ctx_two_ready INVALID_HANDLE_VALUE
        = some r ∧
      r.trace.map (fun i => (i.kind, i.node.pfd.fd)) = [(CbKind.read, 1), (CbKind.read, 2)] ∧
      r.ctx.aio_handlers = [] ∧
      r.ctx.walking_handlers = 0 ∧ ∀ n ∈ r.ctx.aio_handlers, n.deleted = 0 := by
  refine ⟨_, rfl, by decide, by decide, ?_⟩
  exact (tombstones_swept ex_env_remove_self ex_ctx_two_ready INVALID_HANDLE_VALUE rfl
    ex_env_remove_self_spares).2 _ rfl

/-! ## The prober -/

theorem write_back_mem {fds : List WSAPOLLFD} {rev : Nat → Nat} :
    ∀ {l : List AioHandler} {i : Nat} {x : AioHandler}, x ∈ (write_back fds rev i l).1 →
      ∃ m ∈ l, ∃ r, x = { m with pfd := { m.pfd with revents := r } } := by
  intro l
  induction l with
  | nil => intro i x hx; simp [write_back] at hx
  | cons a l ih =>
    intro i x hx
    simp only [write_back, List.mem_cons] at hx
    rcases hx with hx | hx
    · exact ⟨a, List.mem_cons_self _ _, _, hx⟩
    · obtain ⟨m, hm, r, hr⟩ := ih hx
      exact ⟨m, List.mem_cons_of_mem _ hm, r, hr⟩

theorem write_back_length {fds : List WSAPOLLFD} {rev : Nat → Nat} :
    ∀ (l : List AioHandler) (i : Nat), (write_back fds rev i l).1.length = l.length := by
  intro l
  induction l with
  | nil => intro i; rfl
  | cons a l ih => intro i; simp [write_back, ih]

theorem write_back_append {fds : List WSAPOLLFD} {rev : Nat → Nat} (b : List AioHandler) :
    ∀ (a : List AioHandler) (i : Nat),
      (write_back fds rev i (a ++ b)).1 =
        (write_back fds rev i a).1 ++ (write_back fds rev (i + a.length) b).1 := by
  intro a
  induction a with
  | nil => intro i; simp [write_back]
  | cons n a ih =>
    intro i
    have h1 := ih (i + 1)
    rw [show i + 1 + a.length = i + (a.length + 1) by omega] at h1
    simp only [List.cons_append, write_back, List.length_cons]
    exact congrArg (List.cons _) h1

theorem aio_prepare_walking (P : List WSAPOLLFD → Int × (Nat → Nat)) (locked : Bool)
    (ctx : AioContext) :
    (aio_prepare P locked ctx).2.walking_handlers = ctx.walking_handlers ∧
      (aio_prepare P locked ctx).2.notifier = ctx.notifier := by
  unfold aio_prepare
  simp only
  split
  · simp
  · split <;> simp

theorem aio_prepare_mem {P : List WSAPOLLFD → Int × (Nat → Nat)} {locked : Bool}
    {ctx : AioContext} {x : AioHandler} (hx : x ∈ (aio_prepare P locked ctx).2.aio_handlers) :
    ∃ m ∈ ctx.aio_handlers, ∃ r, x = { m with pfd := { m.pfd with revents := r } } := by
  unfold aio_prepare at hx
  simp only at hx
  split at hx
  · exact ⟨x, hx, x.pfd.revents, rfl⟩
  · split at hx
    · exact write_back_mem hx
    · exact ⟨x, hx, x.pfd.revents, rfl⟩

/-- The entry at position `pre.length`, below the capacity of the batch, live,
with a read or write callback and a valid socket, gets from `aio_prepare` the
`revents` computed from the slot `WSAPoll` filled in for it, provided the poll
reported at least one socket; the entries around it keep their positions. -/
theorem aio_prepare_at (P : List WSAPOLLFD → Int × (Nat → Nat)) (locked : Bool)
    (ctx : AioContext) (pre : List AioHandler) (n : AioHandler) (post : List AioHandler)
    (hl : ctx.aio_handlers = pre ++ n :: post) (hcap : pre.length < FDS_CAPACITY)
    (hlive : n.deleted = 0) (hrw : n.io_read ≠ 0 ∨ n.io_write ≠ 0)
    (hfd : n.pfd.fd ≠ INVALID_SOCKET) (hres : 0 < (P (fill_fds ctx.aio_handlers)).1) :
    ∃ pre1 post1, (aio_prepare P locked ctx).2.aio_handlers =
        pre1 ++ { n with pfd := { n.pfd with revents :=
          (if (P (fill_fds ctx.aio_handlers)).2 pre.length &&&
                (POLLIN ||| POLLHUP ||| POLLERR) ≠ 0 then G_IO_IN else 0) |||
          (if (P (fill_fds ctx.aio_handlers)).2 pre.length &&& POLLOUT ≠ 0
            then G_IO_OUT else 0) } } :: post1 ∧
      pre1.length = pre.length ∧ post1.length = post.length := by
  have hpolled : is_polled n = true := by
    simp only [is_polled, Bool.not_eq_true', decide_eq_false_iff_not, not_or, not_and]
    exact ⟨by simp [hlive], fun h1 h2 => by rcases hrw with h | h <;> contradiction⟩
  have hcount : polled_count ctx.aio_handlers ≠ 0 := by
    unfold polled_count
    rw [hl]
    have hmem : n ∈ (pre ++ n :: post).take FDS_CAPACITY := by
      rw [List.mem_iff_getElem?]
      refine ⟨pre.length, ?_⟩
      rw [List.getElem?_take_of_lt hcap, List.getElem?_append_right (Nat.le_refl _)]
      simp
    have : n ∈ ((pre ++ n :: post).take FDS_CAPACITY).filter is_polled :=
      List.mem_filter.2 ⟨hmem, hpolled⟩
    exact Nat.ne_of_gt (List.length_pos_of_mem this)
  have hslot : slot_polled (fill_fds ctx.aio_handlers) pre.length = true := by
    unfold slot_polled fill_fds
    rw [hl, List.getElem?_map, List.getElem?_take_of_lt hcap,
      List.getElem?_append_right (Nat.le_refl _)]
    simp only [Nat.sub_self, List.getElem?_cons_zero, Option.map_some']
    have hns : ¬ (n.deleted ≠ 0 ∨ (n.io_read = 0 ∧ n.io_write = 0)) := by
      simp only [not_or, not_and]
      exact ⟨by simp [hlive], fun h1 h2 => by rcases hrw with h | h <;> contradiction⟩
    simp only [fds_slot, if_neg hns]
    simpa using hfd
  unfold aio_prepare
  simp only
  rw [if_neg hcount, if_pos (by simpa using hres)]
  simp only
  refine ⟨(write_back (fill_fds ctx.aio_handlers) (P (fill_fds ctx.aio_handlers)).2 0 pre).1,
    (write_back (fill_fds ctx.aio_handlers) (P (fill_fds ctx.aio_handlers)).2
      (0 + pre.length + 1) post).1, ?_, write_back_length _ _, write_back_length _ _⟩
  rw [hl, write_back_append]
  simp only [write_back]
  rw [← hl]
  congr 2
  simp only [probe_revents, hslot, true_and, Nat.zero_add]
  by_cases h1 : (P (fill_fds ctx.aio_handlers)).2 pre.length &&&
      (POLLIN ||| POLLHUP ||| POLLERR) = 0
  · by_cases h2 : (P (fill_fds ctx.aio_handlers)).2 pre.length &&& POLLOUT = 0
    · simp [h1, h2]
    · simp [h1, h2]
  · by_cases h2 : (P (fill_fds ctx.aio_handlers)).2 pre.length &&& POLLOUT = 0
    · simp [h1, h2]
    · simp [h1, h2]

/-! ## Read dispatch, end to end -/

theorem quiet_trace_slot_filter (h : Nat → Int) (event : Int) (pre : List AioHandler)
    (n : AioHandler) (post : List AioHandler) (p : Invocation → Bool) :
    (quiet_trace h event (pre ++ n :: post)).filter
        (fun i => decide (i.slot = post.length + 1) && p i) =
      (quiet_invocations h event (post.length + 1) n).filter p := by
  obtain ⟨x, hx, hslot⟩ := quiet_trace_append h event (n :: post) pre
  rw [hx]
  simp only [quiet_trace, List.filter_append]
  have h1 : x.filter (fun i => decide (i.slot = post.length + 1) && p i) = [] := by
    rw [List.filter_eq_nil_iff]
    intro i hi
    have := hslot i hi
    simp only [List.length_cons] at this
    simp only [Bool.and_eq_true, decide_eq_true_eq, not_and]
    intro h2
    omega
  have h2 : (quiet_trace h event post).filter
      (fun i => decide (i.slot = post.length + 1) && p i) = [] := by
    rw [List.filter_eq_nil_iff]
    intro i hi
    have := (quiet_trace_mem hi).2.1
    simp only [Bool.and_eq_true, decide_eq_true_eq, not_and]
    intro h2
    omega
  have h3 : (quiet_invocations h event (post.length + 1) n).filter
      (fun i => decide (i.slot = post.length + 1) && p i) =
      (quiet_invocations h event (post.length + 1) n).filter p := by
    apply List.filter_congr
    intro i hi
    simp [(quiet_invocations_slot hi).1]
  rw [h1, h2, h3]
  simp

theorem ex_env_quiet_no_mutation : no_mutation ex_env_quiet := fun _ _ _ => rfl

theorem quiet_trace_no_slot {h : Nat → Int} {event : Int} (pre : List AioHandler)
    (n : AioHandler) (post : List AioHandler)
    (hn : quiet_invocations h event (post.length + 1) n = []) :
    ∀ i ∈ quiet_trace h event (pre ++ n :: post), i.slot ≠ post.length + 1 := by
  intro i hi hslot
  have hf := quiet_trace_slot_filter h event pre n post (fun _ => true)
  rw [hn] at hf
  simp only [List.filter_nil, Bool.and_true, List.filter_eq_nil_iff, decide_eq_true_eq] at hf
  exact hf i hi hslot

theorem set_fd_handler_effects (h : Nat → Int) (ctx : AioContext) (fd : Int) (ext : Bool)
    (r w o : Nat) (ctx1 : AioContext)
    (hrun : aio_set_fd_handler h ctx fd ext r w o = some ctx1) :
    ∃ eff, ctx1.effects = ctx.effects ++ eff ∧
      eff.count Effect.aio_notify = if r = 0 ∧ w = 0 then 0 else 1 := by
  unfold aio_set_fd_handler at hrun
  by_cases hrw : r = 0 ∧ w = 0
  · rw [if_pos hrw] at hrun
    rw [if_pos hrw]
    cases hf : find_node (fd_match fd) ctx.aio_handlers with
    | none =>
      rw [hf] at hrun
      simp only [Option.some.injEq] at hrun
      subst hrun
      exact ⟨[], by simp, rfl⟩
    | some s =>
      obtain ⟨pre, n, post⟩ := s
      rw [hf] at hrun
      simp only at hrun
      by_cases hnot : n.io_notify = 0
      · by_cases hw : ctx.walking_handlers = 0
        · simp [hnot, hw] at hrun
          subst hrun
          exact ⟨[Effect.WSAEventSelect n.pfd.fd 0 0], rfl, by simp [List.count_cons]⟩
        · simp [hnot, hw] at hrun
          subst hrun
          exact ⟨[Effect.WSAEventSelect n.pfd.fd 0 0], rfl, by simp [List.count_cons]⟩
      · simp [hnot] at hrun
  · rw [if_neg hrw] at hrun
    rw [if_neg hrw]
    simp only [Option.some.injEq] at hrun
    subst hrun
    exact ⟨_, rfl, by simp [List.count_cons]⟩

theorem set_fd_handler_upsert_returns (h : Nat → Int) (ctx : AioContext) (fd : Int)
    (ext : Bool) (r w o : Nat) (hrw : ¬ (r = 0 ∧ w = 0)) :
    ∃ ctx1, aio_set_fd_handler h ctx fd ext r w o = some ctx1 := by
  unfold aio_set_fd_handler
  rw [if_neg hrw]
  exact ⟨_, rfl⟩

theorem set_event_notifier_effects (h : Nat → Int) (ctx : AioContext) (e : Nat) (ext : Bool)
    (f : Nat) :
    ∃ ctx1 eff, aio_set_event_notifier h ctx e ext f = some ctx1 ∧
      ctx1.effects = ctx.effects ++ eff ∧ eff.count Effect.aio_notify = 1 := by
  unfold aio_set_event_notifier
  cases hf : find_node (notifier_match e) ctx.aio_handlers with
  | none =>
    by_cases hf0 : f = 0
    · simp only [hf0, if_true]
      exact ⟨_, [Effect.aio_notify], rfl, rfl, by decide⟩
    · simp only [hf0, if_false]
      exact ⟨_, _, rfl, rfl, by simp [List.count_cons]⟩
  | some s =>
    obtain ⟨pre, n, post⟩ := s
    by_cases hf0 : f = 0
    · simp only [hf0, if_true]
      by_cases hw : ctx.walking_handlers = 0
      · simp only [hw, ne_eq, not_true_eq_false, if_false]
        exact ⟨_, _, rfl, rfl, by simp [List.count_cons]⟩
      · simp only [ne_eq, hw, not_false_eq_true, if_true]
        exact ⟨_, _, rfl, rfl, by simp [List.count_cons]⟩
    · simp only [hf0, if_false]
      exact ⟨_, [Effect.aio_notify], rfl, rfl, by decide⟩

/-- C15. `aio_set_fd_handler` always returns when one of `io_read`, `io_write`
is non-null, and whenever it returns it has called `aio_notify` exactly once
in that case (entry created or updated) and not at all on a removal request;
`aio_set_event_notifier` always returns and has called `aio_notify` exactly
once, also on a removal and whether or not a live entry existed. -/
theorem wake_emission (h : Nat → Int) (ctx : AioContext) :
    (∀ fd ext r w o, ¬ (r = 0 ∧ w = 0) →
      ∃ ctx1 eff, aio_set_fd_handler h ctx fd ext r w o = some ctx1 ∧
        ctx1.effects = ctx.effects ++ eff ∧ eff.count Effect.aio_notify = 1) ∧
    (∀ fd ext o ctx1, aio_set_fd_handler h ctx fd ext 0 0 o = some ctx1 →
      ∃ eff, ctx1.effects = ctx.effects ++ eff ∧ eff.count Effect.aio_notify = 0) ∧
    (∀ e ext f, ∃ ctx1 eff, aio_set_event_notifier h ctx e ext f = some ctx1 ∧
      ctx1.effects = ctx.effects ++ eff ∧ eff.count Effect.aio_notify = 1) := by
  refine ⟨?_, ?_, ?_⟩
  · intro fd ext r w o hrw
    obtain ⟨ctx1, h1⟩ := set_fd_handler_upsert_returns h ctx fd ext r w o hrw
    obtain ⟨eff, h2, h3⟩ := set_fd_handler_effects h ctx fd ext r w o ctx1 h1
    rw [if_neg hrw] at h3
    exact ⟨ctx1, eff, h1, h2, h3⟩
  · intro fd ext o ctx1 h1
    obtain ⟨eff, h2, h3⟩ := set_fd_handler_effects h ctx fd ext 0 0 o ctx1 h1
    rw [if_pos ⟨rfl, rfl⟩] at h3
    exact ⟨eff, h2, h3⟩
  · intro e ext f
    exact set_event_notifier_effects h ctx e ext f

/-- Witness for `wake_emission`: on the registry holding socket 5, an update
of socket 5 and the creation of socket 6 wake once, the removal of socket 5
does not wake, and a notifier removal that finds nothing wakes once. -/
theorem wake_emission_witness :
    (∃ c eff, aio_set_fd_handler ex_handle ex_ctx_read_only 5 false 0 12 0 = some c ∧
      c.effects = ex_ctx_read_only.effects ++ eff ∧ eff.count Effect.aio_notify = 1) ∧
    (∃ c eff, aio_set_fd_handler ex_handle ex_ctx_read_only 6 false 11 0 0 = some c ∧
      c.effects = ex_ctx_read_only.effects ++ eff ∧ eff.count Effect.aio_notify = 1) ∧
    (∃ c eff, aio_set_fd_handler ex_handle ex_ctx_read_only 5 false 0 0 0 = some c ∧
      c.effects = ex_ctx_read_only.effects ++ eff ∧ eff.count Effect.aio_notify = 0) ∧
    (∃ c eff, aio_set_event_notifier ex_handle ex_ctx_read_only 7 false 0 = some c ∧
      c.effects = ex_ctx_read_only.effects ++ eff ∧ eff.count Effect.aio_notify = 1) := by
  have hw := wake_emission ex_handle ex_ctx_read_only
  refine ⟨hw.1 5 false 0 12 0 (by decide), hw.1 6 false 11 0 0 (by decide), ?_,
    hw.2.2 7 false 0⟩
  obtain ⟨eff, h1, h2⟩ := hw.2.1 5 false 0
    { ex_ctx with aio_handlers := [], effects := [Effect.WSAEventSelect 5 0 0] } (by decide)
  exact ⟨_, eff, by decide, h1, h2⟩

/-! ## Registration order -/

theorem set_fd_handler_insert (h : Nat → Int) (ctx : AioContext) (fd : Int) (ext : Bool)
    (r w o : Nat) (hrw : ¬ (r = 0 ∧ w = 0))
    (hno : ∀ m ∈ ctx.aio_handlers, ¬ (m.pfd.fd = fd ∧ m.deleted = 0)) :
    ∃ ctx1, aio_set_fd_handler h ctx fd ext r w o = some ctx1 ∧
      ctx1.aio_handlers = fd_node_update ctx.notifier (new_fd_node fd) ext r w o ::
        ctx.aio_handlers ∧
      ctx1.notifier = ctx.notifier ∧ ctx1.walking_handlers = ctx.walking_handlers := by
  have hf : find_node (fd_match fd) ctx.aio_handlers = none :=
    find_node_absent (fun m hm => by simpa [fd_match] using hno m hm)
  unfold aio_set_fd_handler
  rw [if_neg hrw, hf]
  exact ⟨_, rfl, rfl, rfl, rfl⟩

theorem set_fd_handler_update (h : Nat → Int) (ctx : AioContext) (fd : Int) (ext : Bool)
    (r w o : Nat) (pre : List AioHandler) (n : AioHandler) (post : List AioHandler)
    (hrw : ¬ (r = 0 ∧ w = 0)) (hl : ctx.aio_handlers = pre ++ n :: post)
    (hpre : ∀ m ∈ pre, ¬ (m.pfd.fd = fd ∧ m.deleted = 0))
    (hfd : n.pfd.fd = fd) (hdel : n.deleted = 0) :
    ∃ ctx1, aio_set_fd_handler h ctx fd ext r w o = some ctx1 ∧
      ctx1.aio_handlers = pre ++ fd_node_update ctx.notifier n ext r w o :: post := by
  have hf : find_node (fd_match fd) ctx.aio_handlers = some (pre, n, post) := by
    rw [hl]
    exact find_node_split (fun m hm => by simpa [fd_match] using hpre m hm)
      (by simp [fd_match, hfd, hdel])
  unfold aio_set_fd_handler
  rw [if_neg hrw, hf]
  exact ⟨_, rfl, rfl⟩

theorem set_event_notifier_insert (h : Nat → Int) (ctx : AioContext) (e : Nat) (ext : Bool)
    (f : Nat) (hf0 : f ≠ 0)
    (hno : ∀ m ∈ ctx.aio_handlers, ¬ (m.e = e ∧ m.deleted = 0)) :
    ∃ ctx1, aio_set_event_notifier h ctx e ext f = some ctx1 ∧
      ctx1.aio_handlers =
        { new_notifier_node h e ext with io_notify := f } :: ctx.aio_handlers := by
  have hf : find_node (notifier_match e) ctx.aio_handlers = none :=
    find_node_absent (fun m hm => by simpa [notifier_match] using hno m hm)
  unfold aio_set_event_notifier
  rw [if_neg hf0, hf]
  exact ⟨_, rfl, rfl⟩

theorem set_event_notifier_update (h : Nat → Int) (ctx : AioContext) (e : Nat) (ext : Bool)
    (f : Nat) (pre : List AioHandler) (n : AioHandler) (post : List AioHandler)
    (hf0 : f ≠ 0) (hl : ctx.aio_handlers = pre ++ n :: post)
    (hpre : ∀ m ∈ pre, ¬ (m.e = e ∧ m.deleted = 0))
    (he : n.e = e) (hdel : n.deleted = 0) :
    ∃ ctx1, aio_set_event_notifier h ctx e ext f = some ctx1 ∧
      ctx1.aio_handlers = pre ++ { n with io_notify := f } :: post := by
  have hf : find_node (notifier_match e) ctx.aio_handlers = some (pre, n, post) := by
    rw [hl]
    exact find_node_split (fun m hm => by simpa [notifier_match] using hpre m hm)
      (by simp [notifier_match, he, hdel])
  unfold aio_set_event_notifier
  rw [if_neg hf0, hf]
  exact ⟨_, rfl, rfl⟩

theorem register_fresh_sockets (h : Nat → Int) (ext : Bool) (r w o : Nat)
    (hrw : ¬ (r = 0 ∧ w = 0)) :
    ∀ (ks : List Int) (ctx : AioContext), ks.Nodup →
      (∀ k ∈ ks, ∀ m ∈ ctx.aio_handlers, ¬ (m.pfd.fd = k ∧ m.deleted = 0)) →
      ∃ ctx1 news, run_calls h ctx (ks.map fun k => RegCall.set_fd_handler k ext r w o)
          = some ctx1 ∧
        ctx1.aio_handlers = news ++ ctx.aio_handlers ∧
        news.map (fun n => n.pfd.fd) = ks.reverse ∧
        ∀ n ∈ news, n.deleted = 0 ∧ n.io_read = r ∧ n.io_write = w ∧ n.opaque_ = o := by
  intro ks
  induction ks with
  | nil => intro ctx _ _; exact ⟨ctx, [], rfl, rfl, rfl, by simp⟩
  | cons k ks ih =>
    intro ctx hnd hfresh
    obtain ⟨hk, hnd1⟩ := List.nodup_cons.1 hnd
    obtain ⟨ctx1, h1, h2, -, -⟩ := set_fd_handler_insert h ctx k ext r w o hrw
      (hfresh k (List.mem_cons_self _ _))
    have hfresh1 : ∀ k1 ∈ ks, ∀ m ∈ ctx1.aio_handlers, ¬ (m.pfd.fd = k1 ∧ m.deleted = 0) := by
      intro k1 hk1 m hm
      rw [h2] at hm
      rcases List.mem_cons.1 hm with rfl | hm
      · rintro ⟨hfd, -⟩
        simp only [fd_node_update_fd, new_fd_node_fd] at hfd
        exact hk (hfd ▸ hk1)
      · exact hfresh k1 (List.mem_cons_of_mem _ hk1) m hm
    obtain ⟨ctx2, news, g1, g2, g3, g4⟩ := ih ctx1 hnd1 hfresh1
    refine ⟨ctx2, news ++ [fd_node_update ctx.notifier (new_fd_node k) ext r w o], ?_, ?_, ?_,
      ?_⟩
    · simp only [List.map_cons, run_calls, RegCall.run, h1]
      exact g1
    · rw [g2, h2]; simp
    · simp [g3]
    · intro n hn
      rcases List.mem_append.1 hn with hn | hn
      · exact g4 n hn
      · rw [List.mem_singleton.1 hn]; simp

theorem quiet_invocations_pairwise (h : Nat → Int) (event : Int) (slot : Nat)
    (n : AioHandler) :
    (quiet_invocations h event slot n).Pairwise fun a b => b.slot ≤ a.slot := by
  rw [List.pairwise_iff_forall_sublist]
  intro a b hab
  have ha := (quiet_invocations_slot (hab.subset (List.mem_cons_self _ _))).1
  have hb := (quiet_invocations_slot
    (hab.subset (List.mem_cons_of_mem _ (List.mem_singleton.2 rfl)))).1
  omega

theorem quiet_trace_pairwise (h : Nat → Int) (event : Int) :
    ∀ l : List AioHandler,
      (quiet_trace h event l).Pairwise fun a b => b.slot ≤ a.slot := by
  intro l
  induction l with
  | nil => simp [quiet_trace]
  | cons n l ih =>
    simp only [quiet_trace]
    rw [List.pairwise_append]
    refine ⟨quiet_invocations_pairwise h event _ n, ih, ?_⟩
    intro a ha b hb
    have h1 := (quiet_invocations_slot ha).1
    have h2 := (quiet_trace_mem hb).2.1
    omega

theorem quiet_trace_origin (h : Nat → Int) (event : Int) :
    ∀ (l : List AioHandler) (i : Invocation), i ∈ quiet_trace h event l →
      ∃ pre n post, l = pre ++ n :: post ∧ i.slot = post.length + 1 ∧
        i.node = clear_node n ∧ n.deleted = 0 := by
  intro l
  induction l with
  | nil => intro i hi; simp [quiet_trace] at hi
  | cons a l ih =>
    intro i hi
    simp only [quiet_trace, List.mem_append] at hi
    rcases hi with hi | hi
    · obtain ⟨h1, h2, h3⟩ := quiet_invocations_slot hi
      exact ⟨[], a, l, rfl, h1, h2, h3⟩
    · obtain ⟨pre, n, post, h1, h2, h3, h4⟩ := ih i hi
      exact ⟨a :: pre, n, post, by simp [h1], h2, h3, h4⟩

theorem quiet_invocations_sub (h : Nat → Int) (event : Int) (pre : List AioHandler)
    (n : AioHandler) (post : List AioHandler) :
    ∀ i ∈ quiet_invocations h event (post.length + 1) n,
      i ∈ quiet_trace h event (pre ++ n :: post) := by
  intro i hi
  obtain ⟨x, hx, -⟩ := quiet_trace_append h event (n :: post) pre
  rw [hx]
  simp only [quiet_trace, List.mem_append]
  exact Or.inr (Or.inl hi)

set_option maxRecDepth 100000 in
/-- C14 (counterexample). The registry holds 128 notify-only entries in front
of its single socket entry (socket 5, registered for reading): one live entry
with a read or write callback.  `aio_prepare` gives every slot of the batch to
a notify-only entry, counts no socket and returns `false` without polling;
socket 5 is not in the batch and its `revents` stays as it was, although the
poll would have reported it readable. -/
theorem socket_beyond_batch :
    (ex_ctx_crowded.aio_handlers.filter is_polled).length = 1 ∧
    (fill_fds ex_ctx_crowded.aio_handlers).length = 128 ∧
    (∀ s ∈ fill_fds ex_ctx_crowded.aio_handlers, s.fd = INVALID_SOCKET) ∧
    aio_prepare ex_poll_in false ex_ctx_crowded = (false, ex_ctx_crowded) := by
  refine ⟨by decide, by decide, by decide, by decide⟩

theorem fill_fds_length (l : List AioHandler) :
    (fill_fds l).length = min FDS_CAPACITY l.length := by
  simp [fill_fds, List.length_take]

theorem fill_fds_at (pre : List AioHandler) (n : AioHandler) (post : List AioHandler) :
    (fill_fds (pre ++ n :: post))[pre.length]? =
      if pre.length < FDS_CAPACITY then some (fds_slot n) else none := by
  unfold fill_fds
  by_cases hcap : pre.length < FDS_CAPACITY
  · rw [if_pos hcap, List.getElem?_map, List.getElem?_take_of_lt hcap,
      List.getElem?_append_right (Nat.le_refl _)]
    simp
  · rw [if_neg hcap, List.getElem?_map, List.getElem?_take_eq_none (by omega)]
    rfl

/-- C14 (amended). For every registry and every live entry carrying a read or
write callback: if the entry lies among the first 128 nodes of the list (all
nodes count, notify-only and tombstoned ones too), the batch passed to the
poll holds its socket and interest at the entry's position, and when the
socket is valid and the poll returns a positive value the readiness bits of
that slot are written back to the entry; if it lies further down, the batch
has no slot for it. -/
theorem prober_capacity (P : List WSAPOLLFD → Int × (Nat → Nat)) (locked : Bool)
    (ctx : AioContext) (pre : List AioHandler) (n : AioHandler) (post : List AioHandler)
    (hl : ctx.aio_handlers = pre ++ n :: post)
    (hlive : n.deleted = 0) (hrw : n.io_read ≠ 0 ∨ n.io_write ≠ 0) :
    (fill_fds ctx.aio_handlers).length = min FDS_CAPACITY ctx.aio_handlers.length ∧
    (pre.length < FDS_CAPACITY →
      (fill_fds ctx.aio_handlers)[pre.length]? =
        some { fd := n.pfd.fd,
               events := (if n.io_read ≠ 0 then POLLIN else 0) |||
                 (if n.io_write ≠ 0 then POLLOUT else 0) } ∧
      (n.pfd.fd ≠ INVALID_SOCKET → 0 < (P (fill_fds ctx.aio_handlers)).1 →
        ∃ pre1 post1, (aio_prepare P locked ctx).2.aio_handlers =
            pre1 ++ { n with pfd := { n.pfd with revents :=
              (if (P (fill_fds ctx.aio_handlers)).2 pre.length &&&
                    (POLLIN ||| POLLHUP ||| POLLERR) ≠ 0 then G_IO_IN else 0) |||
              (if (P (fill_fds ctx.aio_handlers)).2 pre.length &&& POLLOUT ≠ 0
                then G_IO_OUT else 0) } } :: post1 ∧
          pre1.length = pre.length ∧ post1.length = post.length)) ∧
    (FDS_CAPACITY ≤ pre.length → (fill_fds ctx.aio_handlers)[pre.length]? = none) := by
  have hns : ¬ (n.deleted ≠ 0 ∨ (n.io_read = 0 ∧ n.io_write = 0)) := by
    simp only [not_or, not_and]
    exact ⟨by simp [hlive], fun h1 h2 => by rcases hrw with h | h <;> contradiction⟩
  refine ⟨fill_fds_length _, ?_, ?_⟩
  · intro hcap
    refine ⟨?_, ?_⟩
    · rw [hl, fill_fds_at, if_pos hcap]
      simp only [fds_slot, if_neg hns]
    · intro hfd hres
      exact aio_prepare_at P locked ctx pre n post hl hcap hlive hrw hfd hres
  · intro hcap
    rw [hl, fill_fds_at, if_neg (by omega)]

/-- Witness for `prober_capacity`: one notify-only entry in front of socket 5,
registered for reading; socket 5 sits in slot 1 of the batch and the poll's
`POLLIN` comes back as `G_IO_IN`. -/
theorem prober_capacity_witness :
    (fill_fds ex_ctx_mixed.aio_handlers)[1]? = some { fd := 5, events := POLLIN } ∧
    (aio_prepare ex_poll_in false ex_ctx_mixed).2.aio_handlers =
      [{ new_notifier_node ex_handle 7 false with io_notify := 34 },
        ex_node 5 11 0 G_IO_IN] := by
  have hthm := prober_capacity ex_poll_in false ex_ctx_mixed
    [{ new_notifier_node ex_handle 7 false with io_notify := 34 }] (ex_node 5 11 0 0) []
    rfl rfl (Or.inl (by decide))
  exact ⟨(hthm.2.1 (by decide)).1, by decide⟩

/-! ## Notify dispatch and progress -/

theorem dispatch_reprobe_idle {env : Env} (hzero : ∀ t fd, env.WSAEnumNetworkEvents t fd = 0)
    {event : Int} {slot : Nat} {w w1 : Walk}
    (hrun : dispatch_reprobe env event slot w = some w1) : w1.progress = w.progress := by
  unfold dispatch_reprobe at hrun
  cases hn : node_at w.ctx.aio_handlers slot with
  | none => rw [hn] at hrun; simp at hrun
  | some s =>
    obtain ⟨pre, node, post⟩ := s
    rw [hn] at hrun
    simp only [hzero, ne_eq, not_true_eq_false, if_false] at hrun
    split at hrun
    · simp only [Option.some.injEq] at hrun
      subst hrun
      rfl
    · simp only [Option.some.injEq] at hrun
      subst hrun
      rfl

theorem dispatch_rw_idle {env : Env} (henv : no_mutation env)
    (hzero : ∀ t fd, env.WSAEnumNetworkEvents t fd = 0) (event : Int) (rev : Nat)
    (w : Walk) (pre : List AioHandler) (node : AioHandler) (post : List AioHandler)
    (hl : w.ctx.aio_handlers = pre ++ node :: post)
    (hidle : ¬ (rw_due node ∧ (rev &&& G_IO_IN ≠ 0 ∧ node.io_read ≠ 0 ∨
      rev &&& G_IO_OUT ≠ 0 ∧ node.io_write ≠ 0)))
    (w1 : Walk) (hrun : dispatch_rw env event (post.length + 1) rev w = some w1) :
    w1.progress = w.progress := by
  unfold dispatch_rw at hrun
  rw [hl, node_at_split] at hrun
  simp only at hrun
  by_cases hdue : rw_due node
  · have hdue1 : node.deleted = 0 ∧ (node.io_read ≠ 0 ∨ node.io_write ≠ 0) := hdue
    rw [if_pos hdue1] at hrun
    have hc := clear_revents_split w.ctx pre node post hl
    have hl1 : ({ w with ctx := clear_revents w.ctx (post.length + 1) } : Walk).ctx.aio_handlers
        = pre ++ clear_node node :: post := by rw [hc]
    have hr1 : ¬ (rev &&& G_IO_IN ≠ 0 ∧ (clear_node node).io_read ≠ 0) :=
      fun h => hidle ⟨hdue, Or.inl h⟩
    have hw1 : ¬ (rev &&& G_IO_OUT ≠ 0 ∧ (clear_node node).io_write ≠ 0) :=
      fun h => hidle ⟨hdue, Or.inr h⟩
    rw [dispatch_read_quiet henv rev _ pre (clear_node node) post hl1, if_neg hr1] at hrun
    simp only at hrun
    rw [dispatch_write_quiet henv rev _ pre (clear_node node) post hl1, if_neg hw1] at hrun
    simp only at hrun
    have h := dispatch_reprobe_idle hzero hrun
    exact h
  · have hdue1 : ¬ (node.deleted = 0 ∧ (node.io_read ≠ 0 ∨ node.io_write ≠ 0)) := hdue
    rw [if_neg hdue1] at hrun
    simp only [Option.some.injEq] at hrun
    subst hrun
    rfl

theorem dispatch_node_idle {env : Env} (henv : no_mutation env)
    (hzero : ∀ t fd, env.WSAEnumNetworkEvents t fd = 0) (event : Int)
    (w : Walk) (pre : List AioHandler) (node : AioHandler) (post : List AioHandler)
    (hl : w.ctx.aio_handlers = pre ++ node :: post)
    (hown : notify_due env.get_handle event node → node.e = w.ctx.notifier)
    (hidle : ¬ (rw_due node ∧ (node.pfd.revents &&& G_IO_IN ≠ 0 ∧ node.io_read ≠ 0 ∨
      node.pfd.revents &&& G_IO_OUT ≠ 0 ∧ node.io_write ≠ 0)))
    (w1 : Walk) (hrun : dispatch_node env event (post.length + 1) w = some w1) :
    w1.progress = w.progress := by
  unfold dispatch_node at hrun
  rw [hl, node_at_split] at hrun
  simp only at hrun
  have hl1 : ({ w with ctx := { w.ctx with walking_handlers := w.ctx.walking_handlers + 1 } }
      : Walk).ctx.aio_handlers = pre ++ node :: post := hl
  rw [dispatch_notify_quiet henv event node.pfd.revents _ pre node post hl1] at hrun
  simp only at hrun
  by_cases hn : notify_due env.get_handle event node
  · have hn1 : node.deleted = 0 ∧ (node.pfd.revents ≠ 0 ∨ env.get_handle node.e = event) ∧
        node.io_notify ≠ 0 := hn
    rw [if_pos hn1] at hrun
    have he : ¬ node.e ≠ w.ctx.notifier := by simp [hown hn]
    rw [if_neg he] at hrun
    cases h2 : dispatch_rw env event (post.length + 1) node.pfd.revents
        ({ ctx := { w.ctx with walking_handlers := w.ctx.walking_handlers + 1,
                               aio_handlers := pre ++ clear_node node :: post },
           progress := w.progress,
           trace := w.trace ++
             [{ kind := CbKind.notify, slot := post.length + 1, node := clear_node node }] }
          : Walk) with
    | none => rw [h2] at hrun; simp at hrun
    | some w3 =>
      rw [h2] at hrun
      simp only at hrun
      have h3 := dispatch_rw_idle henv hzero event node.pfd.revents _ pre (clear_node node)
        post rfl hidle w3 h2
      obtain ⟨w4, g1, -, -, -, -, g6⟩ := dispatch_sweep_split w3 pre (clear_node node) post
        w.ctx.walking_handlers (by
          obtain ⟨w3x, q1, q2, -⟩ := dispatch_rw_quiet henv event node.pfd.revents
            ({ ctx := { w.ctx with walking_handlers := w.ctx.walking_handlers + 1,
                                   aio_handlers := pre ++ clear_node node :: post },
               progress := w.progress,
               trace := w.trace ++
                 [{ kind := CbKind.notify, slot := post.length + 1,
                    node := clear_node node }] } : Walk)
            pre (clear_node node) post rfl
          rw [h2] at q1
          simp only [Option.some.injEq] at q1
          subst q1
          rw [q2]; split <;> rfl) (by
          obtain ⟨w3x, q1, -, q3, -⟩ := dispatch_rw_quiet henv event node.pfd.revents
            ({ ctx := { w.ctx with walking_handlers := w.ctx.walking_handlers + 1,
                                   aio_handlers := pre ++ clear_node node :: post },
               progress := w.progress,
               trace := w.trace ++
                 [{ kind := CbKind.notify, slot := post.length + 1,
                    node := clear_node node }] } : Walk)
            pre (clear_node node) post rfl
          rw [h2] at q1
          simp only [Option.some.injEq] at q1
          subst q1
          rw [q3])
      rw [g1] at hrun
      simp only [Option.some.injEq] at hrun
      subst hrun
      rw [g6, h3]
  · have hn1 : ¬ (node.deleted = 0 ∧ (node.pfd.revents ≠ 0 ∨ env.get_handle node.e = event) ∧
        node.io_notify ≠ 0) := hn
    rw [if_neg hn1] at hrun
    cases h2 : dispatch_rw env event (post.length + 1) node.pfd.revents
        ({ w with ctx := { w.ctx with walking_handlers := w.ctx.walking_handlers + 1 } }
          : Walk) with
    | none => rw [h2] at hrun; simp at hrun
    | some w3 =>
      rw [h2] at hrun
      simp only at hrun
      have h3 := dispatch_rw_idle henv hzero event node.pfd.revents _ pre node post hl1 hidle
        w3 h2
      obtain ⟨w3x, q1, q2, q3, -⟩ := dispatch_rw_quiet henv event node.pfd.revents
        ({ w with ctx := { w.ctx with walking_handlers := w.ctx.walking_handlers + 1 } }
          : Walk) pre node post hl
      rw [h2] at q1
      simp only [Option.some.injEq] at q1
      subst q1
      obtain ⟨w4, g1, -, -, -, -, g6⟩ := dispatch_sweep_split w3 pre
        (if rw_due node then clear_node node else node) post w.ctx.walking_handlers q2
        (by rw [q3])
      rw [g1] at hrun
      simp only [Option.some.injEq] at hrun
      subst hrun
      rw [g6, h3]

theorem dispatch_loop_idle {env : Env} (henv : no_mutation env)
    (hzero : ∀ t fd, env.WSAEnumNetworkEvents t fd = 0) (event : Int) :
    ∀ (post : List AioHandler) (w : Walk) (pre : List AioHandler),
      w.ctx.aio_handlers = pre ++ post →
      (∀ n ∈ post, notify_due env.get_handle event n → n.e = w.ctx.notifier) →
      (∀ n ∈ post, ¬ (rw_due n ∧ (n.pfd.revents &&& G_IO_IN ≠ 0 ∧ n.io_read ≠ 0 ∨
        n.pfd.revents &&& G_IO_OUT ≠ 0 ∧ n.io_write ≠ 0))) →
      ∀ r, dispatch_loop env event post.length w = some r → r.progress = w.progress := by
  intro post
  induction post with
  | nil =>
    intro w pre _ _ _ r hr
    simp only [List.length_nil, dispatch_loop, Option.some.injEq] at hr
    rw [← hr]
  | cons node post ih =>
    intro w pre hl hown hidle r hr
    obtain ⟨w1, h1, h2, -, h4, -⟩ := dispatch_node_quiet henv event w pre node post hl
    have hp := dispatch_node_idle henv hzero event w pre node post hl
      (hown node (List.mem_cons_self _ _)) (hidle node (List.mem_cons_self _ _)) w1 h1
    simp only [List.length_cons, dispatch_loop, h1] at hr
    rw [← hp]
    refine ih w1 (pre ++ quiet_node w.ctx.walking_handlers env.get_handle event node) h2
      (fun n hn hd => ?_) (fun n hn => hidle n (List.mem_cons_of_mem _ hn)) r hr
    rw [h4]
    exact hown n (List.mem_cons_of_mem _ hn) hd

theorem quiet_invocations_notify {h : Nat → Int} {event : Int} {slot : Nat}
    {node : AioHandler} {i : Invocation} (hi : i ∈ quiet_invocations h event slot node)
    (hk : i.kind = CbKind.notify) : notify_due h event node ∧ i.node = clear_node node := by
  unfold quiet_invocations at hi
  simp only [List.mem_append] at hi
  rcases hi with (hi | hi) | hi
  · split at hi
    · rename_i hc
      rw [List.mem_singleton.1 hi]; exact ⟨hc, rfl⟩
    · simp at hi
  · split at hi
    · rw [List.mem_singleton.1 hi] at hk; simp at hk
    · simp at hi
  · split at hi
    · rw [List.mem_singleton.1 hi] at hk; simp at hk
    · simp at hi

theorem quiet_trace_notify {h : Nat → Int} {event : Int} :
    ∀ {l : List AioHandler} {i : Invocation}, i ∈ quiet_trace h event l →
      i.kind = CbKind.notify → ∃ m ∈ l, notify_due h event m ∧ i.node = clear_node m := by
  intro l
  induction l with
  | nil => intro i hi; simp [quiet_trace] at hi
  | cons a l ih =>
    intro i hi hk
    simp only [quiet_trace, List.mem_append] at hi
    rcases hi with hi | hi
    · exact ⟨a, List.mem_cons_self _ _, quiet_invocations_notify hi hk⟩
    · obtain ⟨m, hm, h1⟩ := ih hi hk
      exact ⟨m, List.mem_cons_of_mem _ hm, h1⟩

theorem quiet_trace_has_notify {h : Nat → Int} {event : Int} :
    ∀ {l : List AioHandler} {m : AioHandler}, m ∈ l → notify_due h event m →
      ∃ i ∈ quiet_trace h event l, i.kind = CbKind.notify ∧ i.node = clear_node m := by
  intro l
  induction l with
  | nil => intro m hm; simp at hm
  | cons a l ih =>
    intro m hm hd
    rcases List.mem_cons.1 hm with rfl | hm
    · refine ⟨{ kind := CbKind.notify, slot := l.length + 1, node := clear_node m }, ?_,
        rfl, rfl⟩
      simp [quiet_trace, quiet_invocations, hd]
    · obtain ⟨i, hi, h1⟩ := ih hm hd
      exact ⟨i, by simp only [quiet_trace, List.mem_append]; exact Or.inr hi, h1⟩

theorem quiet_trace_has_rw {h : Nat → Int} {event : Int} :
    ∀ {l : List AioHandler} {m : AioHandler}, m ∈ l →
      rw_due m ∧ (m.pfd.revents &&& G_IO_IN ≠ 0 ∧ m.io_read ≠ 0 ∨
        m.pfd.revents &&& G_IO_OUT ≠ 0 ∧ m.io_write ≠ 0) →
      ∃ i ∈ quiet_trace h event l, i.kind ≠ CbKind.notify := by
  intro l
  induction l with
  | nil => intro m hm; simp at hm
  | cons a l ih =>
    intro m hm hd
    rcases List.mem_cons.1 hm with rfl | hm
    · rcases hd with ⟨hdue, hr | hw⟩
      · refine ⟨{ kind := CbKind.read, slot := l.length + 1, node := clear_node m }, ?_,
          by simp⟩
        simp only [quiet_trace, quiet_invocations, List.mem_append]
        exact Or.inl (Or.inl (Or.inr (by rw [if_pos ⟨hdue, hr⟩]; exact List.mem_singleton.2 rfl)))
      · refine ⟨{ kind := CbKind.write, slot := l.length + 1, node := clear_node m }, ?_,
          by simp⟩
        simp only [quiet_trace, quiet_invocations, List.mem_append]
        exact Or.inl (Or.inr (by rw [if_pos ⟨hdue, hw⟩]; exact List.mem_singleton.2 rfl))
    · obtain ⟨i, hi, h1⟩ := ih hm hd
      exact ⟨i, by simp only [quiet_trace, List.mem_append]; exact Or.inr hi, h1⟩

theorem quiet_invocations_notify_filter (h : Nat → Int) (event : Int) (slot : Nat)
    (n : AioHandler) :
    (quiet_invocations h event slot n).filter (fun i => decide (i.kind = CbKind.notify)) =
      if notify_due h event n then
        [{ kind := CbKind.notify, slot := slot, node := clear_node n }]
      else [] := by
  unfold quiet_invocations
  simp only [List.filter_append]
  have h2 : ∀ c : Prop, ∀ _ : Decidable c,
      (if c then [({ kind := CbKind.read, slot := slot, node := clear_node n } : Invocation)]
        else []).filter (fun i => decide (i.kind = CbKind.notify)) = [] := by
    intro c _
    split <;> simp
  have h3 : ∀ c : Prop, ∀ _ : Decidable c,
      (if c then [({ kind := CbKind.write, slot := slot, node := clear_node n } : Invocation)]
        else []).filter (fun i => decide (i.kind = CbKind.notify)) = [] := by
    intro c _
    split <;> simp
  rw [h2, h3]
  split <;> simp

theorem set_fd_handler_notify_me {h : Nat → Int} {ctx : AioContext} {fd : Int} {ext : Bool}
    {r w o : Nat} {ctx1 : AioContext}
    (hrun : aio_set_fd_handler h ctx fd ext r w o = some ctx1) :
    ctx1.notify_me = ctx.notify_me := by
  unfold aio_set_fd_handler at hrun
  cases hf : find_node (fd_match fd) ctx.aio_handlers with
  | none =>
    rw [hf] at hrun
    by_cases hrw : r = 0 ∧ w = 0
    · simp [hrw] at hrun
      subst hrun
      rfl
    · simp [hrw] at hrun
      subst hrun
      rfl
  | some s =>
    obtain ⟨pre, n, post⟩ := s
    rw [hf] at hrun
    by_cases hrw : r = 0 ∧ w = 0
    · by_cases hnot : n.io_notify = 0
      · by_cases hw : ctx.walking_handlers = 0
        · simp [hrw, hnot, hw] at hrun
          subst hrun
          rfl
        · simp [hrw, hnot, hw] at hrun
          subst hrun
          rfl
      · simp [hrw, hnot] at hrun
    · simp [hrw] at hrun
      subst hrun
      rfl

theorem set_event_notifier_notify_me {h : Nat → Int} {ctx : AioContext} {e : Nat}
    {ext : Bool} {f : Nat} {ctx1 : AioContext}
    (hrun : aio_set_event_notifier h ctx e ext f = some ctx1) :
    ctx1.notify_me = ctx.notify_me := by
  unfold aio_set_event_notifier at hrun
  cases hf : find_node (notifier_match e) ctx.aio_handlers with
  | none =>
    rw [hf] at hrun
    by_cases hz : f = 0
    · simp [hz] at hrun
      subst hrun
      rfl
    · simp [hz] at hrun
      subst hrun
      rfl
  | some s =>
    obtain ⟨pre, n, post⟩ := s
    rw [hf] at hrun
    by_cases hz : f = 0
    · by_cases hw : ctx.walking_handlers = 0
      · simp [hz, hw] at hrun
        subst hrun
        rfl
      · simp [hz, hw] at hrun
        subst hrun
        rfl
    · simp [hz] at hrun
      subst hrun
      rfl

theorem run_calls_notify_me {h : Nat → Int} :
    ∀ (calls : List RegCall) {ctx ctx1 : AioContext}, run_calls h ctx calls = some ctx1 →
      ctx1.notify_me = ctx.notify_me := by
  intro calls
  induction calls with
  | nil => intro ctx ctx1 hrun; simp [run_calls] at hrun; subst hrun; rfl
  | cons c cs ih =>
    intro ctx ctx1 hrun
    simp only [run_calls] at hrun
    cases hc : c.run h ctx with
    | none => rw [hc] at hrun; simp at hrun
    | some ctx2 =>
      rw [hc] at hrun
      have h1 : ctx2.notify_me = ctx.notify_me := by
        cases c with
        | set_fd_handler fd ext r w o => exact set_fd_handler_notify_me hc
        | set_event_notifier e ext f => exact set_event_notifier_notify_me hc
      exact (ih hrun).trans h1

theorem aio_prepare_notify_me (P : List WSAPOLLFD → Int × (Nat → Nat)) (locked : Bool)
    (ctx : AioContext) : (aio_prepare P locked ctx).2.notify_me = ctx.notify_me := by
  unfold aio_prepare
  simp only
  split
  · simp
  · split <;> simp

theorem notify_me_closed (env : Env) (m : Int) (slot : Nat) :
    StepClosed env slot fun w => w.ctx.notify_me = m := by
  refine ⟨?_, ?_, ?_, ?_⟩
  · intro w h1
    unfold clear_revents
    cases hn : node_at w.ctx.aio_handlers slot with
    | none => exact h1
    | some s => exact h1
  · intro w w1 inv pre post h1 _ _ hi
    obtain ⟨hr, -, -⟩ := invoke_eq_some hi
    rw [run_calls_notify_me _ hr]
    exact h1
  · intro w h; exact h
  · intro w eff h; exact h

theorem dispatch_loop_notify_me {env : Env} {event : Int} (m : Int) :
    ∀ (slot : Nat) {w r : Walk}, w.ctx.notify_me = m →
      dispatch_loop env event slot w = some r → r.ctx.notify_me = m := by
  intro slot
  induction slot with
  | zero =>
    intro w r h0 hrun
    simp only [dispatch_loop, Option.some.injEq] at hrun
    subst hrun
    exact h0
  | succ slot ih =>
    intro w r h0 hrun
    simp only [dispatch_loop] at hrun
    cases hn : dispatch_node env event (slot + 1) w with
    | none => rw [hn] at hrun; simp at hrun
    | some w1 =>
      rw [hn] at hrun
      refine ih ?_ hrun
      unfold dispatch_node at hn
      cases hna : node_at w.ctx.aio_handlers (slot + 1) with
      | none => rw [hna] at hn; simp at hn
      | some s =>
        obtain ⟨pre, node, post⟩ := s
        rw [hna] at hn
        simp only at hn
        cases hn1 : dispatch_notify env event (slot + 1) node.pfd.revents
            { w with ctx := { w.ctx with walking_handlers := w.ctx.walking_handlers + 1 } } with
        | none => rw [hn1] at hn; simp at hn
        | some w2 =>
          rw [hn1] at hn
          simp only at hn
          cases hn2 : dispatch_rw env event (slot + 1) node.pfd.revents w2 with
          | none => rw [hn2] at hn; simp at hn
          | some w3 =>
            rw [hn2] at hn
            simp only at hn
            have hcl := notify_me_closed env m (slot + 1)
            have hP1 := dispatch_notify_closed hcl (w :=
              { w with ctx := { w.ctx with walking_handlers := w.ctx.walking_handlers + 1 } })
              h0 hn1
            have hP2 := dispatch_rw_closed hcl hP1 hn2
            unfold dispatch_sweep at hn
            cases hn3 : node_at w3.ctx.aio_handlers (slot + 1) with
            | none => rw [hn3] at hn; simp at hn
            | some s3 =>
              obtain ⟨pre3, tmp, post3⟩ := s3
              rw [hn3] at hn
              simp only at hn
              split at hn
              · simp only [Option.some.injEq] at hn
                subst hn
                exact hP2
              · simp only [Option.some.injEq] at hn
                subst hn
                exact hP2

theorem aio_dispatch_handlers_notify_me {env : Env} {ctx : AioContext} {event : Int}
    {r : Walk} (hrun : aio_dispatch_handlers env ctx event = some r) :
    r.ctx.notify_me = ctx.notify_me :=
  dispatch_loop_notify_me ctx.notify_me ctx.aio_handlers.length
    (w := { ctx := ctx, progress := false, trace := [] }) rfl hrun

theorem walking_closed (env : Env) (c : Int) (slot : Nat) :
    StepClosed env slot fun w => w.ctx.walking_handlers = c := by
  refine ⟨?_, ?_, ?_, ?_⟩
  · intro w h1
    rw [clear_revents_walking]
    exact h1
  · intro w w1 inv pre post h1 _ _ hi
    obtain ⟨hr, -, -⟩ := invoke_eq_some hi
    rw [(run_calls_walking _ hr).1]
    exact h1
  · intro w h; exact h
  · intro w eff h; exact h

theorem dispatch_loop_walking {env : Env} {event : Int} (c : Int) :
    ∀ (slot : Nat) {w r : Walk}, w.ctx.walking_handlers = c →
      dispatch_loop env event slot w = some r → r.ctx.walking_handlers = c := by
  intro slot
  induction slot with
  | zero =>
    intro w r h0 hrun
    simp only [dispatch_loop, Option.some.injEq] at hrun
    subst hrun
    exact h0
  | succ slot ih =>
    intro w r h0 hrun
    simp only [dispatch_loop] at hrun
    cases hn : dispatch_node env event (slot + 1) w with
    | none => rw [hn] at hrun; simp at hrun
    | some w1 =>
      rw [hn] at hrun
      refine ih ?_ hrun
      unfold dispatch_node at hn
      cases hna : node_at w.ctx.aio_handlers (slot + 1) with
      | none => rw [hna] at hn; simp at hn
      | some s =>
        obtain ⟨pre, node, post⟩ := s
        rw [hna] at hn
        simp only at hn
        cases hn1 : dispatch_notify env event (slot + 1) node.pfd.revents
            { w with ctx := { w.ctx with walking_handlers := w.ctx.walking_handlers + 1 } } with
        | none => rw [hn1] at hn; simp at hn
        | some w2 =>
          rw [hn1] at hn
          simp only at hn
          cases hn2 : dispatch_rw env event (slot + 1) node.pfd.revents w2 with
          | none => rw [hn2] at hn; simp at hn
          | some w3 =>
            rw [hn2] at hn
            simp only at hn
            have hcl := walking_closed env (c + 1) (slot + 1)
            have hP1 := dispatch_notify_closed hcl (w :=
              { w with ctx := { w.ctx with walking_handlers := w.ctx.walking_handlers + 1 } })
              (by simp [h0]) hn1
            have hP2 := dispatch_rw_closed hcl hP1 hn2
            simp only at hP2
            unfold dispatch_sweep at hn
            cases hn3 : node_at w3.ctx.aio_handlers (slot + 1) with
            | none => rw [hn3] at hn; simp at hn
            | some s3 =>
              obtain ⟨pre3, tmp, post3⟩ := s3
              rw [hn3] at hn
              simp only at hn
              split at hn
              · simp only [Option.some.injEq] at hn
                subst hn
                simp [hP2]
              · simp only [Option.some.injEq] at hn
                subst hn
                simp [hP2]

theorem aio_dispatch_handlers_walking {env : Env} {ctx : AioContext} {event : Int}
    {r : Walk} (hrun : aio_dispatch_handlers env ctx event = some r) :
    r.ctx.walking_handlers = ctx.walking_handlers :=
  dispatch_loop_walking ctx.walking_handlers ctx.aio_handlers.length
    (w := { ctx := ctx, progress := false, trace := [] }) rfl hrun

/-! ## Logs and wait-sets -/

theorem log_ok_nil (capok : Prop) (bits : Nat) (nm0 : Int) (blocking0 prep : Bool) (init : List Int) :
    log_ok capok bits nm0 blocking0 prep init [] := by
  intro a e b h
  simp at h

theorem log_ok_snoc {capok : Prop} {bits : Nat} {nm0 : Int} {blocking0 prep : Bool} {init : List Int}
    {l : List PollEvent} {e : PollEvent} (h : log_ok capok bits nm0 blocking0 prep init l)
    (he : op_ok capok bits nm0 blocking0 prep init l e) :
    log_ok capok bits nm0 blocking0 prep init (l ++ [e]) := by
  intro a x b hab
  rcases List.eq_nil_or_concat b with rfl | ⟨b1, y, rfl⟩
  · have h1 := List.append_inj' hab (by simp)
    obtain ⟨h2, h3⟩ := h1
    simp only [List.cons.injEq, and_true] at h3
    subst h2; subst h3
    exact he
  · have h1 : l ++ [e] = (a ++ x :: b1) ++ [y] := by
      rw [hab]; simp
    have h2 := List.append_inj' h1 (by simp)
    exact h a x b1 h2.1

theorem wait_count_snoc (l : List PollEvent) (e : PollEvent) :
    wait_count (l ++ [e]) = wait_count l + (if e.op.is_wait = true then 1 else 0) := by
  unfold wait_count
  rw [List.filter_append, List.length_append]
  by_cases h : e.op.is_wait = true <;> simp [List.filter, h]

theorem op_count_snoc (p : PollOp) (l : List PollEvent) (e : PollEvent) :
    op_count p (l ++ [e]) = op_count p l + (if e.op = p then 1 else 0) := by
  unfold op_count
  rw [List.filter_append, List.length_append]
  by_cases h : e.op = p <;> simp [List.filter, h]

theorem signaled_snoc (l : List PollEvent) (e : PollEvent) :
    signaled (l ++ [e]) = signaled l ++
      (match e.op with
        | PollOp.aio_dispatch_handlers (some h) => [h]
        | _ => []) := by
  unfold signaled
  rw [List.filterMap_append]
  congr 1
  cases e with
  | mk op nm lk =>
    cases op <;> simp [List.filterMap]
    rename_i ev
    cases ev <;> simp

theorem wait_count_nil : wait_count [] = 0 := rfl

theorem wait_count_append (l m : List PollEvent) :
    wait_count (l ++ m) = wait_count l + wait_count m := by
  unfold wait_count
  rw [List.filter_append, List.length_append]

theorem wait_count_cons (e : PollEvent) (m : List PollEvent) :
    wait_count (e :: m) = (if e.op.is_wait = true then 1 else 0) + wait_count m := by
  unfold wait_count
  by_cases h : e.op.is_wait = true <;> simp [List.filter, h, Nat.add_comm]

theorem op_count_nil (p : PollOp) : op_count p [] = 0 := rfl

theorem op_count_append (p : PollOp) (l m : List PollEvent) :
    op_count p (l ++ m) = op_count p l + op_count p m := by
  unfold op_count
  rw [List.filter_append, List.length_append]

theorem op_count_cons (p : PollOp) (e : PollEvent) (m : List PollEvent) :
    op_count p (e :: m) = (if e.op = p then 1 else 0) + op_count p m := by
  unfold op_count
  by_cases h : e.op = p <;> simp [List.filter, h, Nat.add_comm]

theorem signaled_nil : signaled [] = [] := rfl

theorem signaled_append (l m : List PollEvent) :
    signaled (l ++ m) = signaled l ++ signaled m := by
  unfold signaled
  rw [List.filterMap_append]

theorem signaled_cons (e : PollEvent) (m : List PollEvent) :
    signaled (e :: m) =
      (match e.op with
        | PollOp.aio_dispatch_handlers (some h) => [h]
        | _ => []) ++ signaled m := by
  have h := signaled_snoc [] e
  rw [show e :: m = ([] ++ [e]) ++ m by simp, signaled_append, h]
  simp [signaled_nil]

theorem last_wait_here (l : List PollEvent) (w : PollEvent) {c : Int} {evs : List Int}
    {t : Int} {r : Nat} (hw : w.op = PollOp.WaitForMultipleObjects c evs t r) :
    last_wait c evs r (l ++ [w]) :=
  ⟨l, w, [], t, rfl, hw, rfl, rfl⟩

theorem last_wait_snoc {l : List PollEvent} {c : Int} {evs : List Int} {r : Nat}
    (h : last_wait c evs r l) (e : PollEvent) (h1 : wait_count [e] = 0)
    (h2 : signaled [e] = []) : last_wait c evs r (l ++ [e]) := by
  obtain ⟨a1, w, a2, t, g1, g2, g3, g4⟩ := h
  refine ⟨a1, w, a2 ++ [e], t, by rw [g1]; simp, g2, ?_, ?_⟩
  · rw [wait_count_append, g3, h1]
  · rw [signaled_append, g4, h2]; rfl

theorem take_succ_getD (es : List Int) (k : Nat) (hk : k < es.length) :
    es.take (k + 1) = es.take k ++ [es.getD k 0] := by
  rw [List.take_succ]
  congr 1
  simp [List.getD, List.getElem?_eq_getElem hk]

/-- Taking slot `i` out of the first `c` slots by `events[i] = events[--c]`
leaves the other `c - 1` handles. -/
theorem swap_remove_perm (events : List Int) : ∀ (c i : Nat), c ≤ events.length → i < c →
    ((events.set i (events.getD (c - 1) 0)).take (c - 1) ++ [events.getD i 0]).Perm
      (events.take c) := by
  induction events with
  | nil => intro c i hc hi; simp at hc; omega
  | cons e es ih =>
    intro c i hc hi
    cases c with
    | zero => omega
    | succ c1 =>
      simp only [List.length_cons, Nat.add_le_add_iff_right] at hc
      cases i with
      | zero =>
        simp only [List.set_cons_zero, Nat.add_sub_cancel, List.getD_cons_zero,
          List.take_succ_cons]
        cases c1 with
        | zero => simp
        | succ c2 =>
          simp only [List.getD_cons_succ, List.take_succ_cons]
          rw [take_succ_getD es c2 (by omega)]
          have h1 : (es.getD c2 0 :: List.take c2 es ++ [e]).Perm
              (e :: (es.getD c2 0 :: List.take c2 es)) :=
            List.perm_append_singleton e (es.getD c2 0 :: List.take c2 es)
          refine h1.trans (List.Perm.cons e ?_)
          exact (List.perm_append_singleton _ _).symm
      | succ i1 =>
        cases c1 with
        | zero => omega
        | succ c2 =>
          have h := ih (c2 + 1) i1 hc (by omega)
          simp only [Nat.add_sub_cancel] at h
          simp only [List.set_cons_succ, Nat.add_sub_cancel, List.getD_cons_succ,
            List.take_succ_cons, List.cons_append]
          exact List.Perm.cons e h

/-! ## The values of the suppress counter -/

theorem notify_me_cases (bits : Nat) (nm0 : Int) (blocking0 f : Bool) :
    (if f = true then notify_me_raised bits nm0 blocking0
      else notify_me_settled bits nm0 blocking0) = nm0 ∨
    (blocking0 = true ∧
      ((if f = true then notify_me_raised bits nm0 blocking0
          else notify_me_settled bits nm0 blocking0) = notify_me_raised bits nm0 blocking0 ∨
        (if f = true then notify_me_raised bits nm0 blocking0
          else notify_me_settled bits nm0 blocking0) =
          notify_me_settled bits nm0 blocking0)) := by
  cases blocking0 <;> cases f <;> simp [notify_me_raised, notify_me_settled]

theorem notify_me_settled_ok (bits : Nat) (nm0 : Int) (blocking0 : Bool) :
    notify_me_settled bits nm0 blocking0 = nm0 ∨
    (blocking0 = true ∧
      (notify_me_settled bits nm0 blocking0 = notify_me_raised bits nm0 blocking0 ∨
        notify_me_settled bits nm0 blocking0 = notify_me_settled bits nm0 blocking0)) := by
  cases blocking0 <;> simp [notify_me_raised, notify_me_settled]

/-- A counter within its range whose addition does not wrap is raised by
exactly 2 and comes back to its value. -/
theorem notify_me_no_wrap (bits : Nat) (v : Int) (h0 : 0 ≤ v)
    (h1 : v + 2 < ((2 ^ bits : Nat) : Int)) :
    atomic_add bits v 2 = v + 2 ∧ atomic_sub bits (atomic_add bits v 2) 2 = v := by
  have ha : atomic_add bits v 2 = v + 2 := by
    unfold atomic_add
    exact Int.emod_eq_of_lt (by omega) h1
  refine ⟨ha, ?_⟩
  rw [ha]
  unfold atomic_sub
  rw [show v + 2 - 2 = v by omega]
  exact Int.emod_eq_of_lt h0 (by omega)

/-! ## One execution of the loop body of `aio_poll` -/

theorem poll_timeout_ne {pe : PollEnv} {s : PollState} (h : poll_timeout pe s ≠ 0) :
    s.blocking = true ∧ s.have_select_revents = false := by
  unfold poll_timeout at h
  by_cases hc : s.blocking = true ∧ s.have_select_revents = false
  · exact hc
  · rw [if_neg hc] at h
    exact absurd rfl h

theorem wait_op_ok {capok : Prop} {bits : Nat} {nm0 wh0 : Int} {blocking0 prep : Bool}
    {init : List Int} (pe : PollEnv) {s : PollState} (hinv : PollInv capok bits nm0 wh0 blocking0 prep init s)
    (hpos : 0 < s.count) (a : List PollEvent) (ret : Nat) (lk : Int)
    (hwc : wait_count a = wait_count s.log) (hsig : signaled a = signaled s.log)
    (hlk : lk = if poll_timeout pe s = 0 then 1 else 0) :
    op_ok capok bits nm0 blocking0 prep init a
      { op := PollOp.WaitForMultipleObjects s.count s.wait_set (poll_timeout pe s) ret,
        notify_me := s.ctx.notify_me, lock := lk } := by
  have hnm := hinv.notify_me
  refine ⟨?_, ?_, ?_, hlk, hpos, ?_, ?_⟩
  · simp only
    rw [hnm]
    exact notify_me_cases bits nm0 blocking0 s.first
  · intro hw
    rw [hwc] at hw
    by_contra ht
    have hb := (poll_timeout_ne ht).1
    cases hf : s.first with
    | true => have := (hinv.at_first hf).2.2; omega
    | false => rw [(hinv.later hf).1] at hb; exact absurd hb (by decide)
  · intro ht
    obtain ⟨hb, hh⟩ := poll_timeout_ne ht
    cases hf : s.first with
    | true =>
      obtain ⟨h1, h2, -⟩ := hinv.at_first hf
      exact ⟨by rw [← h1]; exact hb, by rw [← h2]; exact hh⟩
    | false => rw [(hinv.later hf).1] at hb; exact absurd hb (by decide)
  · intro hw
    rw [hwc] at hw
    simp only
    rw [hnm]
    cases hf : s.first with
    | true => simp
    | false => have := (hinv.later hf).2.2; omega
  · intro hcap
    have h1 := hinv.count_hi hcap
    have h2 := hinv.perm hcap
    have h3 := hinv.iters hcap
    refine ⟨?_, ?_, ?_⟩
    · unfold PollState.wait_set
      rw [List.length_take]
      omega
    · rw [hsig]; exact h2
    · rw [hwc]
      have : 1 ≤ s.count.toNat := by omega
      cases hf : s.first with
      | true => have := (hinv.at_first hf).2.2; omega
      | false => rw [hf] at h3; simp at h3; omega

theorem poll_waited {capok : Prop} {nm0 wh0 : Int} {blocking0 prep : Bool}
    {init : List Int} (pe : PollEnv) {s : PollState}
    (hinv : PollInv capok pe.notify_me_bits nm0 wh0 blocking0 prep init s)
    (hpos : 0 < s.count) :
    ∃ s3, poll_sub pe (poll_wait pe (poll_timeout pe s)
        (poll_release (poll_timeout pe s) s)).2 = some s3 ∧
      PollWaited capok pe.notify_me_bits nm0 wh0 blocking0 prep init
        (poll_wait pe (poll_timeout pe s) (poll_release (poll_timeout pe s) s)).1 s
        (poll_acquire (poll_timeout pe s) s3) := by
  have hnm := hinv.notify_me
  have hlock := hinv.lock
  have hadds := hinv.adds
  have hsubs := hinv.subs
  cases hb : s.blocking with
  | true =>
    have hf : s.first = true := by
      cases hf : s.first with
      | true => rfl
      | false => rw [(hinv.later hf).1] at hb; exact absurd hb (by decide)
    obtain ⟨hb0, -, hwc⟩ := hinv.at_first hf
    rw [hb] at hb0
    have hb0 : blocking0 = true := hb0.symm
    rw [hf] at hnm
    simp only [if_true] at hnm
    have hsub : atomic_sub pe.notify_me_bits s.ctx.notify_me 2 =
        notify_me_settled pe.notify_me_bits nm0 blocking0 := by
      rw [hnm]
      simp [notify_me_raised, notify_me_settled, hb0]
    rw [if_neg (by simp [hf])] at hsubs
    by_cases ht : poll_timeout pe s = 0
    · have hw := wait_op_ok pe hinv hpos s.log
        (pe.WaitForMultipleObjects s.iter s.count s.events (poll_timeout pe s)) s.lock
        rfl rfl (by rw [if_pos ht]; exact hlock)
      simp only [ht, poll_release, poll_wait, poll_sub, poll_acquire, PollState.record,
        ne_eq, not_true_eq_false, if_false, hb, hf, if_true] at hw ⊢
      refine ⟨_, rfl, ?_⟩
      constructor
      · refine log_ok_snoc (log_ok_snoc hinv.log hw) ?_
        exact ⟨Or.inr ⟨hb0, Or.inr hsub⟩, hb0, hsub, s.log, _, rfl, rfl, hwc⟩
      · exact hinv.walking
      · exact hlock
      · exact hsub
      · exact hf.symm
      · rfl
      · rfl
      · rfl
      · simp [wait_count_append, wait_count_cons, wait_count_nil, PollOp.is_wait, hinv.iter_eq]
      · simp [wait_count_append, wait_count_cons, wait_count_nil, PollOp.is_wait]
      · simp [op_count_append, op_count_cons, op_count_nil, hadds]
      · simp [op_count_append, op_count_cons, op_count_nil, hsubs, hb0]
      · simp [signaled_append, signaled_cons, signaled_nil]
      · exact last_wait_snoc (last_wait_here s.log _ rfl) _
          (by simp [wait_count_cons, wait_count_nil, PollOp.is_wait])
          (by simp [signaled_cons, signaled_nil])
    · have hw := wait_op_ok pe hinv hpos
        (s.log ++ [{ op := PollOp.aio_context_release, notify_me := s.ctx.notify_me,
                     lock := s.lock - 1 }])
        (pe.WaitForMultipleObjects s.iter s.count s.events (poll_timeout pe s)) (s.lock - 1)
        (by simp [wait_count_append, wait_count_cons, wait_count_nil, PollOp.is_wait])
        (by simp [signaled_append, signaled_cons, signaled_nil])
        (by rw [if_neg ht, hlock]; rfl)
      simp only [poll_release, poll_wait, poll_sub, poll_acquire, PollState.record,
        ne_eq, ht, not_false_eq_true, if_true, hb, hf] at hw ⊢
      refine ⟨_, rfl, ?_⟩
      constructor
      · refine log_ok_snoc (log_ok_snoc (log_ok_snoc (log_ok_snoc hinv.log ?_) hw) ?_) ?_
        · exact ⟨Or.inr ⟨hb0, Or.inl hnm⟩, trivial⟩
        · refine ⟨Or.inr ⟨hb0, Or.inr hsub⟩, hb0, hsub, _, _, rfl, rfl, ?_⟩
          simp [wait_count_append, wait_count_cons, wait_count_nil, PollOp.is_wait, hwc]
        · exact ⟨Or.inr ⟨hb0, Or.inr hsub⟩, trivial⟩
      · exact hinv.walking
      · simp only; omega
      · exact hsub
      · exact hf.symm
      · rfl
      · rfl
      · rfl
      · simp [wait_count_append, wait_count_cons, wait_count_nil, PollOp.is_wait, hinv.iter_eq]
      · simp [wait_count_append, wait_count_cons, wait_count_nil, PollOp.is_wait]
      · simp [op_count_append, op_count_cons, op_count_nil, hadds]
      · simp [op_count_append, op_count_cons, op_count_nil, hsubs, hb0]
      · simp [signaled_append, signaled_cons, signaled_nil]
      · exact last_wait_snoc (last_wait_snoc (last_wait_here _ _ rfl) _
            (by simp [wait_count_cons, wait_count_nil, PollOp.is_wait])
            (by simp [signaled_cons, signaled_nil])) _
          (by simp [wait_count_cons, wait_count_nil, PollOp.is_wait])
          (by simp [signaled_cons, signaled_nil])
  | false =>
    have ht : poll_timeout pe s = 0 := by
      unfold poll_timeout
      rw [if_neg (by simp [hb])]
    have hw := wait_op_ok pe hinv hpos s.log
      (pe.WaitForMultipleObjects s.iter s.count s.events (poll_timeout pe s)) s.lock
      rfl rfl (by rw [if_pos ht]; exact hlock)
    simp only [ht, poll_release, poll_wait, poll_sub, poll_acquire, PollState.record,
      ne_eq, not_true_eq_false, if_false, hb, Bool.false_eq_true] at hw ⊢
    refine ⟨_, rfl, ?_⟩
    have hnb : ¬ (s.first = true ∧ blocking0 = true) := by
      rintro ⟨hf, hb0⟩
      have := (hinv.at_first hf).1
      rw [hb, hb0] at this
      exact absurd this (by decide)
    have hset : s.ctx.notify_me = notify_me_settled pe.notify_me_bits nm0 blocking0 := by
      rw [hnm]
      cases hf : s.first with
      | false => simp
      | true =>
        have hb0 : blocking0 = false := by
          cases h0 : blocking0 with
          | false => rfl
          | true => exact absurd ⟨hf, h0⟩ hnb
        simp [notify_me_raised, notify_me_settled, hb0]
    constructor
    · exact log_ok_snoc hinv.log hw
    · exact hinv.walking
    · exact hlock
    · exact hset
    · rfl
    · rfl
    · rfl
    · rfl
    · simp [wait_count_append, wait_count_cons, wait_count_nil, PollOp.is_wait, hinv.iter_eq]
    · simp [wait_count_append, wait_count_cons, wait_count_nil, PollOp.is_wait]
    · simp [op_count_append, op_count_cons, op_count_nil, hadds]
    · simp only [op_count_append, op_count_cons, op_count_nil, hsubs]
      cases hf : s.first with
      | true =>
        have hb0 : blocking0 = false := by
          cases h0 : blocking0 with
          | false => rfl
          | true => exact absurd ⟨hf, h0⟩ hnb
        simp [hb0]
      | false => simp
    · simp [signaled_append, signaled_cons, signaled_nil]
    · exact last_wait_here s.log _ rfl

theorem lock_op_ok {capok : Prop} {bits : Nat} {nm0 : Int} {blocking0 prep : Bool}
    {init : List Int} (a : List PollEvent) (op : PollOp)
    (hop : op = PollOp.aio_notify_accept ∨ op = PollOp.aio_bh_poll ∨
      op = PollOp.timerlistgroup_run_timers ∨ op = PollOp.aio_context_acquire ∨
      op = PollOp.aio_context_release) (lk : Int)
    (hlk : op ≠ PollOp.aio_context_acquire → op ≠ PollOp.aio_context_release → lk = 1) :
    op_ok capok bits nm0 blocking0 prep init a
      { op := op, notify_me := notify_me_settled bits nm0 blocking0, lock := lk } := by
  refine ⟨notify_me_settled_ok bits nm0 blocking0, ?_⟩
  rcases hop with rfl | rfl | rfl | rfl | rfl
  · exact hlk (by simp) (by simp)
  · exact hlk (by simp) (by simp)
  · exact hlk (by simp) (by simp)
  · trivial
  · trivial

theorem poll_first_mid {capok : Prop} {bits : Nat} {nm0 wh0 : Int} {blocking0 prep : Bool}
    {init : List Int} (pe : PollEnv) {ret : Nat} {s s4 : PollState}
    (hinv : PollInv capok bits nm0 wh0 blocking0 prep init s) (hpos : 0 < s.count)
    (hw : PollWaited capok bits nm0 wh0 blocking0 prep init ret s s4) :
    (∀ s5, poll_first pe s4 = some s5 →
      PollMid capok bits nm0 wh0 blocking0 prep init ret s5 ∧
        wait_count s5.log = wait_count s.log + 1) ∧
    (poll_first pe s4 = none →
      PollEnd capok bits nm0 blocking0 prep init
        ((s4.record PollOp.aio_notify_accept).record PollOp.aio_bh_poll)) := by
  have hlog2 : log_ok capok bits nm0 blocking0 prep init
      ((s4.record PollOp.aio_notify_accept).record PollOp.aio_bh_poll).log := by
    simp only [PollState.record, hw.notify_me, hw.lock]
    exact log_ok_snoc (log_ok_snoc hw.log (lock_op_ok _ _ (Or.inl rfl) 1 (fun _ _ => rfl)))
      (lock_op_ok _ _ (Or.inr (Or.inl rfl)) 1 (fun _ _ => rfl))
  have hwc2 : wait_count ((s4.record PollOp.aio_notify_accept).record PollOp.aio_bh_poll).log
      = wait_count s.log + 1 := by
    simp [PollState.record, wait_count_append, wait_count_cons, wait_count_nil, PollOp.is_wait,
      hw.waits]
  have hadd2 : op_count PollOp.atomic_add
      ((s4.record PollOp.aio_notify_accept).record PollOp.aio_bh_poll).log
      = if blocking0 = true then 1 else 0 := by
    simp [PollState.record, op_count_append, op_count_cons, op_count_nil, hw.adds]
  have hsub2 : op_count PollOp.atomic_sub
      ((s4.record PollOp.aio_notify_accept).record PollOp.aio_bh_poll).log
      = if blocking0 = true then 1 else 0 := by
    simp [PollState.record, op_count_append, op_count_cons, op_count_nil, hw.subs]
  have hsig2 : signaled ((s4.record PollOp.aio_notify_accept).record PollOp.aio_bh_poll).log
      = signaled s.log := by
    simp [PollState.record, signaled_append, signaled_cons, signaled_nil, hw.sig]
  have hlast2 : last_wait s.count s.wait_set ret
      ((s4.record PollOp.aio_notify_accept).record PollOp.aio_bh_poll).log := by
    simp only [PollState.record]
    exact last_wait_snoc (last_wait_snoc hw.last_wait _
        (by simp [wait_count_cons, wait_count_nil, PollOp.is_wait])
        (by simp [signaled_cons, signaled_nil])) _
      (by simp [wait_count_cons, wait_count_nil, PollOp.is_wait])
      (by simp [signaled_cons, signaled_nil])
  have hset : ∀ x : PollState, x.events = s.events → x.count = s.count →
      x.wait_set = s.wait_set := by
    intro x h1 h2
    unfold PollState.wait_set
    rw [h1, h2]
  have hbound : capok → wait_count s.log + 1 + s.count.toNat ≤ init.length + 2 ∧
      (s.have_select_revents = true →
        wait_count s.log + 1 + s.count.toNat ≤ init.length + 1) := by
    intro hcap
    have h3 := hinv.iters hcap
    cases hf : s.first with
    | true =>
      rw [hf] at h3
      simp only [if_true] at h3
      exact ⟨by omega, fun _ => by omega⟩
    | false =>
      rw [hf] at h3
      simp only [Bool.false_eq_true, if_false] at h3
      refine ⟨by omega, fun hh => ?_⟩
      rw [(hinv.later hf).2.1] at hh
      exact absurd hh (by decide)
  have hhsr : s.have_select_revents = true → wait_count s.log + 1 = 1 ∧ prep = true := by
    intro hh
    cases hf : s.first with
    | true =>
      obtain ⟨-, h2, h3⟩ := hinv.at_first hf
      exact ⟨by omega, by rw [← h2]; exact hh⟩
    | false =>
      rw [(hinv.later hf).2.1] at hh
      exact absurd hh (by decide)
  constructor
  · intro s5 h5
    unfold poll_first at h5
    by_cases hf : s4.first = true
    · rw [if_pos hf] at h5
      simp only at h5
      cases hr : run_calls pe.get_handle
          ((s4.record PollOp.aio_notify_accept).record PollOp.aio_bh_poll).ctx
          (pe.aio_bh_poll
            ((s4.record PollOp.aio_notify_accept).record PollOp.aio_bh_poll).ctx).2 with
      | none => rw [hr] at h5; simp at h5
      | some ctx1 =>
        rw [hr] at h5
        simp only [Option.some.injEq] at h5
        subst h5
        have hc1 := run_calls_walking _ hr
        have hc2 := run_calls_notify_me _ hr
        refine ⟨?_, hwc2⟩
        constructor
        · exact hlog2
        · simp only; rw [hc1.1]; exact hw.walking
        · exact hw.lock
        · simp only; rw [hc2]; exact hw.notify_me
        · rfl
        · intro hh
          have hh1 : s.have_select_revents = true := by rw [← hw.hsr]; exact hh
          simp only
          rw [hwc2]
          exact hhsr hh1
        · simp only
          rw [hwc2]
          simp [PollState.record, hw.iter_eq, hw.waits]
        · exact hadd2
        · exact hsub2
        · simp only [PollState.record]; rw [hw.count]; exact hpos
        · have := hset
            { (s4.record PollOp.aio_notify_accept).record PollOp.aio_bh_poll with
              ctx := ctx1,
              progress := ((s4.record PollOp.aio_notify_accept).record
                PollOp.aio_bh_poll).progress ||
                (pe.aio_bh_poll ((s4.record PollOp.aio_notify_accept).record
                  PollOp.aio_bh_poll).ctx).1,
              first := false } hw.events hw.count
          rw [this]
          simp only [PollState.record]
          rw [hw.count]
          exact hlast2
        · intro hcap
          simp only [PollState.record]
          rw [hw.count, hw.events]
          exact hinv.count_hi hcap
        · intro hcap
          simp only [PollState.record]
          rw [hw.count]
          exact hinv.count_dword hcap
        · intro hcap
          have := hset
            { (s4.record PollOp.aio_notify_accept).record PollOp.aio_bh_poll with
              ctx := ctx1,
              progress := ((s4.record PollOp.aio_notify_accept).record
                PollOp.aio_bh_poll).progress ||
                (pe.aio_bh_poll ((s4.record PollOp.aio_notify_accept).record
                  PollOp.aio_bh_poll).ctx).1,
              first := false } hw.events hw.count
          rw [this]
          simp only
          rw [hsig2]
          exact hinv.perm hcap
        · intro hcap
          simp only
          rw [hwc2]
          simp only [PollState.record]
          rw [hw.count, hw.hsr]
          exact hbound hcap
    · rw [if_neg hf] at h5
      simp only [Option.some.injEq] at h5
      subst h5
      refine ⟨?_, hw.waits⟩
      constructor
      · exact hw.log
      · exact hw.walking
      · exact hw.lock
      · exact hw.notify_me
      · simpa using hf
      · intro hh
        rw [hw.hsr] at hh
        rw [hw.waits]
        exact hhsr hh
      · exact hw.iter_eq
      · exact hw.adds
      · exact hw.subs
      · rw [hw.count]; exact hpos
      · rw [hset s4 hw.events hw.count, hw.count]; exact hw.last_wait
      · intro hcap; rw [hw.count, hw.events]; exact hinv.count_hi hcap
      · intro hcap; rw [hw.count]; exact hinv.count_dword hcap
      · intro hcap; rw [hset s4 hw.events hw.count, hw.sig]; exact hinv.perm hcap
      · intro hcap; rw [hw.waits, hw.count, hw.hsr]; exact hbound hcap
  · intro _
    constructor
    · exact hlog2
    · exact hadd2
    · rw [hsub2]; split <;> omega
    · intro hcap
      simp only [PollState.record]
      rw [hw.count]
      exact hinv.count_lo hcap
    · intro hcap
      rw [hset ((s4.record PollOp.aio_notify_accept).record PollOp.aio_bh_poll)
        hw.events hw.count, hsig2]
      exact hinv.perm hcap
    · intro hcap
      rw [hwc2]
      have := (hbound hcap).1
      have : 1 ≤ s.count.toNat := by omega
      omega

theorem poll_dispatch_ok {capok : Prop} {bits : Nat} {nm0 wh0 : Int} {blocking0 prep : Bool}
    {init : List Int} (pe : PollEnv) (ev : Option Int) (wc : Nat) {s : PollState}
    (hlog : log_ok capok bits nm0 blocking0 prep init s.log)
    (hop : op_ok capok bits nm0 blocking0 prep init s.log
      { op := PollOp.aio_dispatch_handlers ev,
        notify_me := notify_me_settled bits nm0 blocking0, lock := 1 })
    (hwalk : s.ctx.walking_handlers = wh0) (hlock : s.lock = 1)
    (hnm : s.ctx.notify_me = notify_me_settled bits nm0 blocking0) (hfirst : s.first = false)
    (hiter : s.iter = wait_count s.log) (hwc : wait_count s.log = wc + 1)
    (hadds : op_count PollOp.atomic_add s.log = if blocking0 = true then 1 else 0)
    (hsubs : op_count PollOp.atomic_sub s.log = if blocking0 = true then 1 else 0)
    (hcnt : capok → 0 ≤ s.count ∧ s.count.toNat ≤ s.events.length ∧ s.count < 4294967296 ∧
      (s.wait_set ++ (signaled s.log ++ ev.toList)).Perm
        init ∧
      wait_count s.log + s.count.toNat ≤ init.length + 1) :
    step_ok capok bits nm0 wh0 blocking0 prep init wc (poll_dispatch pe ev s) := by
  have hlog1 : log_ok capok bits nm0 blocking0 prep init
      (s.log ++ [{ op := PollOp.aio_dispatch_handlers ev,
                   notify_me := notify_me_settled bits nm0 blocking0, lock := 1 }]) :=
    log_ok_snoc hlog hop
  have hwc1 : wait_count
      (s.log ++ [{ op := PollOp.aio_dispatch_handlers ev,
                   notify_me := notify_me_settled bits nm0 blocking0, lock := 1 }])
      = wc + 1 := by
    simp [wait_count_append, wait_count_cons, wait_count_nil, PollOp.is_wait, hwc]
  have hadd1 : op_count PollOp.atomic_add
      (s.log ++ [{ op := PollOp.aio_dispatch_handlers ev,
                   notify_me := notify_me_settled bits nm0 blocking0, lock := 1 }])
      = if blocking0 = true then 1 else 0 := by
    simp [op_count_append, op_count_cons, op_count_nil, hadds]
  have hsub1 : op_count PollOp.atomic_sub
      (s.log ++ [{ op := PollOp.aio_dispatch_handlers ev,
                   notify_me := notify_me_settled bits nm0 blocking0, lock := 1 }])
      = if blocking0 = true then 1 else 0 := by
    simp [op_count_append, op_count_cons, op_count_nil, hsubs]
  have hsig1 : signaled
      (s.log ++ [{ op := PollOp.aio_dispatch_handlers ev,
                   notify_me := notify_me_settled bits nm0 blocking0, lock := 1 }])
      = signaled s.log ++ ev.toList := by
    rw [signaled_append, signaled_cons, signaled_nil]
    cases ev <;> simp
  unfold poll_dispatch
  simp only [PollState.record, hnm, hlock]
  cases hr : aio_dispatch_handlers (pass_env pe s.iter) s.ctx (ev.getD 0) with
  | none =>
    simp only [step_ok]
    refine ⟨by simp, ?_⟩
    constructor
    · exact hlog1
    · exact hadd1
    · simp only; rw [hsub1]; split <;> omega
    · intro hcap; exact (hcnt hcap).1
    · intro hcap
      simp only [PollState.wait_set]
      rw [hsig1]
      exact (hcnt hcap).2.2.2.1
    · intro hcap
      simp only
      rw [hwc1]
      have := (hcnt hcap).2.2.2.2
      omega
  | some w =>
    simp only [step_ok]
    refine ⟨?_, hfirst, hwc1⟩
    constructor
    · exact hlog1
    · simp only; rw [aio_dispatch_handlers_walking hr]; exact hwalk
    · rfl
    · simp only [hfirst, Bool.false_eq_true, false_and, if_false, add_zero]
      rw [aio_dispatch_handlers_notify_me hr]; exact hnm
    · intro h; rw [hfirst] at h; exact absurd h (by decide)
    · intro _
      exact ⟨rfl, rfl, by simp only; rw [hwc1]; omega⟩
    · simp only; rw [hwc1, hiter, hwc]
    · exact hadd1
    · simp only [hfirst, and_true]; exact hsub1
    · intro hcap; exact (hcnt hcap).1
    · intro hcap; exact (hcnt hcap).2.1
    · intro hcap; exact (hcnt hcap).2.2.1
    · intro hcap
      simp only [PollState.wait_set]
      rw [hsig1]
      exact (hcnt hcap).2.2.2.1
    · intro hcap
      simp only [hfirst, Bool.false_eq_true, if_false]
      rw [hwc1]
      have := (hcnt hcap).2.2.2.2
      omega

theorem getD_take (l : List Int) (c i : Nat) (hi : i < c) :
    (l.take c).getD i 0 = l.getD i 0 := by
  simp [List.getD, List.getElem?_take, hi]

theorem poll_select_ok {capok : Prop} {bits : Nat} {nm0 wh0 : Int} {blocking0 prep : Bool}
    {init : List Int} (pe : PollEnv) (ret : Nat) (wc : Nat) {s : PollState}
    (hmid : PollMid capok bits nm0 wh0 blocking0 prep init ret s)
    (hwc : wait_count s.log = wc + 1) :
    step_ok capok bits nm0 wh0 blocking0 prep init wc (poll_select pe ret s) := by
  have hpos := hmid.pos
  obtain ⟨a1, w, a2, t, hl1, hl2, hl3, hl4⟩ := hmid.last_wait
  unfold poll_select
  by_cases hsig : is_signaled ret s.count
  · rw [if_pos hsig]
    simp only
    have hidx : capok → ret % 4294967296 < s.count.toNat ∧ s.count.toNat ≤ s.events.length := by
      intro hcap
      have h1 := hmid.count_dword hcap
      have h2 := hmid.count_hi hcap
      unfold is_signaled at hsig
      rw [Int.emod_eq_of_lt (by omega) h1] at hsig
      exact ⟨hsig, h2⟩
    refine poll_dispatch_ok pe _ wc hmid.log ?_ hmid.walking hmid.lock hmid.notify_me hmid.first
      hmid.iter_eq hwc hmid.adds hmid.subs ?_
    · refine ⟨notify_me_settled_ok _ _ _, rfl, fun h => by simp at h, a1, w, a2, s.count, s.wait_set, t, ret,
        hl1, hl2, hl3, fun _ hcap => ?_, fun h => absurd hsig h⟩
      unfold PollState.wait_set
      rw [getD_take _ _ _ (hidx hcap).1]
    · intro hcap
      obtain ⟨hi1, hi2⟩ := hidx hcap
      have h1 := hmid.count_dword hcap
      have hsub : (s.count - 1).toNat = s.count.toNat - 1 := by omega
      refine ⟨by simp only; omega, by simp only [List.length_set]; omega, by simp only; omega,
        ?_, ?_⟩
      · simp only [PollState.wait_set, Option.toList]
        rw [hsub]
        have hp := swap_remove_perm s.events s.count.toNat (ret % 4294967296) hi2 hi1
        have hq := hmid.perm hcap
        unfold PollState.wait_set at hq
        refine List.Perm.trans ?_ hq
        refine List.Perm.trans ?_ (List.Perm.append_right _ hp)
        rw [List.append_assoc]
        exact List.Perm.append_left _ List.perm_append_comm
      · have := (hmid.iters hcap).1
        simp only
        omega
  · rw [if_neg hsig]
    by_cases hh : s.have_select_revents = false
    · rw [if_pos hh]
      simp only [step_ok]
      constructor
      · exact hmid.log
      · exact hmid.walking
      · exact hmid.lock
      · exact hmid.notify_me
      · exact hmid.adds
      · exact hmid.subs
      · omega
      · intro _; omega
      · exact hmid.perm
      · intro hcap
        have := (hmid.iters hcap).1
        omega
    · rw [if_neg hh]
      have hh1 : s.have_select_revents = true := by simpa using hh
      refine poll_dispatch_ok pe none wc hmid.log ?_ hmid.walking hmid.lock hmid.notify_me
        hmid.first hmid.iter_eq hwc hmid.adds hmid.subs ?_
      · exact ⟨notify_me_settled_ok _ _ _, rfl, fun _ => hmid.hsr hh1, a1, w, a2, s.count, s.wait_set, t, ret,
          hl1, hl2, hl3, fun h => absurd h hsig, fun _ => rfl⟩
      · intro hcap
        refine ⟨by omega, hmid.count_hi hcap, hmid.count_dword hcap, ?_,
          (hmid.iters hcap).2 hh1⟩
        simp only [Option.toList, List.append_nil]
        exact hmid.perm hcap

theorem poll_iter_ok {capok : Prop} {nm0 wh0 : Int} {blocking0 prep : Bool}
    {init : List Int} (pe : PollEnv) {s : PollState}
    (hinv : PollInv capok pe.notify_me_bits nm0 wh0 blocking0 prep init s)
    (hpos : 0 < s.count) :
    step_ok capok pe.notify_me_bits nm0 wh0 blocking0 prep init (wait_count s.log)
      (poll_iter pe s) := by
  obtain ⟨s3, h3, hw⟩ := poll_waited pe hinv hpos
  obtain ⟨hm1, hm2⟩ := poll_first_mid pe hinv hpos hw
  unfold poll_iter
  simp only [h3]
  cases h5 : poll_first pe (poll_acquire (poll_timeout pe s) s3) with
  | none =>
    simp only [step_ok]
    exact ⟨by simp, hm2 h5⟩
  | some s5 =>
    simp only
    obtain ⟨g1, g2⟩ := hm1 s5 h5
    exact poll_select_ok pe _ _ g1 g2

theorem PollLeft_of_inv {capok : Prop} {bits : Nat} {nm0 wh0 : Int} {blocking0 prep : Bool}
    {init : List Int} {s : PollState}
    (hinv : PollInv capok bits nm0 wh0 blocking0 prep init s) (hf : s.first = false) : PollLeft capok bits nm0 wh0 blocking0 prep init s := by
  have hnm := hinv.notify_me
  have hsubs := hinv.subs
  rw [hf] at hnm hsubs
  constructor
  · exact hinv.log
  · exact hinv.walking
  · exact hinv.lock
  · simpa using hnm
  · exact hinv.adds
  · simpa using hsubs
  · exact (hinv.later hf).2.2
  · exact hinv.count_lo
  · exact hinv.perm
  · intro hcap
    have := hinv.iters hcap
    rw [hf] at this
    simp only [Bool.false_eq_true, if_false] at this
    omega

theorem PollEnd_of_inv {capok : Prop} {bits : Nat} {nm0 wh0 : Int} {blocking0 prep : Bool}
    {init : List Int} {s : PollState}
    (hinv : PollInv capok bits nm0 wh0 blocking0 prep init s) :
    PollEnd capok bits nm0 blocking0 prep init s := by
  constructor
  · exact hinv.log
  · exact hinv.adds
  · rw [hinv.subs]; split <;> omega
  · exact hinv.count_lo
  · exact hinv.perm
  · intro hcap
    have := hinv.iters hcap
    split at this <;> omega

theorem poll_finish_ok {capok : Prop} {bits : Nat} {nm0 wh0 : Int} {blocking0 prep : Bool}
    {init : List Int} (pe : PollEnv) {s : PollState}
    (h : PollLeft capok bits nm0 wh0 blocking0 prep init s) :
    outcome_ok capok bits nm0 blocking0 prep init (poll_finish pe s) := by
  have hlog1 : log_ok capok bits nm0 blocking0 prep init
      (s.log ++ [{ op := PollOp.timerlistgroup_run_timers,
                   notify_me := notify_me_settled bits nm0 blocking0, lock := 1 }]) :=
    log_ok_snoc h.log (lock_op_ok _ _ (Or.inr (Or.inr (Or.inl rfl))) 1 (fun _ _ => rfl))
  unfold poll_finish
  simp only [PollState.record, h.notify_me, h.lock]
  cases hr : run_calls pe.get_handle s.ctx (pe.timerlistgroup_run_timers s.ctx).2 with
  | none =>
    simp only [outcome_ok]
    refine ⟨by simp, ?_⟩
    constructor
    · exact hlog1
    · simp [op_count_append, op_count_cons, op_count_nil, h.adds]
    · simp only [op_count_append, op_count_cons, op_count_nil, h.subs]
      split <;> simp
    · exact h.count_lo
    · intro hcap
      simp only [PollState.wait_set, signaled_append, signaled_cons, signaled_nil,
        List.append_nil]
      exact h.perm hcap
    · intro hcap
      simp only [wait_count_append, wait_count_cons, wait_count_nil, PollOp.is_wait]
      have := h.waits hcap
      simpa using this
  | some ctx1 =>
    simp only [outcome_ok]
    have hnm1 : ctx1.notify_me = notify_me_settled bits nm0 blocking0 := by rw [run_calls_notify_me _ hr]; exact h.notify_me
    simp only [hnm1]
    have hlog2 : log_ok capok bits nm0 blocking0 prep init
        (s.log ++ [{ op := PollOp.timerlistgroup_run_timers,
                     notify_me := notify_me_settled bits nm0 blocking0, lock := 1 }] ++
          [{ op := PollOp.aio_context_release,
             notify_me := notify_me_settled bits nm0 blocking0, lock := 1 - 1 }]) :=
      log_ok_snoc hlog1 (lock_op_ok _ _ (Or.inr (Or.inr (Or.inr (Or.inr rfl)))) _
        (fun _ h => absurd rfl h))
    constructor
    · constructor
      · exact hlog2
      · simp [op_count_append, op_count_cons, op_count_nil, h.adds]
      · simp only [op_count_append, op_count_cons, op_count_nil, h.subs]
        split <;> simp
      · exact h.count_lo
      · intro hcap
        simp only [PollState.wait_set, signaled_append, signaled_cons, signaled_nil,
          List.append_nil]
        exact h.perm hcap
      · intro hcap
        simp only [wait_count_append, wait_count_cons, wait_count_nil, PollOp.is_wait]
        have := h.waits hcap
        simpa using this
    · exact hnm1
    · simp
    · simp [op_count_append, op_count_cons, op_count_nil, h.subs]
    · simp only [wait_count_append, wait_count_cons, wait_count_nil, PollOp.is_wait]
      have := h.waited
      omega

theorem poll_loop_ok {capok : Prop} {nm0 wh0 : Int} {blocking0 prep : Bool}
    {init : List Int} (pe : PollEnv) :
    ∀ (fuel : Nat) (s : PollState),
      PollInv capok pe.notify_me_bits nm0 wh0 blocking0 prep init s → 0 < s.count →
      outcome_ok capok pe.notify_me_bits nm0 blocking0 prep init (poll_loop pe fuel s) := by
  intro fuel
  induction fuel with
  | zero =>
    intro s hinv _
    simp only [poll_loop, outcome_ok]
    exact PollEnd_of_inv hinv
  | succ fuel ih =>
    intro s hinv hpos
    have hstep := poll_iter_ok pe hinv hpos
    simp only [poll_loop]
    cases hi : poll_iter pe s with
    | abort a s1 =>
      rw [hi] at hstep
      exact hstep
    | exit s1 =>
      rw [hi] at hstep
      exact poll_finish_ok pe hstep
    | next s1 =>
      rw [hi] at hstep
      simp only [step_ok] at hstep
      simp only
      by_cases hc : s1.count > 0
      · rw [if_pos hc]
        exact ih s1 hstep.1 hc
      · rw [if_neg hc]
        exact poll_finish_ok pe (PollLeft_of_inv hstep.1 hstep.2.1)

/-! ## The whole call -/

theorem poll_enter_log (pe : PollEnv) (ctx : AioContext) (blocking : Bool) :
    (poll_enter pe ctx blocking).log =
      { op := PollOp.aio_context_acquire, notify_me := ctx.notify_me, lock := 1 } ::
        (if blocking = true then
          [{ op := PollOp.atomic_add,
             notify_me := notify_me_raised pe.notify_me_bits ctx.notify_me blocking,
             lock := 1 }]
        else []) ∧
    (poll_enter pe ctx blocking).ctx.notify_me =
      notify_me_raised pe.notify_me_bits ctx.notify_me blocking ∧
    (poll_enter pe ctx blocking).ctx.walking_handlers = ctx.walking_handlers ∧
    (poll_enter pe ctx blocking).lock = 1 ∧ (poll_enter pe ctx blocking).blocking = blocking ∧
    (poll_enter pe ctx blocking).iter = 0 := by
  cases blocking <;> simp [poll_enter, PollState.record, notify_me_raised]

theorem poll_enter_log_ok (capok : Prop) (prep : Bool) (init : List Int) (pe : PollEnv)
    (ctx : AioContext) (blocking : Bool) :
    log_ok capok pe.notify_me_bits ctx.notify_me blocking prep init
      (poll_enter pe ctx blocking).log := by
  rw [(poll_enter_log pe ctx blocking).1]
  cases blocking with
  | false =>
    simp only [Bool.false_eq_true, if_false]
    exact log_ok_snoc (log_ok_nil _ _ _ _ _ _) ⟨Or.inl rfl, trivial⟩
  | true =>
    simp only [if_true]
    have h1 : log_ok capok pe.notify_me_bits ctx.notify_me true prep init
        ([] ++ [{ op := PollOp.aio_context_acquire, notify_me := ctx.notify_me, lock := 1 }]) :=
      log_ok_snoc (log_ok_nil _ _ _ _ _ _) ⟨Or.inl rfl, trivial⟩
    exact log_ok_snoc h1 ⟨Or.inr ⟨rfl, Or.inl rfl⟩, rfl, rfl, rfl⟩

theorem poll_fill_inv (pe : PollEnv) (ctx : AioContext) (blocking : Bool) :
    PollInv (cap_ok pe ∧
        (poll_fill pe (poll_enter pe ctx blocking)).events.length ≤ pe.MAXIMUM_WAIT_OBJECTS + 1)
      pe.notify_me_bits ctx.notify_me ctx.walking_handlers blocking (poll_prep pe ctx blocking)
      (poll_init pe ctx blocking) (poll_fill pe (poll_enter pe ctx blocking)) := by
  obtain ⟨h1, h2, h3, h4, h5, h6⟩ := poll_enter_log pe ctx blocking
  have hlog : log_ok (cap_ok pe ∧
        (poll_fill pe (poll_enter pe ctx blocking)).events.length ≤ pe.MAXIMUM_WAIT_OBJECTS + 1)
      pe.notify_me_bits ctx.notify_me blocking (poll_prep pe ctx blocking)
      (poll_init pe ctx blocking) (poll_fill pe (poll_enter pe ctx blocking)).log := by
    simp only [poll_fill, PollState.record]
    refine log_ok_snoc (poll_enter_log_ok _ _ _ pe ctx blocking) ⟨?_, rfl, h4⟩
    simp only
    rw [aio_prepare_notify_me, h2]
    cases blocking <;> simp [notify_me_raised]
  have hwc : wait_count (poll_fill pe (poll_enter pe ctx blocking)).log = 0 := by
    simp only [poll_fill, PollState.record, h1]
    cases blocking <;>
      simp [wait_count_append, wait_count_cons, wait_count_nil, PollOp.is_wait]
  have hsig : signaled (poll_fill pe (poll_enter pe ctx blocking)).log = [] := by
    simp only [poll_fill, PollState.record, h1]
    cases blocking <;> simp [signaled_append, signaled_cons, signaled_nil]
  constructor
  · exact hlog
  · simp only [poll_fill, PollState.record]
    rw [(aio_prepare_walking _ _ _).1, h3]
  · simp only [poll_fill, PollState.record]; exact h4
  · simp only [poll_fill, PollState.record, if_true]
    rw [aio_prepare_notify_me, h2]
  · intro _
    exact ⟨by simp only [poll_fill, PollState.record]; exact h5, rfl, hwc⟩
  · intro h; simp [poll_fill] at h
  · rw [hwc]; simp only [poll_fill, PollState.record]; exact h6
  · simp only [poll_fill, PollState.record, h1]
    cases blocking <;> simp [op_count_append, op_count_cons, op_count_nil]
  · simp only [poll_fill, PollState.record, h1]
    cases blocking <;> simp [op_count_append, op_count_cons, op_count_nil]
  · intro _; simp [poll_fill]
  · intro _; simp [poll_fill]
  · rintro ⟨hcap, hlen⟩
    unfold cap_ok at hcap
    simp only [poll_fill, PollState.record] at hlen ⊢
    omega
  · intro _
    rw [hsig]
    simp [poll_fill, PollState.wait_set, poll_init, PollState.record]
  · intro _
    rw [hwc]
    simp [poll_fill, poll_init, PollState.record]

/-- Whatever the environment does and however a call of `aio_poll` ends, its
log is as `outcome_ok` says. -/
theorem aio_poll_ok (pe : PollEnv) (fuel : Nat) (ctx : AioContext) (blocking : Bool) :
    outcome_ok (cap_ok pe ∧
        (poll_fill pe (poll_enter pe ctx blocking)).events.length ≤ pe.MAXIMUM_WAIT_OBJECTS + 1)
      pe.notify_me_bits ctx.notify_me blocking (poll_prep pe ctx blocking)
      (poll_init pe ctx blocking) (aio_poll pe fuel ctx blocking) := by
  have hinv := poll_fill_inv pe ctx blocking
  unfold aio_poll
  simp only
  by_cases ho : pe.MAXIMUM_WAIT_OBJECTS + 1 <
      (poll_fill pe (poll_enter pe ctx blocking)).events.length
  · rw [if_pos ho]
    exact ⟨by simp, PollEnd_of_inv hinv⟩
  · rw [if_neg ho]
    by_cases hc : (poll_fill pe (poll_enter pe ctx blocking)).count > 0
    · rw [if_pos hc]
      exact poll_loop_ok pe fuel _ hinv hc
    · rw [if_neg hc]
      exact ⟨by simp, PollEnd_of_inv hinv⟩

theorem poll_finish_fuel (pe : PollEnv) (s s1 : PollState) :
    poll_finish pe s ≠ Outcome.out_of_fuel s1 := by
  unfold poll_finish
  simp only
  cases run_calls pe.get_handle (s.record PollOp.timerlistgroup_run_timers).ctx
    (pe.timerlistgroup_run_timers (s.record PollOp.timerlistgroup_run_timers).ctx).2 <;> simp

/-- With `cap_ok`, the loop entered with `n` handles in the wait-set does not
need more than `n + 1` executions of its body. -/
theorem poll_loop_fuel {capok : Prop} {nm0 wh0 : Int} {blocking0 prep : Bool}
    {init : List Int} (pe : PollEnv) (hcap : capok) :
    ∀ (fuel : Nat) (s : PollState),
      PollInv capok pe.notify_me_bits nm0 wh0 blocking0 prep init s →
      0 < s.count → init.length + 1 ≤ fuel + wait_count s.log →
      ∀ s1, poll_loop pe fuel s ≠ Outcome.out_of_fuel s1 := by
  intro fuel
  induction fuel with
  | zero =>
    intro s hinv hpos hf s1
    have h1 := hinv.iters hcap
    have h2 : 1 ≤ s.count.toNat := by omega
    split at h1 <;> omega
  | succ fuel ih =>
    intro s hinv hpos hf s1
    have hstep := poll_iter_ok pe hinv hpos
    simp only [poll_loop]
    cases hi : poll_iter pe s with
    | abort a s2 => simp
    | exit s2 => exact poll_finish_fuel pe s2 s1
    | next s2 =>
      rw [hi] at hstep
      simp only [step_ok] at hstep
      simp only
      by_cases hc : s2.count > 0
      · rw [if_pos hc]
        exact ih s2 hstep.1 hc (by rw [hstep.2.2]; omega) s1
      · rw [if_neg hc]
        exact poll_finish_fuel pe s2 s1

theorem poll_dispatch_no_abort {pe : PollEnv} (hna : poll_no_abort pe) (ev : Option Int)
    (s : PollState) (hw : s.ctx.walking_handlers + 1 ≠ 0) (a : Abort) (s1 : PollState) :
    poll_dispatch pe ev s ≠ Step.abort a s1 := by
  unfold poll_dispatch
  simp only [PollState.record]
  obtain ⟨r, hr⟩ := aio_dispatch_handlers_returns (hna.1 s.iter) s.ctx (ev.getD 0) hw
  rw [hr]
  simp

theorem poll_iter_no_abort {capok : Prop} {nm0 wh0 : Int} {blocking0 prep : Bool}
    {init : List Int} {pe : PollEnv} (hna : poll_no_abort pe) (hwh : wh0 + 1 ≠ 0)
    {s : PollState} (hinv : PollInv capok pe.notify_me_bits nm0 wh0 blocking0 prep init s)
    (hpos : 0 < s.count)
    (a : Abort) (s1 : PollState) : poll_iter pe s ≠ Step.abort a s1 := by
  obtain ⟨s3, h3, hw⟩ := poll_waited pe hinv hpos
  obtain ⟨hm1, -⟩ := poll_first_mid pe hinv hpos hw
  unfold poll_iter
  simp only [h3]
  cases h5 : poll_first pe (poll_acquire (poll_timeout pe s) s3) with
  | none =>
    exfalso
    unfold poll_first at h5
    split at h5
    · simp only at h5
      obtain ⟨c1, hc1⟩ := hna.2.1
        (((poll_acquire (poll_timeout pe s) s3).record PollOp.aio_notify_accept).record
          PollOp.aio_bh_poll).ctx
      rw [hc1] at h5
      simp at h5
    · simp at h5
  | some s5 =>
    simp only
    obtain ⟨g1, -⟩ := hm1 s5 h5
    have hw5 : s5.ctx.walking_handlers + 1 ≠ 0 := by rw [g1.walking]; exact hwh
    unfold poll_select
    split
    · simp only
      exact poll_dispatch_no_abort hna _ _ (by exact hw5) a s1
    · split
      · simp
      · exact poll_dispatch_no_abort hna _ _ hw5 a s1

theorem poll_finish_no_abort {pe : PollEnv} (hna : poll_no_abort pe) (s : PollState)
    (a : Abort) (s1 : PollState) : poll_finish pe s ≠ Outcome.aborted a s1 := by
  unfold poll_finish
  simp only
  obtain ⟨c1, hc1⟩ := hna.2.2 (s.record PollOp.timerlistgroup_run_timers).ctx
  rw [hc1]
  simp

theorem poll_loop_no_abort {capok : Prop} {nm0 wh0 : Int} {blocking0 prep : Bool}
    {init : List Int} {pe : PollEnv} (hna : poll_no_abort pe) (hwh : wh0 + 1 ≠ 0) :
    ∀ (fuel : Nat) (s : PollState),
      PollInv capok pe.notify_me_bits nm0 wh0 blocking0 prep init s →
      0 < s.count → ∀ a s1, poll_loop pe fuel s ≠ Outcome.aborted a s1 := by
  intro fuel
  induction fuel with
  | zero => intro s _ _ a s1; simp [poll_loop]
  | succ fuel ih =>
    intro s hinv hpos a s1
    have hstep := poll_iter_ok pe hinv hpos
    have hnab := poll_iter_no_abort hna hwh hinv hpos
    simp only [poll_loop]
    cases hi : poll_iter pe s with
    | abort a2 s2 => exact absurd hi (hnab a2 s2)
    | exit s2 => exact poll_finish_no_abort hna s2 a s1
    | next s2 =>
      rw [hi] at hstep
      simp only [step_ok] at hstep
      simp only
      by_cases hc : s2.count > 0
      · rw [if_pos hc]
        exact ih s2 hstep.1 hc a s1
      · rw [if_neg hc]
        exact poll_finish_no_abort hna s2 a s1

/-- A call of `aio_poll` returns when `events[]` is not overrun, the wait-set is
not empty, no callback fails an assertion of a registration function, and the
iteration budget is at least the number of handles plus one. -/
theorem aio_poll_returns (pe : PollEnv) (fuel : Nat) (ctx : AioContext) (blocking : Bool)
    (hcap : cap_ok pe) (hna : poll_no_abort pe) (hwh : ctx.walking_handlers + 1 ≠ 0)
    (hlo : 0 < (poll_init pe ctx blocking).length)
    (hhi : (poll_init pe ctx blocking).length ≤ pe.MAXIMUM_WAIT_OBJECTS + 1)
    (hfuel : (poll_init pe ctx blocking).length + 1 ≤ fuel) :
    ∃ s, aio_poll pe fuel ctx blocking = Outcome.returned s := by
  have hinv := poll_fill_inv pe ctx blocking
  have hwc : wait_count (poll_fill pe (poll_enter pe ctx blocking)).log = 0 :=
    (hinv.at_first (by simp [poll_fill])).2.2
  have hc : (poll_fill pe (poll_enter pe ctx blocking)).count > 0 := by
    simp only [poll_fill, PollState.record]
    simp only [poll_init, poll_fill, PollState.record] at hlo
    omega
  have hno : ¬ pe.MAXIMUM_WAIT_OBJECTS + 1 <
      (poll_fill pe (poll_enter pe ctx blocking)).events.length := by
    unfold poll_init at hhi
    omega
  have h1 := poll_loop_fuel pe (⟨hcap, by unfold poll_init at hhi; exact hhi⟩ :
    cap_ok pe ∧ (poll_fill pe (poll_enter pe ctx blocking)).events.length
      ≤ pe.MAXIMUM_WAIT_OBJECTS + 1) fuel _ hinv hc (by rw [hwc]; exact hfuel)
  have h2 := poll_loop_no_abort hna hwh fuel _ hinv hc
  unfold aio_poll
  simp only
  rw [if_neg hno, if_pos hc]
  cases ho : poll_loop pe fuel (poll_fill pe (poll_enter pe ctx blocking)) with
  | returned s => exact ⟨s, rfl⟩
  | aborted a s => exact absurd ho (h2 a s)
  | out_of_fuel s => exact absurd ho (h1 s)

/-! ## Timeouts, the suppress counter and termination -/

theorem outcome_end {capok : Prop} {bits : Nat} {nm0 : Int} {blocking0 prep : Bool} {init : List Int}
    {o : Outcome} (h : outcome_ok capok bits nm0 blocking0 prep init o) :
    PollEnd capok bits nm0 blocking0 prep init o.state := by
  cases o with
  | returned s => exact h.ended
  | aborted a s => exact h.2
  | out_of_fuel s => exact h

/-- C12. For every environment, every context and every way a call of
`aio_poll` ends: a wait made after another wait of the call has timeout 0; a
wait with a non-zero timeout is the first wait of the call, `blocking` is true
and `aio_prepare` returned false; with `blocking = false` every wait has
timeout 0; the call holds the context lock during a wait (depth 1) exactly
when the timeout is 0, and has released it (depth 0) exactly when the timeout
is non-zero; `aio_prepare`, `aio_notify_accept`, `aio_bh_poll`, every dispatch
pass and the timers run with the lock held. -/
theorem first_wait_may_block (pe : PollEnv) (fuel : Nat) (ctx : AioContext)
    (blocking : Bool) :
    (∀ a e b c evs t r, (aio_poll pe fuel ctx blocking).state.log = a ++ e :: b →
      e.op = PollOp.WaitForMultipleObjects c evs t r →
        (0 < wait_count a → t = 0) ∧
        (t ≠ 0 → wait_count a = 0 ∧ blocking = true ∧ poll_prep pe ctx blocking = false) ∧
        (blocking = false → t = 0) ∧
        e.lock = (if t = 0 then 1 else 0)) ∧
    (∀ e ∈ (aio_poll pe fuel ctx blocking).state.log,
      ((∃ res, e.op = PollOp.aio_prepare res) ∨ e.op = PollOp.aio_notify_accept ∨
        e.op = PollOp.aio_bh_poll ∨ (∃ ev, e.op = PollOp.aio_dispatch_handlers ev) ∨
        e.op = PollOp.timerlistgroup_run_timers) → e.lock = 1) := by
  have hlog := (outcome_end (aio_poll_ok pe fuel ctx blocking)).log
  constructor
  · intro a e b c evs t r hl hop
    have h := (hlog a e b hl).2
    rw [hop] at h
    obtain ⟨h1, h2, h3, -⟩ := h
    refine ⟨h1, fun ht => ⟨?_, h2 ht⟩, fun hb => ?_, h3⟩
    · by_contra hw
      exact ht (h1 (by omega))
    · by_contra ht
      rw [(h2 ht).1] at hb
      exact absurd hb (by decide)
  · intro e he hop
    obtain ⟨a, b, hl⟩ := List.append_of_mem he
    have h := (hlog a e b hl).2
    rcases hop with ⟨res, hop⟩ | hop | hop | ⟨ev, hop⟩ | hop
    · rw [hop] at h; exact h.2
    · rw [hop] at h; exact h
    · rw [hop] at h; exact h
    · rw [hop] at h; exact h.1
    · rw [hop] at h; exact h

/-- C13 (amended). Let `notify_me` be an unsigned counter of `notify_me_bits`
bits that only the call itself modifies and, for a call with `blocking`, let
its value on entry leave room for the addition: `0 ≤ notify_me` and
`notify_me + 2 < 2 ^ notify_me_bits`.  Then for every environment and every
way the call of `aio_poll` ends: `assert(first)` does not fail; after every
operation `notify_me` is its value on entry or, with `blocking`, that value
plus 2, so it is never below the value on entry and keeps its parity, and
with `blocking = false` it is never modified; the addition is made right
after the lock is taken, before `aio_prepare`, and the first wait sees the
raised value; a subtraction comes immediately after the first wait and
restores the value on entry; there is one addition with `blocking` and none
without, and at most one subtraction; a call that returns has made exactly
one subtraction with `blocking` and none without, and returns with
`notify_me` at its value on entry; and the call does return when `events[]`
is not overrun, the wait-set is not empty and no callback fails an assertion
of a registration function. -/
theorem notify_me_balance (pe : PollEnv) (fuel : Nat) (ctx : AioContext) (blocking : Bool)
    (hroom : blocking = true →
      0 ≤ ctx.notify_me ∧ ctx.notify_me + 2 < (2 : Int) ^ pe.notify_me_bits) :
    (∀ s, aio_poll pe fuel ctx blocking ≠ Outcome.aborted Abort.assert_first s) ∧
    (∀ e ∈ (aio_poll pe fuel ctx blocking).state.log,
      (e.notify_me = ctx.notify_me ∨ (blocking = true ∧ e.notify_me = ctx.notify_me + 2)) ∧
      ctx.notify_me ≤ e.notify_me ∧ e.notify_me % 2 = ctx.notify_me % 2 ∧
      (blocking = false → e.op ≠ PollOp.atomic_add ∧ e.op ≠ PollOp.atomic_sub)) ∧
    (∀ a e b, (aio_poll pe fuel ctx blocking).state.log = a ++ e :: b →
      (e.op = PollOp.atomic_add →
        a.map PollEvent.op = [PollOp.aio_context_acquire] ∧
          e.notify_me = ctx.notify_me + 2) ∧
      (∀ c evs t r, e.op = PollOp.WaitForMultipleObjects c evs t r → wait_count a = 0 →
        e.notify_me = ctx.notify_me + (if blocking = true then 2 else 0)) ∧
      (e.op = PollOp.atomic_sub →
        e.notify_me = ctx.notify_me ∧
          ∃ a1 w, a = a1 ++ [w] ∧ w.op.is_wait = true ∧ wait_count a1 = 0)) ∧
    op_count PollOp.atomic_add (aio_poll pe fuel ctx blocking).state.log =
      (if blocking = true then 1 else 0) ∧
    op_count PollOp.atomic_sub (aio_poll pe fuel ctx blocking).state.log ≤ 1 ∧
    (∀ s, aio_poll pe fuel ctx blocking = Outcome.returned s →
      s.ctx.notify_me = ctx.notify_me ∧ 0 < wait_count s.log ∧
      op_count PollOp.atomic_sub s.log = (if blocking = true then 1 else 0)) ∧
    (cap_ok pe → poll_no_abort pe → ctx.walking_handlers + 1 ≠ 0 →
      0 < (poll_init pe ctx blocking).length →
      (poll_init pe ctx blocking).length ≤ pe.MAXIMUM_WAIT_OBJECTS + 1 →
      (poll_init pe ctx blocking).length + 1 ≤ fuel →
      ∃ s, aio_poll pe fuel ctx blocking = Outcome.returned s) := by
  have hraised : notify_me_raised pe.notify_me_bits ctx.notify_me blocking =
      ctx.notify_me + (if blocking = true then 2 else 0) := by
    cases hb : blocking with
    | false => simp [notify_me_raised]
    | true =>
      obtain ⟨h0, h1⟩ := hroom hb
      simp only [notify_me_raised, if_true]
      exact (notify_me_no_wrap pe.notify_me_bits ctx.notify_me h0
        (by push_cast; exact h1)).1
  have hsettled : notify_me_settled pe.notify_me_bits ctx.notify_me blocking =
      ctx.notify_me := by
    cases hb : blocking with
    | false => simp [notify_me_settled]
    | true =>
      obtain ⟨h0, h1⟩ := hroom hb
      simp only [notify_me_settled, if_true]
      exact (notify_me_no_wrap pe.notify_me_bits ctx.notify_me h0
        (by push_cast; exact h1)).2
  have hok := aio_poll_ok pe fuel ctx blocking
  have hend := outcome_end hok
  have hlog := hend.log
  have hval : ∀ e ∈ (aio_poll pe fuel ctx blocking).state.log,
      e.notify_me = ctx.notify_me ∨ (blocking = true ∧ e.notify_me = ctx.notify_me + 2) := by
    intro e he
    obtain ⟨a, b, hl⟩ := List.append_of_mem he
    obtain ⟨h1, -⟩ := hlog a e b hl
    rw [hraised, hsettled] at h1
    rcases h1 with h1 | ⟨hb, h1 | h1⟩
    · exact Or.inl h1
    · rw [hb] at h1
      exact Or.inr ⟨hb, by simpa using h1⟩
    · exact Or.inl h1
  refine ⟨?_, ?_, ?_, hend.adds, hend.subs, ?_, ?_⟩
  · intro s hs
    rw [hs] at hok
    exact hok.1 rfl
  · intro e he
    have h1 := hval e he
    obtain ⟨a, b, hl⟩ := List.append_of_mem he
    obtain ⟨-, h2⟩ := hlog a e b hl
    refine ⟨h1, ?_, ?_, ?_⟩
    · rcases h1 with h1 | ⟨-, h1⟩ <;> omega
    · rcases h1 with h1 | ⟨-, h1⟩ <;> omega
    · intro hb
      constructor
      · intro hop
        rw [hop] at h2
        rw [h2.1] at hb
        exact absurd hb (by decide)
      · intro hop
        rw [hop] at h2
        rw [h2.1] at hb
        exact absurd hb (by decide)
  · intro a e b hl
    have h2 := (hlog a e b hl).2
    refine ⟨?_, ?_, ?_⟩
    · intro hop
      rw [hop] at h2
      obtain ⟨hb, hv, ha⟩ := h2
      rw [hraised, hb] at hv
      exact ⟨ha, by simpa using hv⟩
    · intro c evs t r hop hw
      rw [hop] at h2
      have hv := h2.2.2.2.2.1 hw
      rw [hraised] at hv
      exact hv
    · intro hop
      rw [hop] at h2
      obtain ⟨-, hv, ha⟩ := h2
      rw [hsettled] at hv
      exact ⟨hv, ha⟩
  · intro s hs
    rw [hs] at hok
    exact ⟨hok.notify_me.trans hsettled, hok.waited, hok.subs⟩
  · intro hcap hna hwh hlo hhi hfuel
    exact aio_poll_returns pe fuel ctx blocking hcap hna hwh hlo hhi hfuel

/-- C17. Let `MAXIMUM_WAIT_OBJECTS + 1` be a value of `int` and let the `n`
handles stored by the fill loop fit in `events[]`.  Then, for every
environment and every sequence of wait results: an iteration budget of
`n + 1` is never used up, and whatever way the call ends it has made at most
`n + 1` waits; every wait is made with `count > 0` on a wait-set of `count`
handles which, together with the handles dispatched before, is a
permutation of the initial wait-set; every dispatch follows a wait of the
same iteration and is passed the handle in the signaled slot of that wait's
wait-set if the wait reported a signaled object, and `NULL` if not, which
happens only after the first wait of the call and only if `aio_prepare`
returned true; and in the end `count` is not negative and the remaining
wait-set with the dispatched handles is a permutation of the initial one. -/
theorem wait_loop_terminates (pe : PollEnv) (fuel : Nat) (ctx : AioContext)
    (blocking : Bool) (hcap : cap_ok pe)
    (hhi : (poll_init pe ctx blocking).length ≤ pe.MAXIMUM_WAIT_OBJECTS + 1) :
    ((poll_init pe ctx blocking).length + 1 ≤ fuel →
      ∀ s, aio_poll pe fuel ctx blocking ≠ Outcome.out_of_fuel s) ∧
    wait_count (aio_poll pe fuel ctx blocking).state.log ≤
      (poll_init pe ctx blocking).length + 1 ∧
    (∀ a e b, (aio_poll pe fuel ctx blocking).state.log = a ++ e :: b →
      (∀ c evs t r, e.op = PollOp.WaitForMultipleObjects c evs t r →
        0 < c ∧ evs.length = c.toNat ∧
          (evs ++ signaled a).Perm (poll_init pe ctx blocking) ∧
          wait_count a ≤ (poll_init pe ctx blocking).length) ∧
      (∀ ev, e.op = PollOp.aio_dispatch_handlers ev →
        ∃ a1 w a2 c evs t r, a = a1 ++ w :: a2 ∧
          w.op = PollOp.WaitForMultipleObjects c evs t r ∧ wait_count a2 = 0 ∧
          (is_signaled r c → ev = some (evs.getD (r % 4294967296) 0)) ∧
          (¬ is_signaled r c →
            ev = none ∧ wait_count a = 1 ∧ poll_prep pe ctx blocking = true))) ∧
    0 ≤ (aio_poll pe fuel ctx blocking).state.count ∧
    ((aio_poll pe fuel ctx blocking).state.wait_set ++
      signaled (aio_poll pe fuel ctx blocking).state.log).Perm (poll_init pe ctx blocking) := by
  have hc : cap_ok pe ∧ (poll_fill pe (poll_enter pe ctx blocking)).events.length
      ≤ pe.MAXIMUM_WAIT_OBJECTS + 1 := ⟨hcap, by unfold poll_init at hhi; exact hhi⟩
  have hok := aio_poll_ok pe fuel ctx blocking
  have hend := outcome_end hok
  have hlog := hend.log
  refine ⟨?_, hend.waits hc, ?_, hend.count_lo hc, hend.perm hc⟩
  · intro hfuel s hs
    have hinv := poll_fill_inv pe ctx blocking
    have hwc : wait_count (poll_fill pe (poll_enter pe ctx blocking)).log = 0 :=
      (hinv.at_first (by simp [poll_fill])).2.2
    unfold aio_poll at hs
    simp only at hs
    split at hs
    · simp at hs
    · split at hs
      · rename_i hpos
        exact poll_loop_fuel pe hc fuel _ hinv hpos (by rw [hwc]; exact hfuel) s hs
      · simp at hs
  · intro a e b hl
    have h2 := (hlog a e b hl).2
    constructor
    · intro c evs t r hop
      rw [hop] at h2
      obtain ⟨-, -, -, h4, -, h6⟩ := h2
      exact ⟨h4, h6 hc⟩
    · intro ev hop
      rw [hop] at h2
      obtain ⟨-, h3, a1, w, a2, c, evs, t, r, g1, g2, g3, g4, g5⟩ := h2
      exact ⟨a1, w, a2, c, evs, t, r, g1, g2, g3, fun hs => g4 hs hc,
        fun hs => ⟨g5 hs, h3 (g5 hs)⟩⟩

theorem ex_poll_env_no_abort : poll_no_abort ex_poll_env :=
  ⟨fun _ _ _ ctx _ => ⟨ctx, rfl⟩, fun c => ⟨c, rfl⟩, fun c => ⟨c, rfl⟩⟩

/-- Witness for `first_wait_may_block`: a blocking call on two notifiers whose
waits report object 0 twice makes its first wait with the computed timeout
of 50 ms and the lock released, its second wait with timeout 0 and the lock
held, and runs the bottom halves with the lock held. -/
theorem first_wait_may_block_witness :
    ((aio_poll ex_poll_env 3 ex_ctx_notifiers true).state.log.filterMap fun e =>
      match e.op with
      | PollOp.WaitForMultipleObjects _ _ t _ => some (t, e.lock)
      | _ => none) = [(50, 0), (0, 1)] ∧
    ∀ e ∈ (aio_poll ex_poll_env 3 ex_ctx_notifiers true).state.log,
      e.op = PollOp.aio_bh_poll → e.lock = 1 :=
  ⟨by decide, fun e he h =>
    (first_wait_may_block ex_poll_env 3 ex_ctx_notifiers true).2 e he
      (Or.inr (Or.inr (Or.inl h)))⟩

/-- Witness for `notify_me_balance`: a blocking call on two notifiers, entered
with `notify_me = 0`, returns with `notify_me = 0` after one subtraction. -/
theorem notify_me_balance_witness :
    (0 ≤ ex_ctx_notifiers.notify_me ∧
      ex_ctx_notifiers.notify_me + 2 < (2 : Int) ^ ex_poll_env.notify_me_bits) ∧
    ∃ s, aio_poll ex_poll_env 3 ex_ctx_notifiers true = Outcome.returned s ∧
      s.ctx.notify_me = 0 ∧ op_count PollOp.atomic_sub s.log = 1 ∧
      s.log.map PollEvent.notify_me = [0, 2, 2, 2, 2, 0, 0, 0, 0, 0, 0, 0, 0, 0] := by
  obtain ⟨-, -, -, -, -, h6, h7⟩ :=
    notify_me_balance ex_poll_env 3 ex_ctx_notifiers true (fun _ => by decide)
  obtain ⟨s, hs⟩ := h7 (by decide) ex_poll_env_no_abort (by decide) (by decide) (by decide)
    (by decide)
  refine ⟨by decide, s, hs, (h6 s hs).1, (h6 s hs).2.2, ?_⟩
  have h : (aio_poll ex_poll_env 3 ex_ctx_notifiers true).state.log.map PollEvent.notify_me
      = [0, 2, 2, 2, 2, 0, 0, 0, 0, 0, 0, 0, 0, 0] := by decide
  rw [hs] at h
  exact h

/-- Witness for `wait_loop_terminates`: a call on two notifiers whose waits
report object 0 twice makes two waits, on the wait-sets `[1007, 1100]` and
`[1100]`, and a budget of three iterations is not used up. -/
theorem wait_loop_terminates_witness :
    cap_ok ex_poll_env ∧ poll_init ex_poll_env ex_ctx_notifiers false = [1007, 1100] ∧
    (∀ s, aio_poll ex_poll_env 3 ex_ctx_notifiers false ≠ Outcome.out_of_fuel s) ∧
    ((aio_poll ex_poll_env 3 ex_ctx_notifiers false).state.log.filterMap fun e =>
      match e.op with
      | PollOp.WaitForMultipleObjects _ evs _ _ => some evs
      | _ => none) = [[1007, 1100], [1100]] ∧
    signaled (aio_poll ex_poll_env 3 ex_ctx_notifiers false).state.log = [1007, 1100] :=
  ⟨by decide, by decide,
    (wait_loop_terminates ex_poll_env 3 ex_ctx_notifiers false (by decide) (by decide)).1
      (by decide),
    by decide, by decide⟩

/-- C13 (counterexample). A 32-bit counter at `4294967294` on entry: the
addition of a blocking call wraps it to 0, below its value on entry, and it
stays there until the subtraction after the first wait brings it back. -/
theorem notify_me_wraps :
    ex_poll_env.notify_me_bits = 32 ∧ ex_ctx_counter_top.notify_me = 4294967294 ∧
    (aio_poll ex_poll_env 3 ex_ctx_counter_top true).state.log.map
        (fun e => (decide (e.op = PollOp.atomic_add), e.notify_me)) =
      [(false, 4294967294), (true, 0), (false, 0), (false, 0), (false, 0),
        (false, 4294967294), (false, 4294967294), (false, 4294967294), (false, 4294967294),
        (false, 4294967294), (false, 4294967294), (false, 4294967294), (false, 4294967294),
        (false, 4294967294)] ∧
    ∃ e ∈ (aio_poll ex_poll_env 3 ex_ctx_counter_top true).state.log,
      e.op = PollOp.atomic_add ∧ e.notify_me < ex_ctx_counter_top.notify_me := by
  refine ⟨rfl, rfl, by decide, ?_⟩
  exact ⟨{ op := PollOp.atomic_add, notify_me := 0, lock := 1 }, by decide, rfl, by decide⟩

/-! ## Callbacks that change the registry during a pass -/

end AioWin32
